import Mathlib

/-! GameAP plugin runtime: event dispatcher, plugin ID codec, in-memory plugin storage.

A shallow embedding of

* `pkg/plugin/dispatcher.go` (`Dispatcher.Dispatch`, `isCancellableEvent`, ...),
* `pkg/plugin/id.go` (`ParsePluginID`, `CompactPluginID`),
* `internal/repositories/inmemory/plugin_storage.go` (the in-memory repository),
* `internal/plugin/hostlibrary/storage.go` (the storage host library),

followed by theorems about them.

Conventions of the embedding

* Go maps are association lists (`GoMap`) read through `GoMap.get`; a Go
  `map[uint64]struct{}` is a list of IDs used as a set.  Where Go ranges over a
  map (in unspecified order) the model ranges over the list in list order.
* Pointers to values (`*string`, `*uint`, `*time.Time`) are `Option`s.
* Unsigned 64-bit integers are natural numbers; the only arithmetic performed
  on them (the ID counter) is reduced modulo `2 ^ 64`.
* `time.Time` is a natural number (a clock reading).
* Errors are strings.
-/

namespace Gameap

/-! ## Go maps -/

/-- A Go map, as an association list. -/
abbrev GoMap (κ ν : Type) := List (κ × ν)

namespace GoMap

variable {κ ν : Type} [DecidableEq κ]

/-- The lookup `m[k]` with its `exists` flag. -/
def get : GoMap κ ν → κ → Option ν
  | [], _ => none
  | (k', v) :: m, k => if k' = k then some v else get m k

/-- The assignment `m[k] = v`. -/
def set : GoMap κ ν → κ → ν → GoMap κ ν
  | [], k, v => [(k, v)]
  | (k', v') :: m, k, v => if k' = k then (k, v) :: m else (k', v') :: set m k v

/-- The builtin `delete(m, k)`. -/
def delete (m : GoMap κ ν) (k : κ) : GoMap κ ν :=
  m.filter (fun kv => decide (kv.1 ≠ k))

/-- The keys a `range` over the map visits. -/
def keys (m : GoMap κ ν) : List κ := m.map Prod.fst

end GoMap

/-- Adding to a `map[uint64]struct{}`: `s[id] = struct{}{}`. -/
def setAdd (s : List Nat) (id : Nat) : List Nat :=
  if id ∈ s then s else s ++ [id]

/-- Removing from a `map[uint64]struct{}`: `delete(s, id)`. -/
def setDel (s : List Nat) (id : Nat) : List Nat :=
  s.filter (fun x => decide (x ≠ id))

/-- The call `maps.Copy(dst, src)`: every pair of `src` is assigned into `dst`. -/
def mapsCopy {κ ν : Type} [DecidableEq κ] (dst src : GoMap κ ν) : GoMap κ ν :=
  src.foldl (fun acc kv => GoMap.set acc kv.1 kv.2) dst

/-! ## Event dispatcher (`pkg/plugin/dispatcher.go`) -/

/-- The event types the sources name (`proto.EventType_EVENT_TYPE_*`); every other
value of the wire enumeration (the task events among them) is `OTHER code`. -/
inductive EventType where
  | UNSPECIFIED
  | SERVER_PRE_START
  | SERVER_POST_START
  | SERVER_PRE_STOP
  | SERVER_POST_STOP
  | SERVER_PRE_RESTART
  | SERVER_POST_RESTART
  | SERVER_PRE_INSTALL
  | SERVER_POST_INSTALL
  | SERVER_PRE_UPDATE
  | SERVER_POST_UPDATE
  | SERVER_PRE_REINSTALL
  | SERVER_POST_REINSTALL
  | SERVER_PRE_DELETE
  | SERVER_POST_DELETE
  | OTHER (code : Nat)
  deriving DecidableEq, Repr

/-- The part of `proto.Event` the dispatcher reads: its type; the timestamp is kept
as data handed to the guests. -/
structure Event where
  Typ : EventType
  Timestamp : Int
  deriving DecidableEq, Repr

/-- The guest's answer to `HandleEvent` (`proto.EventResult`). -/
structure EventResult where
  Handled : Bool
  ShouldCancel : Bool
  Message : Option String
  ModifiedData : GoMap String String
  deriving DecidableEq, Repr

/-- A loaded plugin as the dispatcher sees it: the enabled flag, `Info.Id`, and the
two guest calls of `Instance`, each given by what it returns. -/
structure LoadedPlugin where
  Enabled : Bool
  InfoId : String
  HandleEvent : Event → Except String EventResult
  GetSubscribedEvents : Except String (List EventType)

/-- Result record of a dispatch: `EventDispatchResult`. -/
structure EventDispatchResult where
  Cancelled : Bool
  CancelledBy : String
  CancelMessage : String
  HandledBy : List String
  ModifiedData : GoMap String String
  Errors : List String
  deriving DecidableEq, Repr

/-- The dispatcher: its subscription map and the `subscriptionsOK` flag. -/
structure Dispatcher where
  subscriptions : GoMap EventType (List LoadedPlugin)
  subscriptionsOK : Bool

/-- A fresh dispatcher: `NewDispatcher`. -/
def NewDispatcher : Dispatcher :=
  { subscriptions := [], subscriptionsOK := false }

/-- Cancellable event types: `isCancellableEvent`. -/
def isCancellableEvent : EventType → Bool
  | .SERVER_PRE_START => true
  | .SERVER_PRE_STOP => true
  | .SERVER_PRE_RESTART => true
  | .SERVER_PRE_INSTALL => true
  | .SERVER_PRE_UPDATE => true
  | .SERVER_PRE_REINSTALL => true
  | .SERVER_PRE_DELETE => true
  | _ => false

/-- The message of `errors.Wrapf(err, "plugin %s failed to handle event", id)`. -/
def wrapHandleError (err : String) (id : String) : String :=
  "plugin " ++ id ++ " failed to handle event: " ++ err

/-- What a dispatch produces: the returned record, and the guests whose
`HandleEvent` was called, in call order. -/
structure DispatchRun where
  result : EventDispatchResult
  invoked : List LoadedPlugin

/-- The loop of `Dispatch` over the subscribers, from the record and the call log
accumulated so far. -/
def dispatchLoop (cancellable : Bool) (event : Event) :
    List LoadedPlugin → DispatchRun → DispatchRun
  | [], run => run
  | plugin :: rest, run =>
    if !plugin.Enabled then
      dispatchLoop cancellable event rest run
    else
      match plugin.HandleEvent event with
      | .error err =>
        dispatchLoop cancellable event rest
          { result :=
              { run.result with
                Errors := run.result.Errors ++ [wrapHandleError err plugin.InfoId] }
            invoked := run.invoked ++ [plugin] }
      | .ok eventResult =>
        let result :=
          if eventResult.Handled then
            { run.result with HandledBy := run.result.HandledBy ++ [plugin.InfoId] }
          else run.result
        if cancellable && eventResult.ShouldCancel then
          { result :=
              { result with
                Cancelled := true
                CancelledBy := plugin.InfoId
                CancelMessage :=
                  match eventResult.Message with
                  | some m => m
                  | none => result.CancelMessage }
            invoked := run.invoked ++ [plugin] }
        else
          dispatchLoop cancellable event rest
            { result :=
                { result with
                  ModifiedData := mapsCopy result.ModifiedData eventResult.ModifiedData }
              invoked := run.invoked ++ [plugin] }

/-- The record `Dispatch` starts from. -/
def emptyResult : EventDispatchResult :=
  { Cancelled := false, CancelledBy := "", CancelMessage := "",
    HandledBy := [], ModifiedData := [], Errors := [] }

/-- The subscriber slice `d.subscriptions[eventType]` (nil when the key is absent). -/
def subscribersOf (d : Dispatcher) (eventType : EventType) : List LoadedPlugin :=
  (d.subscriptions.get eventType).getD []

/-- The method `Dispatcher.Dispatch`. -/
def Dispatch (d : Dispatcher) (event : Event) : DispatchRun :=
  let subscribers := subscribersOf d event.Typ
  if subscribers.length = 0 then
    { result := emptyResult, invoked := [] }
  else
    dispatchLoop (isCancellableEvent event.Typ) event subscribers
      { result := emptyResult, invoked := [] }

/-- The method `Dispatcher.RefreshSubscriptions`, over the plugins the manager
returns (`d.manager.GetPlugins()`). -/
def RefreshSubscriptions (_d : Dispatcher) (plugins : List LoadedPlugin) : Dispatcher :=
  let subscriptions : GoMap EventType (List LoadedPlugin) :=
    plugins.foldl
      (fun subs plugin =>
        if !plugin.Enabled then subs
        else
          match plugin.GetSubscribedEvents with
          | .error _ => subs
          | .ok events =>
            events.foldl
              (fun subs eventType =>
                GoMap.set subs eventType ((GoMap.get subs eventType).getD [] ++ [plugin]))
              subs)
      []
  { subscriptions := subscriptions, subscriptionsOK := true }

/-- The method `Dispatcher.HasSubscribers`. -/
def HasSubscribers (d : Dispatcher) (eventType : EventType) : Bool :=
  (subscribersOf d eventType).any (fun p => p.Enabled)

/-! ### Sample guests -/

/-- A guest that handles every event and asks for nothing. -/
def guestHandles (id : String) : LoadedPlugin :=
  { Enabled := true, InfoId := id, GetSubscribedEvents := .ok [],
    HandleEvent := fun _ => .ok ⟨true, false, none, []⟩ }

/-- A guest that asks to cancel every event, with a message. -/
def guestVetoes (id msg : String) : LoadedPlugin :=
  { Enabled := true, InfoId := id, GetSubscribedEvents := .ok [],
    HandleEvent := fun _ => .ok ⟨false, true, some msg, []⟩ }

/-- A guest whose `HandleEvent` fails. -/
def guestFails (id err : String) : LoadedPlugin :=
  { Enabled := true, InfoId := id, GetSubscribedEvents := .ok [],
    HandleEvent := fun _ => .error err }

/-- A dispatcher whose only subscriptions are `subs`, for event type `t`. -/
def dispatcherOf (t : EventType) (subs : List LoadedPlugin) : Dispatcher :=
  { subscriptions := [(t, subs)], subscriptionsOK := true }

/-- A dispatcher with four subscribers of one event type. -/
def sampleDispatcher (t : EventType) : Dispatcher :=
  dispatcherOf t
    [guestHandles "A", guestVetoes "B" "veto", guestFails "C" "boom", guestHandles "D"]

/-! ## Plugin ID codec (`pkg/plugin/id.go`)

Go strings are modelled by `String`, that is, by the Go strings that are valid
UTF-8.  The standard-library calls the codec makes (`strconv.ParseUint`,
`base32.Encoding.EncodeToString` / `DecodeString` without padding,
`binary.BigEndian`, `fnv.New64a`) are modelled from their documented behaviour. -/

/-- The call `strconv.ParseUint(s, 10, 64)`: `none` stands for a non-nil error (empty
input, a character that is no decimal digit, or a value above `2 ^ 64 - 1`). -/
def parseUint10 (s : String) : Option Nat :=
  if s.toList = [] then none
  else
    s.toList.foldl
      (fun acc c =>
        match acc with
        | none => none
        | some n =>
          if '0' ≤ c ∧ c ≤ '9' then
            let n' := n * 10 + (c.toNat - '0'.toNat)
            if n' < 2 ^ 64 then some n' else none
          else none)
      (some 0)

/-- The alphabet of `IDEncoding`: `"abcdefghijklmnopqrstuvwxyz234567"`. -/
def idAlphabet (v : Nat) : Char :=
  if v < 26 then Char.ofNat ('a'.toNat + v) else Char.ofNat ('2'.toNat + (v - 26))

/-- The decode map of `IDEncoding`: the 5-bit value of a character of the alphabet,
`none` for every other character. -/
def idDecodeMap (c : Char) : Option Nat :=
  if 'a' ≤ c ∧ c ≤ 'z' then some (c.toNat - 'a'.toNat)
  else if '2' ≤ c ∧ c ≤ '7' then some (c.toNat - '2'.toNat + 26)
  else none

/-- Base-32 encoding of bytes to 5-bit values, without padding: full groups of five
bytes give eight values; a last group of 1, 2, 3 or 4 bytes gives 2, 4, 5 or 7. -/
def base32Values : List Nat → List Nat
  | b0 :: b1 :: b2 :: b3 :: b4 :: rest =>
    [b0 / 8, (b0 % 8) * 4 + b1 / 64, (b1 / 2) % 32, (b1 % 2) * 16 + b2 / 16,
     (b2 % 16) * 2 + b3 / 128, (b3 / 4) % 32, (b3 % 4) * 8 + b4 / 32, b4 % 32]
      ++ base32Values rest
  | [b0, b1, b2, b3] =>
    [b0 / 8, (b0 % 8) * 4 + b1 / 64, (b1 / 2) % 32, (b1 % 2) * 16 + b2 / 16,
     (b2 % 16) * 2 + b3 / 128, (b3 / 4) % 32, (b3 % 4) * 8]
  | [b0, b1, b2] =>
    [b0 / 8, (b0 % 8) * 4 + b1 / 64, (b1 / 2) % 32, (b1 % 2) * 16 + b2 / 16,
     (b2 % 16) * 2]
  | [b0, b1] => [b0 / 8, (b0 % 8) * 4 + b1 / 64, (b1 / 2) % 32, (b1 % 2) * 16]
  | [b0] => [b0 / 8, (b0 % 8) * 4]
  | [] => []

/-- The call `IDEncoding.EncodeToString(src)`. -/
def idEncodeToString (src : List Nat) : String :=
  String.mk ((base32Values src).map idAlphabet)

/-- Packing of one quantum of at most eight 5-bit values into bytes, as the decoder
of `encoding/base32` does it: 8, 7, 5, 4 or 2 values give 5, 4, 3, 2 or 1 bytes, and
a last quantum of any other length gives none. -/
def base32Quantum : List Nat → List Nat
  | [d0, d1, d2, d3, d4, d5, d6, d7] =>
    [(d0 * 8 + d1 / 4) % 256, (d1 * 64 + d2 * 2 + d3 / 16) % 256,
     (d3 * 16 + d4 / 2) % 256, (d4 * 128 + d5 * 4 + d6 / 8) % 256,
     (d6 * 32 + d7) % 256]
  | [d0, d1, d2, d3, d4, d5, d6] =>
    [(d0 * 8 + d1 / 4) % 256, (d1 * 64 + d2 * 2 + d3 / 16) % 256,
     (d3 * 16 + d4 / 2) % 256, (d4 * 128 + d5 * 4 + d6 / 8) % 256]
  | [d0, d1, d2, d3, d4] =>
    [(d0 * 8 + d1 / 4) % 256, (d1 * 64 + d2 * 2 + d3 / 16) % 256,
     (d3 * 16 + d4 / 2) % 256]
  | [d0, d1, d2, d3] =>
    [(d0 * 8 + d1 / 4) % 256, (d1 * 64 + d2 * 2 + d3 / 16) % 256]
  | [d0, d1] => [(d0 * 8 + d1 / 4) % 256]
  | _ => []

/-- Decoding of a sequence of 5-bit values, quantum by quantum. -/
def base32Bytes : List Nat → List Nat
  | d0 :: d1 :: d2 :: d3 :: d4 :: d5 :: d6 :: d7 :: rest =>
    base32Quantum [d0, d1, d2, d3, d4, d5, d6, d7] ++ base32Bytes rest
  | ds => base32Quantum ds

/-- The 5-bit values of a character sequence, `none` when a character is outside the
alphabet. -/
def idDecodeValues : List Char → Option (List Nat)
  | [] => some []
  | c :: cs =>
    match idDecodeMap c, idDecodeValues cs with
    | some v, some vs => some (v :: vs)
    | _, _ => none

/-- The call `IDEncoding.DecodeString(s)`: carriage returns and line feeds are
dropped, then the rest is decoded; `none` stands for a non-nil error.  (The byte
`0xFF`, which the decoder of an encoding without padding takes for a padding
character, does not occur in a valid UTF-8 string.) -/
def idDecodeString (s : String) : Option (List Nat) :=
  (idDecodeValues (s.toList.filter (fun c => c ≠ '\r' ∧ c ≠ '\n'))).map base32Bytes

/-- The call `binary.BigEndian.Uint64(buf)` on bytes, most significant first. -/
def bigEndianValue (buf : List Nat) : Nat :=
  buf.foldl (fun acc b => acc * 256 + b) 0

/-- The call `binary.BigEndian.PutUint64(buf, id)` on a fresh 8-byte buffer. -/
def putUint64 (id : Nat) : List Nat :=
  [id / 2 ^ 56 % 256, id / 2 ^ 48 % 256, id / 2 ^ 40 % 256, id / 2 ^ 32 % 256,
   id / 2 ^ 24 % 256, id / 2 ^ 16 % 256, id / 2 ^ 8 % 256, id % 256]

/-- The UTF-8 bytes of a character. -/
def utf8Bytes (c : Char) : List Nat :=
  let n := c.toNat
  if n < 0x80 then [n]
  else if n < 0x800 then [0xC0 + n / 64, 0x80 + n % 64]
  else if n < 0x10000 then [0xE0 + n / 4096, 0x80 + n / 64 % 64, 0x80 + n % 64]
  else [0xF0 + n / 262144, 0x80 + n / 4096 % 64, 0x80 + n / 64 % 64, 0x80 + n % 64]

/-- The FNV-1a 64-bit hash (`fnv.New64a`, `Write`, `Sum64`). -/
def fnv64a (bytes : List Nat) : Nat :=
  bytes.foldl (fun h b => (Nat.xor h b) * 1099511628211 % 2 ^ 64) 14695981039346656037

/-- The function `ParsePluginID`. -/
def ParsePluginID (idStr : String) : Nat :=
  match parseUint10 idStr with
  | some id => id
  | none =>
    match idDecodeString idStr with
    | some decoded =>
      if decoded.length ≤ 8 then
        bigEndianValue (List.replicate (8 - decoded.length) 0 ++ decoded)
      else fnv64a (idStr.toList.flatMap utf8Bytes)
    | none => fnv64a (idStr.toList.flatMap utf8Bytes)

/-- The loop of `CompactPluginID` that skips leading zero bytes, never the last byte:
`for i < len(buf)-1 && buf[i] == 0 { i++ }`, returning `buf[i:]`. -/
def skipLeadingZeros : List Nat → List Nat
  | [] => []
  | [b] => [b]
  | b :: b' :: rest => if b = 0 then skipLeadingZeros (b' :: rest) else b :: b' :: rest

/-- The function `CompactPluginID`. -/
def CompactPluginID (id : Nat) : String :=
  idEncodeToString (skipLeadingZeros (putUint64 id))

/-! ## In-memory plugin storage (`internal/repositories/inmemory/plugin_storage.go`) -/

/-- A stored payload row: `domain.PluginStorageEntry`. -/
structure PluginStorageEntry where
  ID : Nat
  PluginID : Nat
  Key : String
  EntityType : Option String
  EntityID : Option Nat
  Payload : List Nat
  CreatedAt : Option Nat
  UpdatedAt : Option Nat
  deriving DecidableEq, Repr

/-- An entity filter pair: `domain.PluginStorageEntityPair`. -/
structure PluginStorageEntityPair where
  EntityType : Option String
  EntityID : Option Nat
  deriving DecidableEq, Repr

/-- The filter of `Find`: `filters.FindPluginStorage`. -/
structure FindPluginStorage where
  IDs : List Nat
  PluginIDs : List Nat
  Keys : List String
  EntityPairs : List PluginStorageEntityPair
  deriving DecidableEq, Repr

/-- Sort directions of `filters.Sorting`. -/
inductive SortDirection where
  | SortDirectionAsc
  | SortDirectionDesc
  deriving DecidableEq, Repr

/-- One sort criterion: `filters.Sorting`. -/
structure Sorting where
  Field : String
  Direction : SortDirection
  deriving DecidableEq, Repr

/-- Page request: `filters.Pagination` (Go `int` fields). -/
structure Pagination where
  Limit : Int
  Offset : Int
  deriving DecidableEq, Repr

/-- Key of the entity index: `entityKey`. -/
structure entityKey where
  entityType : String
  entityID : Nat
  deriving DecidableEq, Repr

/-- The repository state: the primary map, the ID counter and the three secondary
indices. -/
structure PluginStorageRepository where
  entries : GoMap Nat PluginStorageEntry
  nextID : Nat
  pluginIDIndex : GoMap Nat (List Nat)
  keyIndex : GoMap String (List Nat)
  entityIndex : GoMap entityKey (List Nat)
  deriving DecidableEq, Repr

/-- The constructor `NewPluginStorageRepository`. -/
def NewPluginStorageRepository : PluginStorageRepository :=
  { entries := [], nextID := 0, pluginIDIndex := [], keyIndex := [], entityIndex := [] }

/-- The function `ptrEqual`. -/
def ptrEqual (a b : Option String) : Bool :=
  match a, b with
  | none, none => true
  | none, some _ => false
  | some _, none => false
  | some x, some y => decide (x = y)

/-- The function `ptrEqualUint`. -/
def ptrEqualUint (a b : Option Nat) : Bool :=
  match a, b with
  | none, none => true
  | none, some _ => false
  | some _, none => false
  | some x, some y => decide (x = y)

/-- The function `makeEntityKey`: an absent field leaves the zero value in the key. -/
def makeEntityKey (entityType : Option String) (entityID : Option Nat) : entityKey :=
  let key : entityKey := { entityType := "", entityID := 0 }
  let key := match entityType with
    | some t => { key with entityType := t }
    | none => key
  match entityID with
  | some i => { key with entityID := i }
  | none => key

/-- One index update of `addToIndexes`: create the set when missing, then insert. -/
def indexAdd {κ : Type} [DecidableEq κ] (idx : GoMap κ (List Nat)) (k : κ) (id : Nat) :
    GoMap κ (List Nat) :=
  let idx := if (idx.get k).isNone then idx.set k [] else idx
  idx.set k (setAdd ((idx.get k).getD []) id)

/-- One index update of `removeFromIndexes`: delete from the set when the key exists,
and drop the key when the set became empty. -/
def indexRemove {κ : Type} [DecidableEq κ] (idx : GoMap κ (List Nat)) (k : κ) (id : Nat) :
    GoMap κ (List Nat) :=
  match idx.get k with
  | some entrySet =>
    let entrySet := setDel entrySet id
    let idx := idx.set k entrySet
    if entrySet.length = 0 then idx.delete k else idx
  | none => idx

/-- The method `addToIndexes`. -/
def addToIndexes (r : PluginStorageRepository) (entry : PluginStorageEntry) :
    PluginStorageRepository :=
  { r with
    pluginIDIndex := indexAdd r.pluginIDIndex entry.PluginID entry.ID
    keyIndex := indexAdd r.keyIndex entry.Key entry.ID
    entityIndex :=
      indexAdd r.entityIndex (makeEntityKey entry.EntityType entry.EntityID) entry.ID }

/-- The method `removeFromIndexes`. -/
def removeFromIndexes (r : PluginStorageRepository) (entry : PluginStorageEntry) :
    PluginStorageRepository :=
  { r with
    pluginIDIndex := indexRemove r.pluginIDIndex entry.PluginID entry.ID
    keyIndex := indexRemove r.keyIndex entry.Key entry.ID
    entityIndex :=
      indexRemove r.entityIndex (makeEntityKey entry.EntityType entry.EntityID) entry.ID }

/-- The loop of `findExistingEntry` over the IDs of the plugin's index set. -/
def findExistingLoop (r : PluginStorageRepository) (key : String)
    (entityType : Option String) (entityID : Option Nat) : List Nat → Nat
  | [] => 0
  | entryID :: rest =>
    match r.entries.get entryID with
    | none => findExistingLoop r key entityType entityID rest
    | some entry =>
      if entry.Key ≠ key then findExistingLoop r key entityType entityID rest
      else if !ptrEqual entry.EntityType entityType then
        findExistingLoop r key entityType entityID rest
      else if !ptrEqualUint entry.EntityID entityID then
        findExistingLoop r key entityType entityID rest
      else entryID

/-- The method `findExistingEntry`; `0` means that no entry was found. -/
def findExistingEntry (r : PluginStorageRepository) (pluginID : Nat) (key : String)
    (entityType : Option String) (entityID : Option Nat) : Nat :=
  match r.pluginIDIndex.get pluginID with
  | none => 0
  | some pluginEntries => findExistingLoop r key entityType entityID pluginEntries

/-- The method `resolveEntryID`: the repository and the caller's entry after it. -/
def resolveEntryID (r : PluginStorageRepository) (entry : PluginStorageEntry) (now : Nat) :
    PluginStorageRepository × PluginStorageEntry :=
  if entry.ID ≠ 0 then
    match r.entries.get entry.ID with
    | some oldEntry => (removeFromIndexes r oldEntry, entry)
    | none => (r, entry)
  else
    let existingID :=
      findExistingEntry r entry.PluginID entry.Key entry.EntityType entry.EntityID
    if existingID ≠ 0 then
      let entry := { entry with ID := existingID }
      match r.entries.get entry.ID with
      | some oldEntry =>
        (removeFromIndexes r oldEntry, { entry with CreatedAt := oldEntry.CreatedAt })
      | none => (r, entry)
    else
      let r := { r with nextID := (r.nextID + 1) % 2 ^ 64 }
      (r, { entry with ID := r.nextID, CreatedAt := some now })

/-- The method `Save`, at clock reading `now`: the repository afterwards, and the
caller's entry as `Save` leaves it (ID and timestamps written back). -/
def Save (r : PluginStorageRepository) (entry : PluginStorageEntry) (now : Nat) :
    PluginStorageRepository × PluginStorageEntry :=
  let (r, entry) := resolveEntryID r entry now
  let entry := { entry with UpdatedAt := some now }
  let savedEntry : PluginStorageEntry :=
    { ID := entry.ID, PluginID := entry.PluginID, Key := entry.Key,
      EntityType := entry.EntityType, EntityID := entry.EntityID,
      Payload := entry.Payload, CreatedAt := entry.CreatedAt, UpdatedAt := entry.UpdatedAt }
  let r := { r with entries := r.entries.set entry.ID savedEntry }
  (addToIndexes r savedEntry, entry)

/-- The method `Delete`. -/
def Delete (r : PluginStorageRepository) (id : Nat) : PluginStorageRepository :=
  let r := match r.entries.get id with
    | some entry => removeFromIndexes r entry
    | none => r
  { r with entries := r.entries.delete id }

/-- The loop of `DeleteByPlugin` over the IDs that were in the plugin's index set
when the `range` started; an ID that has left the set in the meantime is not
visited. -/
def deleteByPluginLoop (pluginID : Nat) : List Nat → PluginStorageRepository →
    PluginStorageRepository
  | [], r => r
  | entryID :: rest, r =>
    if entryID ∈ (r.pluginIDIndex.get pluginID).getD [] then
      match r.entries.get entryID with
      | some entry =>
        let r := removeFromIndexes r entry
        deleteByPluginLoop pluginID rest { r with entries := r.entries.delete entryID }
      | none => deleteByPluginLoop pluginID rest r
    else deleteByPluginLoop pluginID rest r

/-- The method `DeleteByPlugin`. -/
def DeleteByPlugin (r : PluginStorageRepository) (pluginID : Nat) : PluginStorageRepository :=
  match r.pluginIDIndex.get pluginID with
  | some entrySet => deleteByPluginLoop pluginID entrySet r
  | none => r

/-- Union of the index sets of the given keys into `resultIDs`. -/
def collectIndex {κ : Type} [DecidableEq κ] (idx : GoMap κ (List Nat)) (ks : List κ)
    (resultIDs : List Nat) : List Nat :=
  ks.foldl
    (fun acc k =>
      match idx.get k with
      | some entrySet => entrySet.foldl setAdd acc
      | none => acc)
    resultIDs

/-- The body shared by `intersectWithPluginIDs`, `intersectWithKeys` and
`intersectWithEntityPairs`: the IDs of the index sets of the given keys that are in
`resultIDs` replace the content of `resultIDs`. -/
def intersectIndex {κ : Type} [DecidableEq κ] (idx : GoMap κ (List Nat)) (ks : List κ)
    (resultIDs : List Nat) : List Nat :=
  let validIDs :=
    ks.foldl
      (fun acc k =>
        match idx.get k with
        | some entrySet =>
          entrySet.foldl (fun acc entryID => if entryID ∈ resultIDs then setAdd acc entryID else acc)
            acc
        | none => acc)
      []
  validIDs.foldl setAdd []

/-- The method `intersectWithPluginIDs`. -/
def intersectWithPluginIDs (r : PluginStorageRepository) (resultIDs : List Nat)
    (pluginIDs : List Nat) : List Nat :=
  intersectIndex r.pluginIDIndex pluginIDs resultIDs

/-- The method `intersectWithKeys`. -/
def intersectWithKeys (r : PluginStorageRepository) (resultIDs : List Nat)
    (keys : List String) : List Nat :=
  intersectIndex r.keyIndex keys resultIDs

/-- The method `intersectWithEntityPairs`. -/
def intersectWithEntityPairs (r : PluginStorageRepository) (resultIDs : List Nat)
    (pairs : List PluginStorageEntityPair) : List Nat :=
  intersectIndex r.entityIndex
    (pairs.map (fun pair => makeEntityKey pair.EntityType pair.EntityID)) resultIDs

/-- The method `getFilteredEntryIDs` (`none` is the nil filter). -/
def getFilteredEntryIDs (r : PluginStorageRepository) (filter : Option FindPluginStorage) :
    List Nat :=
  match filter with
  | none => r.entries.keys.foldl setAdd []
  | some filter =>
    let resultIDs : List Nat :=
      if filter.IDs.length > 0 then
        filter.IDs.foldl
          (fun acc id => if (r.entries.get id).isSome then setAdd acc id else acc) []
      else if filter.PluginIDs.length > 0 then
        collectIndex r.pluginIDIndex filter.PluginIDs []
      else if filter.Keys.length > 0 then
        collectIndex r.keyIndex filter.Keys []
      else if filter.EntityPairs.length > 0 then
        collectIndex r.entityIndex
          (filter.EntityPairs.map (fun pair => makeEntityKey pair.EntityType pair.EntityID)) []
      else r.entries.keys.foldl setAdd []
    let resultIDs :=
      if filter.PluginIDs.length > 0 ∧ filter.IDs.length > 0 then
        intersectWithPluginIDs r resultIDs filter.PluginIDs
      else resultIDs
    let resultIDs :=
      if filter.Keys.length > 0 ∧ (filter.IDs.length > 0 ∨ filter.PluginIDs.length > 0) then
        intersectWithKeys r resultIDs filter.Keys
      else resultIDs
    let resultIDs :=
      if filter.EntityPairs.length > 0 ∧
          (filter.IDs.length > 0 ∨ filter.PluginIDs.length > 0 ∨ filter.Keys.length > 0) then
        intersectWithEntityPairs r resultIDs filter.EntityPairs
      else resultIDs
    resultIDs

/-- The three-way comparison `cmp.Compare` / `strings.Compare`, as -1, 0 or 1. -/
def compareInt {α : Type} [Ord α] (a b : α) : Int :=
  match compare a b with
  | .lt => -1
  | .eq => 0
  | .gt => 1

/-- The method `compareEntries`. -/
def compareEntries (a b : PluginStorageEntry) (field : String) : Int :=
  if field = "id" then compareInt a.ID b.ID
  else if field = "plugin_id" then compareInt a.PluginID b.PluginID
  else if field = "key" then compareInt a.Key b.Key
  else 0

/-- The `less` function `sortEntries` hands to `sort.Slice` for a non-empty order. -/
def lessByOrder (a b : PluginStorageEntry) : List Sorting → Bool
  | [] => false
  | o :: rest =>
    let cmpRes := compareEntries a b o.Field
    if cmpRes ≠ 0 then
      if o.Direction = SortDirection.SortDirectionDesc then decide (cmpRes > 0)
      else decide (cmpRes < 0)
    else lessByOrder a b rest

/-- The method `sortEntries`.  `sort.Slice` is modelled by an insertion sort, which
keeps entries the order does not separate in the order they were collected. -/
def sortEntries (entries : List PluginStorageEntry) (order : List Sorting) :
    List PluginStorageEntry :=
  if order.length = 0 then
    entries.insertionSort (fun a b => ¬ (b.ID < a.ID))
  else
    entries.insertionSort (fun a b => lessByOrder b a order = false)

/-- Go `int` addition on a 64-bit platform: the sum wrapped into `[-2^63, 2^63)`. -/
def addInt64 (a b : Int) : Int :=
  (a + b + 2 ^ 63) % 2 ^ 64 - 2 ^ 63

/-- The method `applyPagination`; `DefaultLimit` is `filters.DefaultLimit`.  The
result is `none` when the slice expression `entries[offset:end]` panics. -/
def applyPagination (DefaultLimit : Int) (entries : List PluginStorageEntry)
    (pagination : Option Pagination) : Option (List PluginStorageEntry) :=
  match pagination with
  | none => some entries
  | some pagination =>
    let limit := if pagination.Limit ≤ 0 then DefaultLimit else pagination.Limit
    let offset := max pagination.Offset 0
    if offset ≥ (entries.length : Int) then some []
    else
      let stop := min (addInt64 offset limit) (entries.length : Int)
      if offset ≤ stop then
        some ((entries.drop offset.toNat).take (stop - offset).toNat)
      else none

/-- The method `Find`; its Go error result is always nil, `none` is a panic. -/
def Find (DefaultLimit : Int) (r : PluginStorageRepository)
    (filter : Option FindPluginStorage) (order : List Sorting)
    (pagination : Option Pagination) : Option (List PluginStorageEntry) :=
  let filter := match filter with
    | none => some { IDs := [], PluginIDs := [], Keys := [], EntityPairs := [] }
    | some f => some f
  let candidateIDs := getFilteredEntryIDs r filter
  let entries := candidateIDs.filterMap (fun entryID => r.entries.get entryID)
  applyPagination DefaultLimit (sortEntries entries order) pagination

/-! ## Storage host library (`internal/plugin/hostlibrary/storage.go`, `common.go`) -/

/-- The wire enumeration `proto.EntityType`; every value the sources do not name is
`OTHER code`. -/
inductive ProtoEntityType where
  | ENTITY_TYPE_UNSPECIFIED
  | ENTITY_TYPE_USER
  | ENTITY_TYPE_NODE
  | ENTITY_TYPE_CLIENT_CERTIFICATE
  | ENTITY_TYPE_GAME
  | ENTITY_TYPE_GAME_MOD
  | ENTITY_TYPE_SERVER
  | ENTITY_TYPE_ROLE
  | OTHER (code : Nat)
  deriving DecidableEq, Repr

/-- The table `protoToEntityType`, with the domain entity types as their strings. -/
def protoToEntityType : ProtoEntityType → Option String
  | .ENTITY_TYPE_UNSPECIFIED => some ""
  | .ENTITY_TYPE_USER => some "Gameap\\Models\\User"
  | .ENTITY_TYPE_NODE => some "Gameap\\Models\\DedicatedServer"
  | .ENTITY_TYPE_CLIENT_CERTIFICATE => some "Gameap\\Models\\ClientCertificate"
  | .ENTITY_TYPE_GAME => some "Gameap\\Models\\Game"
  | .ENTITY_TYPE_GAME_MOD => some "Gameap\\Models\\GameMod"
  | .ENTITY_TYPE_SERVER => some "Gameap\\Models\\Server"
  | .ENTITY_TYPE_ROLE => some "roles"
  | .OTHER _ => none

/-- The table `entityTypeToProto`. -/
def entityTypeToProto (s : String) : Option ProtoEntityType :=
  if s = "" then some .ENTITY_TYPE_UNSPECIFIED
  else if s = "Gameap\\Models\\User" then some .ENTITY_TYPE_USER
  else if s = "Gameap\\Models\\DedicatedServer" then some .ENTITY_TYPE_NODE
  else if s = "Gameap\\Models\\ClientCertificate" then some .ENTITY_TYPE_CLIENT_CERTIFICATE
  else if s = "Gameap\\Models\\Game" then some .ENTITY_TYPE_GAME
  else if s = "Gameap\\Models\\GameMod" then some .ENTITY_TYPE_GAME_MOD
  else if s = "Gameap\\Models\\Server" then some .ENTITY_TYPE_SERVER
  else if s = "roles" then some .ENTITY_TYPE_ROLE
  else none

/-- The function `entityTypeFromProto`. -/
def entityTypeFromProto (et : Option ProtoEntityType) : Option String :=
  match et with
  | none => none
  | some et =>
    match protoToEntityType et with
    | none => none
    | some domainET => if domainET = "" then none else some domainET

/-- The function `entityTypeToProtoPtr`. -/
def entityTypeToProtoPtr (et : Option String) : Option ProtoEntityType :=
  match et with
  | none => none
  | some et => entityTypeToProto et

/-- The function `uintPtrFromUint64Ptr` (`uint` is 64 bits wide). -/
def uintPtrFromUint64Ptr (v : Option Nat) : Option Nat := v

/-- The function `uint64PtrFromUintPtr`. -/
def uint64PtrFromUintPtr (v : Option Nat) : Option Nat := v

/-- Request of `Get`: `storage.StorageGetRequest`. -/
structure StorageGetRequest where
  Key : String
  EntityType : Option ProtoEntityType
  EntityId : Option Nat
  deriving DecidableEq, Repr

/-- Response of `Get`: `storage.StorageGetResponse`. -/
structure StorageGetResponse where
  Payload : List Nat
  Found : Bool
  deriving DecidableEq, Repr

/-- Request of `Set`: `storage.StorageSetRequest`. -/
structure StorageSetRequest where
  Key : String
  EntityType : Option ProtoEntityType
  EntityId : Option Nat
  Payload : List Nat
  deriving DecidableEq, Repr

/-- Request of `Delete`: `storage.StorageDeleteRequest`. -/
structure StorageDeleteRequest where
  Key : String
  EntityType : Option ProtoEntityType
  EntityId : Option Nat
  deriving DecidableEq, Repr

/-- Request of `List`: `storage.StorageListRequest`. -/
structure StorageListRequest where
  KeyPrefix : Option String
  EntityType : Option ProtoEntityType
  EntityId : Option Nat
  deriving DecidableEq, Repr

/-- One listed entry: `storage.StorageEntry`. -/
structure StorageEntry where
  Key : String
  EntityType : Option ProtoEntityType
  EntityId : Option Nat
  Payload : List Nat
  deriving DecidableEq, Repr

/-- The filter `Get` and `Delete` build: the service's plugin, the key, one entity
pair. -/
def storageKeyFilter (pluginID : Nat) (key : String) (entityType : Option ProtoEntityType)
    (entityId : Option Nat) : FindPluginStorage :=
  { IDs := []
    PluginIDs := [pluginID]
    Keys := [key]
    EntityPairs :=
      [{ EntityType := entityTypeFromProto entityType
         EntityID := uintPtrFromUint64Ptr entityId }] }

/-- The method `StorageServiceImpl.Get` of the service bound to `pluginID`; `none` is
a panic of the repository. -/
def StorageGet (DefaultLimit : Int) (pluginID : Nat) (repo : PluginStorageRepository)
    (req : StorageGetRequest) : Option StorageGetResponse :=
  match Find DefaultLimit repo
      (some (storageKeyFilter pluginID req.Key req.EntityType req.EntityId)) []
      (some { Limit := 1, Offset := 0 }) with
  | none => none
  | some entries =>
    match entries with
    | [] => some { Payload := [], Found := false }
    | entry :: _ => some { Payload := entry.Payload, Found := true }

/-- The method `StorageServiceImpl.Set`, at clock reading `now`: the repository
afterwards and the `Success` flag of the response. -/
def StorageSet (pluginID : Nat) (repo : PluginStorageRepository) (req : StorageSetRequest)
    (now : Nat) : PluginStorageRepository × Bool :=
  let entry : PluginStorageEntry :=
    { ID := 0, PluginID := pluginID, Key := req.Key
      EntityType := entityTypeFromProto req.EntityType
      EntityID := uintPtrFromUint64Ptr req.EntityId
      Payload := req.Payload, CreatedAt := none, UpdatedAt := none }
  ((Save repo entry now).1, true)

/-- The method `StorageServiceImpl.Delete`: the repository afterwards and the
`Success` flag; `none` is a panic of the repository. -/
def StorageDelete (DefaultLimit : Int) (pluginID : Nat) (repo : PluginStorageRepository)
    (req : StorageDeleteRequest) : Option (PluginStorageRepository × Bool) :=
  match Find DefaultLimit repo
      (some (storageKeyFilter pluginID req.Key req.EntityType req.EntityId)) []
      (some { Limit := 1, Offset := 0 }) with
  | none => none
  | some entries =>
    match entries with
    | [] => some (repo, true)
    | entry :: _ => some (Delete repo entry.ID, true)

/-- The method `StorageServiceImpl.List`; `none` is a panic of the repository. -/
def StorageList (DefaultLimit : Int) (pluginID : Nat) (repo : PluginStorageRepository)
    (req : StorageListRequest) : Option (List StorageEntry) :=
  let filter : FindPluginStorage :=
    { IDs := [], PluginIDs := [pluginID], Keys := []
      EntityPairs :=
        if req.EntityType.isSome ∨ req.EntityId.isSome then
          [{ EntityType := entityTypeFromProto req.EntityType
             EntityID := uintPtrFromUint64Ptr req.EntityId }]
        else [] }
  match Find DefaultLimit repo (some filter) [] none with
  | none => none
  | some entries =>
    some ((entries.filter (fun entry =>
        match req.KeyPrefix with
        | some p => p.toList.isPrefixOf entry.Key.toList
        | none => true)).map (fun entry =>
      { Key := entry.Key
        EntityType := entityTypeToProtoPtr entry.EntityType
        EntityId := uint64PtrFromUintPtr entry.EntityID
        Payload := entry.Payload }))

/-! ## Vocabulary of the statements about the repository -/

/-- Membership of an ID in the index set stored under a key (a missing key has no
members). -/
def indexHas {κ : Type} [DecidableEq κ] (idx : GoMap κ (List Nat)) (k : κ) (id : Nat) : Prop :=
  id ∈ (idx.get k).getD []

/-- Two entries carry the same four-tuple `(plugin_id, key, entity_type, entity_id)`;
an absent entity field equals only an absent one. -/
def sameTuple (a b : PluginStorageEntry) : Prop :=
  a.PluginID = b.PluginID ∧ a.Key = b.Key ∧ a.EntityType = b.EntityType ∧
    a.EntityID = b.EntityID

/-- The secondary indices agree with the primary map, the entity index being read
through `makeEntityKey`; and every entry is stored under its own ID. -/
def Synced (r : PluginStorageRepository) : Prop :=
  (∀ k e, r.entries.get k = some e → e.ID = k) ∧
  (∀ p id, indexHas r.pluginIDIndex p id ↔
    ∃ e, r.entries.get id = some e ∧ e.PluginID = p) ∧
  (∀ k id, indexHas r.keyIndex k id ↔ ∃ e, r.entries.get id = some e ∧ e.Key = k) ∧
  (∀ ek id, indexHas r.entityIndex ek id ↔
    ∃ e, r.entries.get id = some e ∧ makeEntityKey e.EntityType e.EntityID = ek)

/-- Every stored ID lies between 1 and the ID counter. -/
def Issued (r : PluginStorageRepository) : Prop :=
  ∀ k e, r.entries.get k = some e → 1 ≤ k ∧ k ≤ r.nextID

/-- No two stored entries carry the same four-tuple. -/
def UniqueTuples (r : PluginStorageRepository) : Prop :=
  ∀ k₁ k₂ e₁ e₂, r.entries.get k₁ = some e₁ → r.entries.get k₂ = some e₂ →
    sameTuple e₁ e₂ → k₁ = k₂

/-- A call on the repository. -/
inductive RepoOp where
  | save (entry : PluginStorageEntry) (now : Nat)
  | delete (id : Nat)
  | deleteByPlugin (pluginID : Nat)
  deriving DecidableEq, Repr

/-- The repository after one call. -/
def applyOp (r : PluginStorageRepository) : RepoOp → PluginStorageRepository
  | .save entry now => (Save r entry now).1
  | .delete id => Delete r id
  | .deleteByPlugin pluginID => DeleteByPlugin r pluginID

/-- The repository after a sequence of calls. -/
def runOps (r : PluginStorageRepository) (ops : List RepoOp) : PluginStorageRepository :=
  ops.foldl applyOp r

/-- The call, if it is a `Save`, is passed an entry that satisfies `ok` in the state
`r` it finds. -/
def saveSatisfies (ok : PluginStorageRepository → PluginStorageEntry → Prop)
    (r : PluginStorageRepository) : RepoOp → Prop
  | .save entry _ => ok r entry
  | .delete _ => True
  | .deleteByPlugin _ => True

/-- Every `Save` of the sequence, run from `r`, is passed an entry that satisfies
`ok` in the state the call finds. -/
def savesSatisfy (ok : PluginStorageRepository → PluginStorageEntry → Prop) :
    PluginStorageRepository → List RepoOp → Prop
  | _, [] => True
  | r, op :: ops => saveSatisfies ok r op ∧ savesSatisfy ok (applyOp r op) ops

/-- The history of the examples: two upserts of one tuple, an update by ID, a second
tuple, and the two deletions. -/
def sampleHistory : List RepoOp :=
  [RepoOp.save ⟨0, 1, "a", none, none, [], none, none⟩ 10,
   RepoOp.save ⟨0, 1, "a", none, none, [1], none, none⟩ 11,
   RepoOp.save ⟨1, 1, "a", none, none, [2], some 10, none⟩ 12,
   RepoOp.save ⟨0, 2, "a", some "server", some 3, [2], none, none⟩ 13,
   RepoOp.delete 1,
   RepoOp.deleteByPlugin 2]

/-- The entry is passed with ID 0 or with an ID the repository has issued (between 1
and the ID counter). -/
def issuedOrZero (r : PluginStorageRepository) (entry : PluginStorageEntry) : Prop :=
  entry.ID ≤ r.nextID

/-- The entry is passed with ID 0, or with an issued ID while no entry stored under
another ID carries its four-tuple. -/
def keepsTupleUnique (r : PluginStorageRepository) (entry : PluginStorageEntry) : Prop :=
  entry.ID = 0 ∨
    (entry.ID ≤ r.nextID ∧
      ∀ k e, r.entries.get k = some e → sameTuple e entry → k = entry.ID)

/-- The state `Save` builds around the entry `saved`: the index entries of the entry
stored under the same ID, if any, are removed, `saved` is stored and indexed. -/
def putEntry (r : PluginStorageRepository) (saved : PluginStorageEntry) :
    PluginStorageRepository :=
  let r₁ := match r.entries.get saved.ID with
    | some oldEntry => removeFromIndexes r oldEntry
    | none => r
  addToIndexes { r₁ with entries := r₁.entries.set saved.ID saved } saved

/-- Every entry is stored under its own ID and listed in the index set of its plugin
(the index may list more). -/
def PluginIndexComplete (r : PluginStorageRepository) : Prop :=
  (∀ k e, r.entries.get k = some e → e.ID = k) ∧
  (∀ k e, r.entries.get k = some e → indexHas r.pluginIDIndex e.PluginID k)

/-- A small store: two entries of plugin 1 and one of plugin 2, saved with ID 0. -/
def sampleSaves : List RepoOp :=
  [RepoOp.save ⟨0, 1, "a", none, none, [1], none, none⟩ 10,
   RepoOp.save ⟨0, 2, "a", none, none, [2], none, none⟩ 11,
   RepoOp.save ⟨0, 1, "b", some "server", some 3, [3], none, none⟩ 12]

/-- A sequence of `Save` calls, each with the clock reading it finds: the repository
afterwards and, call by call, the caller's entry as `Save` leaves it. -/
def saveAll (r : PluginStorageRepository) :
    List (PluginStorageEntry × Nat) → PluginStorageRepository × List PluginStorageEntry
  | [] => (r, [])
  | (entry, now) :: rest =>
    let out := Save r entry now
    let tail := saveAll out.1 rest
    (tail.1, out.2 :: tail.2)

/-- The entry is passed with ID 0, or with the ID and `created_at` that an earlier
`Save` (one of `earlier`) wrote into its entry. -/
def reusesEarlier (earlier : List PluginStorageEntry) (entry : PluginStorageEntry) : Prop :=
  entry.ID = 0 ∨ ∃ o ∈ earlier, entry.ID = o.ID ∧ entry.CreatedAt = o.CreatedAt

/-- Every call of the sequence, run from `r` after the calls that left `earlier`,
passes its entry as `reusesEarlier` describes. -/
def callsReuseEarlier : PluginStorageRepository → List PluginStorageEntry →
    List (PluginStorageEntry × Nat) → Prop
  | _, _, [] => True
  | r, earlier, (entry, now) :: rest =>
    reusesEarlier earlier entry ∧
      callsReuseEarlier (Save r entry now).1 (earlier ++ [(Save r entry now).2]) rest

/-- The filter that selects one four-tuple. -/
def tupleFilter (pluginID : Nat) (key : String) (entityType : Option String)
    (entityID : Option Nat) : FindPluginStorage :=
  { IDs := [], PluginIDs := [pluginID], Keys := [key]
    EntityPairs := [{ EntityType := entityType, EntityID := entityID }] }

/-- The repository that holds the single entry `e`, the counter standing at 1. -/
def singleEntryState (e : PluginStorageEntry) : PluginStorageRepository :=
  { entries := [(e.ID, e)]
    nextID := 1
    pluginIDIndex := [(e.PluginID, [e.ID])]
    keyIndex := [(e.Key, [e.ID])]
    entityIndex := [(makeEntityKey e.EntityType e.EntityID, [e.ID])] }

/-- Three saves of one tuple: a first save, a save of the entry object the first one
filled in, and a save of a fresh object. -/
def sampleUpserts : List (PluginStorageEntry × Nat) :=
  [(⟨0, 3, "cache", none, none, [1], none, none⟩, 5),
   (⟨1, 3, "cache", none, none, [2], some 5, some 5⟩, 7),
   (⟨0, 3, "cache", none, none, [3], none, none⟩, 7)]

/-- What `getFilteredEntryIDs` tests on a stored entry: every populated filter field
must list the entry's value, an entity pair being compared with the entry through
`makeEntityKey`. -/
def filterMatches (f : FindPluginStorage) (e : PluginStorageEntry) : Prop :=
  (f.IDs = [] ∨ e.ID ∈ f.IDs) ∧
  (f.PluginIDs = [] ∨ e.PluginID ∈ f.PluginIDs) ∧
  (f.Keys = [] ∨ e.Key ∈ f.Keys) ∧
  (f.EntityPairs = [] ∨ ∃ pair ∈ f.EntityPairs,
    makeEntityKey pair.EntityType pair.EntityID = makeEntityKey e.EntityType e.EntityID)

/-- A mutating call of a plugin on its storage service. -/
inductive StorageCall where
  | set (req : StorageSetRequest) (now : Nat)
  | delete (req : StorageDeleteRequest)
  deriving DecidableEq, Repr

/-- The repository after one call made through the service bound to `pluginID`;
`none` is a panic. -/
def applyCall (DefaultLimit : Int) (pluginID : Nat) (repo : PluginStorageRepository) :
    StorageCall → Option PluginStorageRepository
  | .set req now => some (StorageSet pluginID repo req now).1
  | .delete req => (StorageDelete DefaultLimit pluginID repo req).map Prod.fst

/-- The repository after a sequence of calls made through the service bound to
`pluginID`. -/
def runCalls (DefaultLimit : Int) (pluginID : Nat) :
    PluginStorageRepository → List StorageCall → Option PluginStorageRepository
  | repo, [] => some repo
  | repo, call :: calls =>
    match applyCall DefaultLimit pluginID repo call with
    | none => none
    | some repo' => runCalls DefaultLimit pluginID repo' calls

/-- Calls of plugin 2 on the sample store: overwrite its key, add a key, delete one. -/
def sampleCalls : List StorageCall :=
  [StorageCall.set ⟨"a", none, none, [9]⟩ 20,
   StorageCall.set ⟨"b", some ProtoEntityType.ENTITY_TYPE_SERVER, some 3, [8]⟩ 21,
   StorageCall.delete ⟨"a", none, none⟩]

/-! ## Cache host library (`internal/plugin/hostlibrary/cache.go`) -/

/-- A value held by the cache backend (`any`): a byte slice, or something else. -/
inductive CacheValue where
  | bytes (value : List Nat)
  | other (tag : Nat)
  deriving DecidableEq, Repr

/-- An error of the cache backend: `intcache.ErrNotFound`, or any other error. -/
inductive CacheError where
  | ErrNotFound
  | failure (msg : String)
  deriving DecidableEq, Repr

/-- The backend behind the service, `intcache.Cache`, whose implementations are not
part of the sources: a state type with the three calls of the interface. `Set` takes
the expiration of `intcache.WithExpiration`, if any, in nanoseconds. -/
structure Cache (σ : Type) where
  Get : σ → String → Except CacheError CacheValue
  Set : σ → String → CacheValue → Option Int → σ × Option CacheError
  Delete : σ → String → σ × Option CacheError

/-- The service: `CacheServiceImpl`. -/
structure CacheServiceImpl (σ : Type) where
  cache : Cache σ
  keyPrefix : String

/-- The constructor `NewCacheService`. -/
def NewCacheService {σ : Type} (c : Cache σ) (keyPrefix : String) : CacheServiceImpl σ :=
  { cache := c, keyPrefix := keyPrefix }

/-- The method `prefixedKey`. -/
def CacheServiceImpl.prefixedKey {σ : Type} (s : CacheServiceImpl σ) (key : String) : String :=
  s.keyPrefix ++ key

/-- Response of `Get`: `cache.CacheGetResponse`. -/
structure CacheGetResponse where
  Value : List Nat
  Found : Bool
  deriving DecidableEq, Repr

/-- Go `int64` multiplication: the product wrapped into `[-2^63, 2^63)`. -/
def mulInt64 (a b : Int) : Int :=
  (a * b + 2 ^ 63) % 2 ^ 64 - 2 ^ 63

/-- The method `CacheServiceImpl.Get`: the response, or the error handed on. -/
def CacheServiceImpl.Get {σ : Type} (s : CacheServiceImpl σ) (st : σ) (key : String) :
    Except CacheError CacheGetResponse :=
  match s.cache.Get st (s.prefixedKey key) with
  | .error err =>
    if err = CacheError.ErrNotFound then .ok { Value := [], Found := false }
    else .error err
  | .ok value =>
    match value with
    | .bytes b => .ok { Value := b, Found := true }
    | .other _ => .ok { Value := [], Found := false }

/-- The method `CacheServiceImpl.Set`: the backend afterwards and the `Success` flag. -/
def CacheServiceImpl.Set {σ : Type} (s : CacheServiceImpl σ) (st : σ) (key : String)
    (value : List Nat) (ttlSeconds : Int) : σ × Bool :=
  let opts : Option Int :=
    if ttlSeconds > 0 then some (mulInt64 ttlSeconds 1000000000) else none
  match s.cache.Set st (s.prefixedKey key) (CacheValue.bytes value) opts with
  | (st', some _) => (st', false)
  | (st', none) => (st', true)

/-- The method `CacheServiceImpl.Delete`: the backend afterwards and the `Success`
flag. -/
def CacheServiceImpl.Delete {σ : Type} (s : CacheServiceImpl σ) (st : σ) (key : String) :
    σ × Bool :=
  match s.cache.Delete st (s.prefixedKey key) with
  | (st', some err) => if err ≠ CacheError.ErrNotFound then (st', false) else (st', true)
  | (st', none) => (st', true)

/-- A backend for the examples: a map from keys to values that ignores expirations. -/
def mapCache : Cache (GoMap String CacheValue) :=
  { Get := fun st k =>
      match GoMap.get st k with
      | some v => .ok v
      | none => .error CacheError.ErrNotFound
    Set := fun st k v _ => (GoMap.set st k v, none)
    Delete := fun st k => (GoMap.delete st k, none) }

/-! ## The `env` host module (`pkg/plugin/env_host.go`) -/

/-- The bytes of a Go string literal. -/
def goString (s : String) : List Nat :=
  s.toList.flatMap utf8Bytes

/-- The call `mem.Read(offset, byteCount)` of the guest memory (`api.Memory`): the
bytes, or `none` for `ok = false` when the range reaches outside the memory. -/
def memRead (mem : List Nat) (offset byteCount : Nat) : Option (List Nat) :=
  if offset + byteCount ≤ mem.length then some ((mem.drop offset).take byteCount)
  else none

/-- The bytes `utf16LEToString` appends for one code unit. -/
def utf16Unit (low high : Nat) : List Nat :=
  if high = 0 then [low]
  else
    let codePoint := (low ||| (high <<< 8)) % 2 ^ 16
    if codePoint < 0x80 then [codePoint % 256]
    else if codePoint < 0x800 then
      [(0xC0 ||| (codePoint >>> 6)) % 256, (0x80 ||| (codePoint &&& 0x3F)) % 256]
    else
      [(0xE0 ||| (codePoint >>> 12)) % 256, (0x80 ||| ((codePoint >>> 6) &&& 0x3F)) % 256,
       (0x80 ||| (codePoint &&& 0x3F)) % 256]

/-- The loop of `utf16LEToString` over the data from index `i` on, two bytes a round;
`none` is the panic of `data[i+1]` when one byte is left. -/
def utf16LEToStringLoop : List Nat → Option (List Nat)
  | [] => some []
  | [_] => none
  | low :: high :: rest =>
    match utf16LEToStringLoop rest with
    | some tail => some (utf16Unit low high ++ tail)
    | none => none

/-- The function `utf16LEToString`: the bytes of the string, or `none` for a panic. -/
def utf16LEToString (data : List Nat) : Option (List Nat) :=
  if data.length = 0 then some [] else utf16LEToStringLoop data

/-- The function `readAssemblyScriptString` on the guest memory (`none` when
`m.Memory()` is nil) and a 32-bit pointer: the bytes of the string returned, or `none`
for a panic. -/
def readAssemblyScriptString (mem : Option (List Nat)) (ptr : Nat) : Option (List Nat) :=
  if ptr = 0 then some (goString "")
  else
    match mem with
    | none => some (goString "<no memory>")
    | some mem =>
      match memRead mem ((ptr + 2 ^ 32 - 4) % 2 ^ 32) 4 with
      | none => some (goString "<invalid ptr>")
      | some rtSizeBytes =>
        let byteLength :=
          rtSizeBytes.getD 0 0 ||| (rtSizeBytes.getD 1 0 <<< 8) |||
            (rtSizeBytes.getD 2 0 <<< 16) ||| (rtSizeBytes.getD 3 0 <<< 24)
        if byteLength > 1024 * 1024 then some (goString "<string too large>")
        else
          match memRead mem ptr byteLength with
          | none => some (goString "<read error>")
          | some data => utf16LEToString data

/-! ## Vocabulary of the statements on the dispatcher -/

/-- The subscribers `RefreshSubscriptions` lists for an event type, read off the
plugins: each enabled plugin whose `GetSubscribedEvents` succeeded, once for every
occurrence of the type in the list it returned, in the order of the plugins. -/
def subscriptionsFor (plugins : List LoadedPlugin) (t : EventType) : List LoadedPlugin :=
  plugins.flatMap (fun p =>
    if p.Enabled then
      match p.GetSubscribedEvents with
      | .ok events => (events.filter (fun e => decide (e = t))).map (fun _ => p)
      | .error _ => []
    else [])

/-- A guest that subscribes to the given event types and handles every event. -/
def guestSubscribed (id : String) (events : List EventType) : LoadedPlugin :=
  { Enabled := true, InfoId := id, GetSubscribedEvents := .ok events,
    HandleEvent := fun _ => .ok ⟨true, false, none, []⟩ }

/-- A guest whose `GetSubscribedEvents` fails. -/
def guestUnlisted (id err : String) : LoadedPlugin :=
  { Enabled := true, InfoId := id, GetSubscribedEvents := .error err,
    HandleEvent := fun _ => .ok ⟨true, false, none, []⟩ }

/-- A guest that returns modified data and does not ask to cancel. -/
def guestWrites (id : String) (data : GoMap String String) : LoadedPlugin :=
  { Enabled := true, InfoId := id, GetSubscribedEvents := .ok [],
    HandleEvent := fun _ => .ok ⟨true, false, none, data⟩ }

/-- A guest that returns modified data and asks to cancel. -/
def guestWritesAndVetoes (id : String) (data : GoMap String String) : LoadedPlugin :=
  { Enabled := true, InfoId := id, GetSubscribedEvents := .ok [],
    HandleEvent := fun _ => .ok ⟨false, true, none, data⟩ }

/-- The value of a key under the last-writer-wins merge of a sequence of maps: the
value in the last map that holds the key, `none` when no map holds it. -/
def lastWriterWins (maps : List (GoMap String String)) (k : String) : Option String :=
  maps.foldl (fun acc m => match GoMap.get m k with
    | some v => some v
    | none => acc) none

/-- The modified data of a guest that returns a result without error. -/
def returnedData (event : Event) (p : LoadedPlugin) : Option (GoMap String String) :=
  match p.HandleEvent event with
  | .ok r => some r.ModifiedData
  | .error _ => none

/-- The modified data of a guest that returns a result without error and does not
cancel the dispatch. -/
def mergedData (cancellable : Bool) (event : Event) (p : LoadedPlugin) :
    Option (GoMap String String) :=
  match p.HandleEvent event with
  | .ok r => if cancellable && r.ShouldCancel then none else some r.ModifiedData
  | .error _ => none

/-! ## The plugin ID codec, in the words of its description -/

/-- The alphabet of `IDEncoding`, as `id.go` writes it. -/
def idAlphabetText : String := "abcdefghijklmnopqrstuvwxyz234567"

/-- The number of whole bytes that `n` characters of unpadded base 32 stand for:
five for every eight characters, and 4, 3, 2 or 1 for 7, 5, 4 or 2 characters at the
end.  One, three or six characters at the end, which no encoder produces, stand for
no byte (the decoder of `encoding/base32` accepts them and writes nothing). -/
def decodedLength (n : Nat) : Nat :=
  5 * (n / 8) +
    (if n % 8 = 7 then 4 else if n % 8 = 5 then 3 else if n % 8 = 4 then 2
     else if n % 8 = 2 then 1 else 0)

/-- The bytes that a sequence of 5-bit values stands for: the values, the first one
most significant, are the digits of a number in base 32, that is, a string of five
bits per value, and the bytes are its first `decodedLength` groups of eight bits. -/
def bitStringBytes (values : List Nat) : List Nat :=
  (List.range (decodedLength values.length)).map
    (fun i => Nat.ofDigits 32 values.reverse / 2 ^ (5 * values.length - 8 * (i + 1)) % 256)

/-- The bytes a string decodes to in unpadded base 32 under the alphabet
`idAlphabetText`: carriage returns and line feeds do not count, every other character
must be one of the alphabet, and its value is its position in the alphabet. -/
def base32Decoded (s : String) : Option (List Nat) :=
  let chars := s.toList.filter (fun c => c ≠ '\r' ∧ c ≠ '\n')
  if chars.all (fun c => decide (c ∈ idAlphabetText.toList)) then
    some (bitStringBytes (chars.map (fun c => idAlphabetText.toList.indexOf c)))
  else none

/-- The FNV-1a hash of 64 bits, by its definition: the offset basis
`0xcbf29ce484222325` for no bytes; for one more byte at the end, the exclusive or of
the hash so far with the byte, times the prime `0x100000001b3`, modulo `2^64`.  The
bytes are taken last one first. -/
def fnv1a64FromLast : List Nat → Nat
  | [] => 0xcbf29ce484222325
  | b :: earlier => (fnv1a64FromLast earlier ^^^ b) * 0x100000001b3 % 2 ^ 64

/-- The FNV-1a hash of 64 bits of a byte sequence. -/
def fnv1a64 (bytes : List Nat) : Nat :=
  fnv1a64FromLast bytes.reverse

/-- The bytes of a string: its UTF-8 encoding. -/
def stringBytes (s : String) : List Nat :=
  s.toUTF8.data.toList.map (fun b => b.toNat)

/-- The 8-byte big-endian representation of a number below `2^64`. -/
def bigEndian8 (n : Nat) : List Nat :=
  (List.range 8).reverse.map (fun i => n / 256 ^ i % 256)

/-- A byte sequence without its leading zero bytes, one byte being kept when all
bytes are zero. -/
def stripLeadingZeroBytes (bytes : List Nat) : List Nat :=
  match bytes.dropWhile (fun b => decide (b = 0)) with
  | [] => bytes.drop (bytes.length - 1)
  | b :: rest => b :: rest

/-- The compact form of a plugin ID: the unpadded base-32 encoding of its 8-byte
big-endian representation without leading zero bytes. -/
def CompactPluginIDSpec (n : Nat) : String :=
  idEncodeToString (stripLeadingZeroBytes (bigEndian8 n))

/-! ## Vocabulary of the statements on `Save` and `Find` -/

/-- The method `Delete` with its error result, which is nil on its only return. -/
def DeleteResult (r : PluginStorageRepository) (id : Nat) :
    PluginStorageRepository × Option String :=
  (Delete r id, none)

/-- The largest Go `int` on a 64-bit platform. -/
def maxInt64 : Int := 2 ^ 63 - 1

/-- Two saves with ID 0. -/
def twoSaves : List RepoOp :=
  [RepoOp.save ⟨0, 1, "a", none, none, [1], none, none⟩ 10,
   RepoOp.save ⟨0, 1, "b", none, none, [2], none, none⟩ 11]

/-- The repository after the two saves: IDs 1 and 2 are stored. -/
def twoEntries : PluginStorageRepository :=
  runOps NewPluginStorageRepository twoSaves

/-- The offset `applyPagination` works with. -/
def pageOffset (pagination : Pagination) : Nat :=
  (max pagination.Offset 0).toNat

/-- The limit `applyPagination` works with. -/
def pageLimit (DefaultLimit : Int) (pagination : Pagination) : Int :=
  if pagination.Limit ≤ 0 then DefaultLimit else pagination.Limit

/-! ## Server mappers (`hostlibrary/servers.go`, `pkg/plugin/dispatcher.go`) -/

/-- The Go conversion `int32(x)` of an integer: the value reduced modulo `2^32` into
`[-2^31, 2^31)`. -/
def toInt32 (x : Int) : Int :=
  (x + 2 ^ 31) % 2 ^ 32 - 2 ^ 31

/-- The fields of `domain.Server` the mappers read (`int` fields as integers, `uint`
fields as naturals, the UUID as its string). -/
structure Server where
  ID : Nat
  UUID : String
  UUIDShort : String
  Enabled : Bool
  Installed : Int
  Blocked : Bool
  Name : String
  GameID : String
  DSID : Nat
  GameModID : Nat
  ServerIP : String
  ServerPort : Int
  QueryPort : Option Int
  RconPort : Option Int
  Dir : String
  SuUser : Option String
  StartCommand : Option String
  ProcessActive : Bool
  deriving DecidableEq, Repr

/-- The wire server `proto.Server`; `Installed`, `ServerPort`, `QueryPort` and
`RconPort` are signed 32-bit fields. -/
structure ProtoServer where
  Id : Nat
  Uuid : String
  UuidShort : String
  Enabled : Bool
  Installed : Int
  Blocked : Bool
  Name : String
  GameId : String
  DsId : Nat
  GameModId : Nat
  ServerIp : String
  ServerPort : Int
  QueryPort : Option Int
  RconPort : Option Int
  Dir : String
  SuUser : Option String
  StartCommand : Option String
  ProcessActive : Bool
  deriving DecidableEq, Repr

/-- The function `convertServerToProto` of the servers host library. -/
def convertServerToProto (s : Server) : ProtoServer :=
  let queryPort : Option Int :=
    match s.QueryPort with
    | some p => some (toInt32 p)
    | none => none
  let rconPort : Option Int :=
    match s.RconPort with
    | some p => some (toInt32 p)
    | none => none
  { Id := s.ID, Uuid := s.UUID, UuidShort := s.UUIDShort, Enabled := s.Enabled
    Installed := toInt32 s.Installed, Blocked := s.Blocked, Name := s.Name
    GameId := s.GameID, DsId := s.DSID, GameModId := s.GameModID, ServerIp := s.ServerIP
    ServerPort := toInt32 s.ServerPort, QueryPort := queryPort, RconPort := rconPort
    Dir := s.Dir, SuUser := s.SuUser, StartCommand := s.StartCommand
    ProcessActive := s.ProcessActive }

/-- The function `domainServerToProto` of the dispatcher; `none` is the nil pointer. -/
def domainServerToProto (s : Option Server) : Option ProtoServer :=
  match s with
  | none => none
  | some s =>
    let queryPort : Option Int :=
      match s.QueryPort with
      | some p => some (toInt32 p)
      | none => none
    let rconPort : Option Int :=
      match s.RconPort with
      | some p => some (toInt32 p)
      | none => none
    some
      { Id := s.ID, Uuid := s.UUID, UuidShort := s.UUIDShort, Enabled := s.Enabled
        Installed := toInt32 s.Installed, Blocked := s.Blocked, Name := s.Name
        GameId := s.GameID, DsId := s.DSID, GameModId := s.GameModID, ServerIp := s.ServerIP
        ServerPort := toInt32 s.ServerPort, QueryPort := queryPort, RconPort := rconPort
        Dir := s.Dir, SuUser := s.SuUser, StartCommand := s.StartCommand
        ProcessActive := s.ProcessActive }

/-- A server of the examples, with the given ports. -/
def sampleServer (serverPort : Int) (queryPort rconPort : Option Int) : Server :=
  { ID := 7, UUID := "4c1f7b4e-0000-4000-8000-000000000007", UUIDShort := "4c1f7b4e"
    Enabled := true, Installed := 1, Blocked := false, Name := "srv", GameID := "cstrike"
    DSID := 1, GameModID := 2, ServerIP := "10.0.0.1", ServerPort := serverPort
    QueryPort := queryPort, RconPort := rconPort, Dir := "servers/srv", SuUser := none
    StartCommand := none, ProcessActive := false }

/-! ## Vocabulary of the statement on the entity-type mappers -/

/-- The seven wire entity types that name an entity. -/
def namedWireTypes : List ProtoEntityType :=
  [.ENTITY_TYPE_USER, .ENTITY_TYPE_NODE, .ENTITY_TYPE_CLIENT_CERTIFICATE, .ENTITY_TYPE_GAME,
   .ENTITY_TYPE_GAME_MOD, .ENTITY_TYPE_SERVER, .ENTITY_TYPE_ROLE]

/-- The seven domain entity types that name an entity (`domain.EntityTypeUser` to
`domain.EntityTypeRole`). -/
def namedEntityTypes : List String :=
  ["Gameap\\Models\\User", "Gameap\\Models\\DedicatedServer",
   "Gameap\\Models\\ClientCertificate", "Gameap\\Models\\Game", "Gameap\\Models\\GameMod",
   "Gameap\\Models\\Server", "roles"]

/-! ## TLS material (`internal/certificates/decode.go`)

Go strings and byte slices are sequences of bytes here; `base64.StdEncoding` is
modelled from the behaviour of `encoding/base64`. -/

/-- The alphabet of `base64.StdEncoding`: the character of a 6-bit value. -/
def base64Alphabet (v : Nat) : Nat :=
  if v < 26 then 65 + v
  else if v < 52 then 71 + v
  else if v < 62 then v - 4
  else if v = 62 then 43
  else 47

/-- The decode map of `base64.StdEncoding`: the 6-bit value of a character of the
alphabet, `none` for every other byte. -/
def base64DecodeMap (c : Nat) : Option Nat :=
  if 65 ≤ c ∧ c ≤ 90 then some (c - 65)
  else if 97 ≤ c ∧ c ≤ 122 then some (c - 71)
  else if 48 ≤ c ∧ c ≤ 57 then some (c + 4)
  else if c = 43 then some 62
  else if c = 47 then some 63
  else none

/-- The call `base64.StdEncoding.EncodeToString(src)`: three bytes give four
characters, a last group of two or one bytes is padded with `=`. -/
def base64Encode : List Nat → List Nat
  | b0 :: b1 :: b2 :: rest =>
    [base64Alphabet (b0 / 4), base64Alphabet ((b0 % 4) * 16 + b1 / 16),
     base64Alphabet ((b1 % 16) * 4 + b2 / 64), base64Alphabet (b2 % 64)]
      ++ base64Encode rest
  | [b0, b1] =>
    [base64Alphabet (b0 / 4), base64Alphabet ((b0 % 4) * 16 + b1 / 16),
     base64Alphabet ((b1 % 16) * 4), 61]
  | [b0] => [base64Alphabet (b0 / 4), base64Alphabet ((b0 % 4) * 16), 61, 61]
  | [] => []

/-- The bytes the decoder writes for the values of one quantum: four values give
three bytes, three give two, two give one. -/
def base64Quantum : List Nat → List Nat
  | [d0, d1, d2, d3] =>
    [(d0 * 4 + d1 / 16) % 256, (d1 * 16 + d2 / 4) % 256, (d2 * 64 + d3) % 256]
  | [d0, d1, d2] => [(d0 * 4 + d1 / 16) % 256, (d1 * 16 + d2 / 4) % 256]
  | [d0, d1] => [(d0 * 4 + d1 / 16) % 256]
  | _ => []

/-- The input after the carriage returns and line feeds at its start. -/
def skipNewlines : List Nat → List Nat
  | [] => []
  | c :: rest => if c = 10 ∨ c = 13 then skipNewlines rest else c :: rest

/-- The decoder of `base64.StdEncoding` from the values `dbuf` read so far in the
current quantum: line breaks are skipped, a quantum of four values is written out,
padding ends the input, and every other byte is an error. `none` stands for a non-nil
error. -/
def base64DecodeFrom : List Nat → List Nat → Option (List Nat)
  | dbuf, [] => if dbuf.length = 0 then some [] else none
  | dbuf, c :: rest =>
    match base64DecodeMap c with
    | some v =>
      if dbuf.length = 3 then
        match base64DecodeFrom [] rest with
        | some tail => some (base64Quantum (dbuf ++ [v]) ++ tail)
        | none => none
      else base64DecodeFrom (dbuf ++ [v]) rest
    | none =>
      if c = 10 ∨ c = 13 then base64DecodeFrom dbuf rest
      else if c ≠ 61 then none
      else if dbuf.length < 2 then none
      else if dbuf.length = 2 then
        match skipNewlines rest with
        | [] => none
        | c' :: rest' =>
          if c' ≠ 61 then none
          else if skipNewlines rest' = [] then some (base64Quantum dbuf)
          else none
      else if skipNewlines rest = [] then some (base64Quantum dbuf)
      else none

/-- The call `base64.StdEncoding.DecodeString(s)`. -/
def base64Decode (s : List Nat) : Option (List Nat) :=
  base64DecodeFrom [] s

/-- The call `strings.Contains(s, substr)` on bytes. -/
def bytesContain (s substr : List Nat) : Bool :=
  s.tails.any (fun t => substr.isPrefixOf t)

/-- The marker `"-----BEGIN"`. -/
def pemMarker : List Nat := [45, 45, 45, 45, 45, 66, 69, 71, 73, 78]

/-- The function `IsPEMContent`. -/
def IsPEMContent (data : List Nat) : Bool :=
  decide (data.length > 0) && (bytesContain data pemMarker || data.head? == some 45)

/-- The function `DecodePossibleBase64`. -/
def DecodePossibleBase64 (input : List Nat) : List Nat :=
  match base64Decode input with
  | some decoded =>
    if decoded.length > 0 ∧ IsPEMContent decoded = true then decoded else input
  | none => input

/-! ## HTTPS redirect (`internal/api/middlewares/https_redirect.go`) -/

/-- What the middleware reads of the request: whether `r.TLS` is set, the `Host`
header and `r.URL.RequestURI()`. -/
structure Request where
  TLS : Bool
  Host : String
  RequestURI : String
  deriving DecidableEq, Repr

/-- What the middleware does: a redirect with a status code and a `Location` header,
or the call of the next handler. -/
inductive Response where
  | redirect (code : Nat) (location : String)
  | next
  deriving DecidableEq, Repr

/-- The call `strings.LastIndex(s, ":")`, `none` for `-1`. -/
def lastIndexColon : List Char → Option Nat
  | [] => none
  | c :: rest =>
    match lastIndexColon rest with
    | some i => some (i + 1)
    | none => if c = ':' then some 0 else none

/-- A hexadecimal digit in lower case. -/
def hexDigit (n : Nat) : Char :=
  if n < 10 then Char.ofNat ('0'.toNat + n) else Char.ofNat ('a'.toNat + (n - 10))

/-- The function `hexEscapeNonASCII` of `net/http`, which `http.Redirect` applies to
the target: every byte of a character outside ASCII becomes `%` and its two
hexadecimal digits. -/
def hexEscapeNonASCII (s : String) : String :=
  String.mk (s.toList.flatMap (fun c =>
    if c.toNat < 0x80 then [c]
    else (utf8Bytes c).flatMap (fun b => ['%', hexDigit (b / 16), hexDigit (b % 16)])))

/-- The handler `HTTPSRedirectMiddleware(httpsPort)(next)` on a request. -/
def HTTPSRedirectMiddleware (httpsPort : Nat) (r : Request) : Response :=
  if r.TLS = false then
    let host :=
      match lastIndexColon r.Host.toList with
      | some idx => String.mk (r.Host.toList.take idx)
      | none => r.Host
    let target := "https://" ++ host
    let target := if httpsPort ≠ 443 then target ++ ":" ++ toString httpsPort else target
    let target := target ++ r.RequestURI
    Response.redirect 301 (hexEscapeNonASCII target)
  else Response.next

/-! ## In-memory plugin registry (`internal/repositories/inmemory/plugins.go`) -/

/-- The row `domain.Plugin`; a time is counted from the zero time, a nil slice or map
is `none`. -/
structure Plugin where
  ID : Nat
  Name : String
  Version : String
  Description : String
  Author : String
  APIVersion : String
  Filename : Option String
  Source : Option String
  Homepage : Option String
  RequiredPermissions : Option (List String)
  AllowedPermissions : Option (List String)
  Status : String
  Priority : Int
  Category : Option String
  Dependencies : Option (List String)
  Config : Option (GoMap String String)
  InstalledAt : Option Nat
  LastLoadedAt : Option Nat
  CreatedAt : Option Nat
  UpdatedAt : Option Nat
  deriving DecidableEq, Repr

/-- The repository: the rows by ID and the 32-bit ID counter. -/
structure PluginRepository where
  plugins : GoMap Nat Plugin
  nextID : Nat
  deriving DecidableEq, Repr

/-- The constructor `NewPluginRepository`. -/
def NewPluginRepository : PluginRepository :=
  { plugins := [], nextID := 0 }

/-- The method `PluginRepository.Save` at clock reading `now`: the repository
afterwards and the caller's plugin as the method leaves it. -/
def PluginRepository.Save (r : PluginRepository) (plugin : Plugin) (now : Nat) :
    PluginRepository × Plugin :=
  let plugin := { plugin with UpdatedAt := some now }
  let exists_ := (GoMap.get r.plugins plugin.ID).isSome
  let state : PluginRepository × Plugin :=
    if !exists_ then
      let state : PluginRepository × Plugin :=
        if plugin.ID = 0 then
          ({ r with nextID := (r.nextID + 1) % 2 ^ 32 },
            { plugin with ID := (r.nextID + 1) % 2 ^ 32 })
        else (r, plugin)
      match state.2.CreatedAt with
      | none => (state.1, { state.2 with CreatedAt := some now })
      | some t =>
        if t = 0 then (state.1, { state.2 with CreatedAt := some now }) else state
    else (r, plugin)
  ({ state.1 with plugins := GoMap.set state.1.plugins state.2.ID state.2 }, state.2)

/-- A plugin of the examples with the given ID and name. -/
def samplePlugin (id : Nat) (name : String) : Plugin :=
  { ID := id, Name := name, Version := "1.0.0", Description := "", Author := ""
    APIVersion := "1", Filename := none, Source := none, Homepage := none
    RequiredPermissions := none, AllowedPermissions := none, Status := "active"
    Priority := 0, Category := none, Dependencies := none, Config := none
    InstalledAt := none, LastLoadedAt := none, CreatedAt := none, UpdatedAt := none }

/-! ## PostgreSQL array codec (`internal/repositories/postgres/plugins.go`) -/

/-- The call `strings.ReplaceAll(s, old, new)` for a one-character `old`. -/
def replaceAllChar (s : List Char) (old : Char) (new : List Char) : List Char :=
  s.flatMap (fun c => if c = old then new else [c])

/-- The function `escapePostgresArrayElement`. -/
def escapePostgresArrayElement (s : String) : String :=
  if s = "" then "\"\""
  else
    let needsQuotes :=
      s.toList.any (fun c => c = '"' || c = ',' || c = '{' || c = '}' || c = '\\')
    if !needsQuotes then s
    else
      let escaped := replaceAllChar s.toList '\\' ['\\', '\\']
      let escaped := replaceAllChar escaped '"' ['\\', '"']
      String.mk (['"'] ++ escaped ++ ['"'])

/-- The call `strings.Join(elems, ",")`. -/
def joinWithComma : List (List Char) → List Char
  | [] => []
  | [x] => x
  | x :: y :: rest => x ++ ',' :: joinWithComma (y :: rest)

/-- The function `stringsToPostgresArray`; `none` is the nil pointer. -/
def stringsToPostgresArray (strs : List String) : Option String :=
  if strs.length = 0 then none
  else
    some (String.mk
      (['{'] ++ joinWithComma (strs.map (fun s => (escapePostgresArrayElement s).toList))
        ++ ['}']))

/-- The state of the loop of `parsePostgresArrayToStrings`. -/
structure ArrayScan where
  result : List String
  current : List Char
  inQuotes : Bool
  escaped : Bool
  deriving DecidableEq, Repr

/-- One round of the loop of `parsePostgresArrayToStrings`. -/
def arrayScanStep (st : ArrayScan) (r : Char) : ArrayScan :=
  if st.escaped then { st with current := st.current ++ [r], escaped := false }
  else if r = '\\' then { st with escaped := true }
  else if r = '"' then { st with inQuotes := !st.inQuotes }
  else if r = ',' ∧ st.inQuotes = false then
    { st with result := st.result ++ [String.mk st.current], current := [] }
  else { st with current := st.current ++ [r] }

/-- The call `strings.TrimSuffix(s, "}")`. -/
def trimSuffixBrace (s : List Char) : List Char :=
  match s.getLast? with
  | some c => if c = '}' then s.dropLast else s
  | none => s

/-- The call `strings.TrimPrefix(s, "{")`. -/
def trimPrefixBrace (s : List Char) : List Char :=
  match s with
  | c :: rest => if c = '{' then rest else s
  | [] => s

/-- The function `parsePostgresArrayToStrings`; a nil result is the empty list. -/
def parsePostgresArrayToStrings (s : Option String) : List String :=
  match s with
  | none => []
  | some s =>
    if s = "" ∨ s = "{}" then []
    else
      let trimmed := trimPrefixBrace (trimSuffixBrace s.toList)
      if trimmed = [] then []
      else
        let st := trimmed.foldl arrayScanStep
          { result := [], current := [], inQuotes := false, escaped := false }
        if st.current.length > 0 then st.result ++ [String.mk st.current] else st.result

/-! ## Vocabulary of the statements on the storage service and the dispatcher -/

/-- The entry is passed with ID 0. -/
def passedWithZeroID (_r : PluginStorageRepository) (entry : PluginStorageEntry) : Prop :=
  entry.ID = 0

/-- A history as the storage host library makes it: saves with ID 0, among them an
upsert of a stored tuple, and the two deletions. -/
def zeroIDHistory : List RepoOp :=
  [RepoOp.save ⟨0, 1, "a", none, none, [1], none, none⟩ 10,
   RepoOp.save ⟨0, 2, "a", some "Gameap\\Models\\Server", some 3, [2], none, none⟩ 11,
   RepoOp.save ⟨0, 1, "a", none, none, [3], none, none⟩ 12,
   RepoOp.save ⟨0, 1, "b", none, some 0, [4], none, none⟩ 13,
   RepoOp.delete 1,
   RepoOp.deleteByPlugin 2]


/-- The repository after one save of plugin 1 under the key `"k"` with entity ID 0 and
no entity type. -/
def zeroEntityRepository : PluginStorageRepository :=
  (Save NewPluginStorageRepository ⟨0, 1, "k", none, some 0, [65], none, none⟩ 10).1

/-- Two saves of the tuple `(1, "k", nil, nil)`, each passed with ID 0. -/
def nilEntitySaves : List (PluginStorageEntry × Nat) :=
  [(⟨0, 1, "k", none, none, [66], none, none⟩, 11),
   (⟨0, 1, "k", none, none, [67], none, none⟩, 12)]

/-- The repository, its indices in step and its IDs issued, stores `e`, and no entry
stored under another ID has the plugin ID and the key of `e` together with the entity
key of `e`: `e` is the only stored entry that the filter of its tuple admits. -/
def storesOnly (r : PluginStorageRepository) (e : PluginStorageEntry) : Prop :=
  Synced r ∧ Issued r ∧ r.entries.get e.ID = some e ∧
  ∀ k x, r.entries.get k = some x → k ≠ e.ID →
    ¬ (x.PluginID = e.PluginID ∧ x.Key = e.Key ∧
        makeEntityKey x.EntityType x.EntityID = makeEntityKey e.EntityType e.EntityID)

/-- The repository after one save of plugin 1 under the key `"k"` for the server 7. -/
def serverEntityRepository : PluginStorageRepository :=
  (Save NewPluginStorageRepository ⟨0, 1, "k", some "server", some 7, [65], none, none⟩ 10).1

/-- Three saves of the tuple `(1, "k", nil, nil)`: a first save, a save of the entry
object the first one filled in, and a save of a fresh object. -/
def nilEntityUpserts : List (PluginStorageEntry × Nat) :=
  [(⟨0, 1, "k", none, none, [66], none, none⟩, 11),
   (⟨2, 1, "k", none, none, [67], some 11, some 11⟩, 12),
   (⟨0, 1, "k", none, none, [68], none, none⟩, 12)]
/-! ## Theorems: event dispatcher -/

theorem Dispatch_eq_loop (d : Dispatcher) (event : Event) :
    Dispatch d event =
      dispatchLoop (isCancellableEvent event.Typ) event (subscribersOf d event.Typ)
        { result := emptyResult, invoked := [] } := by
  unfold Dispatch
  by_cases h : (subscribersOf d event.Typ).length = 0
  · have h0 : subscribersOf d event.Typ = [] := List.length_eq_zero.mp h
    simp [h0, dispatchLoop]
  · simp [h]

/-- While no enabled guest of `pre` cancels, the loop over `pre ++ rest` is the loop
over `rest` started from the outcome of the loop over `pre`. -/
theorem dispatchLoop_append (c : Bool) (event : Event) (pre rest : List LoadedPlugin)
    (hpre : ∀ q ∈ pre, q.Enabled = true → ∀ r, q.HandleEvent event = .ok r →
      (c && r.ShouldCancel) = false) (run : DispatchRun) :
    dispatchLoop c event (pre ++ rest) run =
      dispatchLoop c event rest (dispatchLoop c event pre run) := by
  induction pre generalizing run with
  | nil => simp [dispatchLoop]
  | cons q pre ih =>
    have ih2 := ih (fun q' hq' => hpre q' (List.mem_cons_of_mem _ hq'))
    have hq := hpre q (List.mem_cons_self _ _)
    simp only [List.cons_append, dispatchLoop]
    cases hen : q.Enabled with
    | false => simp [ih2]
    | true =>
      simp only [Bool.not_true, Bool.false_eq_true, if_false]
      cases hh : q.HandleEvent event with
      | error e => simp [ih2]
      | ok r =>
        have hc := hq hen r hh
        simp only [hc, Bool.false_eq_true, if_false]
        exact ih2 _

/-- Over guests none of which cancels, the loop calls exactly the enabled ones, in
order, and leaves the three cancellation fields as they were. -/
theorem dispatchLoop_no_cancel (c : Bool) (event : Event) (subs : List LoadedPlugin)
    (hsubs : ∀ q ∈ subs, q.Enabled = true → ∀ r, q.HandleEvent event = .ok r →
      (c && r.ShouldCancel) = false) (run : DispatchRun) :
    (dispatchLoop c event subs run).invoked
        = run.invoked ++ subs.filter (fun q => q.Enabled) ∧
    (dispatchLoop c event subs run).result.Cancelled = run.result.Cancelled ∧
    (dispatchLoop c event subs run).result.CancelledBy = run.result.CancelledBy ∧
    (dispatchLoop c event subs run).result.CancelMessage = run.result.CancelMessage := by
  induction subs generalizing run with
  | nil => simp [dispatchLoop]
  | cons q subs ih =>
    have ih2 := ih (fun q' hq' => hsubs q' (List.mem_cons_of_mem _ hq'))
    have hq := hsubs q (List.mem_cons_self _ _)
    simp only [dispatchLoop]
    cases hen : q.Enabled with
    | false => simpa [hen] using ih2 run
    | true =>
      simp only [Bool.not_true, Bool.false_eq_true, if_false]
      cases hh : q.HandleEvent event with
      | error e =>
        simp only []
        have := ih2 { result := { run.result with
                        Errors := run.result.Errors ++ [wrapHandleError e q.InfoId] }
                      invoked := run.invoked ++ [q] }
        simpa [hen, List.filter_cons] using this
      | ok r =>
        have hc := hq hen r hh
        simp only [hc, Bool.false_eq_true, if_false]
        by_cases hhd : r.Handled = true
        · have := ih2 { result := { ({ run.result with
                          HandledBy := run.result.HandledBy ++ [q.InfoId] } :
                            EventDispatchResult) with
                          ModifiedData := mapsCopy run.result.ModifiedData r.ModifiedData }
                        invoked := run.invoked ++ [q] }
          simpa [hen, hhd, List.filter_cons] using this
        · have := ih2 { result := { run.result with
                          ModifiedData := mapsCopy run.result.ModifiedData r.ModifiedData }
                        invoked := run.invoked ++ [q] }
          simpa [hen, hhd, List.filter_cons] using this

/-- Two runs started from records that agree outside `Errors` end in records that
agree outside `Errors`, and append the same errors and the same calls. -/
theorem dispatchLoop_frame (c : Bool) (event : Event) (subs : List LoadedPlugin)
    (run run' : DispatchRun)
    (h : run.result.Cancelled = run'.result.Cancelled ∧
      run.result.CancelledBy = run'.result.CancelledBy ∧
      run.result.CancelMessage = run'.result.CancelMessage ∧
      run.result.HandledBy = run'.result.HandledBy ∧
      run.result.ModifiedData = run'.result.ModifiedData) :
    ∃ es tr,
      (dispatchLoop c event subs run).result.Errors = run.result.Errors ++ es ∧
      (dispatchLoop c event subs run').result.Errors = run'.result.Errors ++ es ∧
      (dispatchLoop c event subs run).invoked = run.invoked ++ tr ∧
      (dispatchLoop c event subs run').invoked = run'.invoked ++ tr ∧
      (dispatchLoop c event subs run).result.Cancelled
        = (dispatchLoop c event subs run').result.Cancelled ∧
      (dispatchLoop c event subs run).result.CancelledBy
        = (dispatchLoop c event subs run').result.CancelledBy ∧
      (dispatchLoop c event subs run).result.CancelMessage
        = (dispatchLoop c event subs run').result.CancelMessage ∧
      (dispatchLoop c event subs run).result.HandledBy
        = (dispatchLoop c event subs run').result.HandledBy ∧
      (dispatchLoop c event subs run).result.ModifiedData
        = (dispatchLoop c event subs run').result.ModifiedData := by
  induction subs generalizing run run' with
  | nil =>
    exact ⟨[], [], by simp [dispatchLoop], by simp [dispatchLoop], by simp [dispatchLoop],
      by simp [dispatchLoop], by simpa [dispatchLoop] using h⟩
  | cons q subs ih =>
    obtain ⟨h1, h2, h3, h4, h5⟩ := h
    simp only [dispatchLoop]
    cases hen : q.Enabled with
    | false => simpa using ih run run' ⟨h1, h2, h3, h4, h5⟩
    | true =>
      simp only [Bool.not_true, Bool.false_eq_true, if_false]
      cases hh : q.HandleEvent event with
      | error e =>
        simp only []
        obtain ⟨es, tr, g1, g2, g3, g4, g5⟩ := ih
          { result := { run.result with
              Errors := run.result.Errors ++ [wrapHandleError e q.InfoId] }
            invoked := run.invoked ++ [q] }
          { result := { run'.result with
              Errors := run'.result.Errors ++ [wrapHandleError e q.InfoId] }
            invoked := run'.invoked ++ [q] }
          ⟨h1, h2, h3, h4, h5⟩
        refine ⟨wrapHandleError e q.InfoId :: es, q :: tr, ?_, ?_, ?_, ?_, g5⟩
        · simpa using g1
        · simpa using g2
        · simpa using g3
        · simpa using g4
      | ok r =>
        simp only []
        by_cases hc : (c && r.ShouldCancel) = true
        · simp only [hc, if_true]
          refine ⟨[], [q], ?_⟩
          by_cases hhd : r.Handled = true <;> cases hm : r.Message <;>
            simp [hhd, h1, h2, h3, h4, h5]
        · simp only [hc, Bool.false_eq_true, if_false]
          by_cases hhd : r.Handled = true
          · obtain ⟨es, tr, g1, g2, g3, g4, g5⟩ := ih
              { result := { ({ run.result with
                    HandledBy := run.result.HandledBy ++ [q.InfoId] } :
                      EventDispatchResult) with
                    ModifiedData := mapsCopy run.result.ModifiedData r.ModifiedData }
                invoked := run.invoked ++ [q] }
              { result := { ({ run'.result with
                    HandledBy := run'.result.HandledBy ++ [q.InfoId] } :
                      EventDispatchResult) with
                    ModifiedData := mapsCopy run'.result.ModifiedData r.ModifiedData }
                invoked := run'.invoked ++ [q] }
              ⟨h1, h2, h3, by simp [h4], by simp [h5]⟩
            refine ⟨es, q :: tr, ?_, ?_, ?_, ?_, ?_⟩
            · simpa [hhd] using g1
            · simpa [hhd] using g2
            · simpa [hhd] using g3
            · simpa [hhd] using g4
            · simpa [hhd] using g5
          · obtain ⟨es, tr, g1, g2, g3, g4, g5⟩ := ih
              { result := { run.result with
                    ModifiedData := mapsCopy run.result.ModifiedData r.ModifiedData }
                invoked := run.invoked ++ [q] }
              { result := { run'.result with
                    ModifiedData := mapsCopy run'.result.ModifiedData r.ModifiedData }
                invoked := run'.invoked ++ [q] }
              ⟨h1, h2, h3, h4, by simp [h5]⟩
            refine ⟨es, q :: tr, ?_, ?_, ?_, ?_, ?_⟩
            · simpa [hhd] using g1
            · simpa [hhd] using g2
            · simpa [hhd] using g3
            · simpa [hhd] using g4
            · simpa [hhd] using g5

/-- C1. Dispatch cancellation: for a cancellable (`SERVER_PRE_*`) event and a
subscriber list `pre ++ p :: post` in which `p` is the first enabled guest whose
`HandleEvent` returns a result with `should_cancel = true`, `Dispatch` calls
`HandleEvent` on the enabled guests of `pre` in order, then on `p`, and on no guest
of `post`; the result has `Cancelled = true`, `CancelledBy = p.Info.Id` and
`CancelMessage` equal to `p`'s message, empty when `p` gave none.  (When every
subscriber is enabled the guests called are exactly `pre ++ [p]`.) -/
theorem dispatch_cancel_first (d : Dispatcher) (event : Event)
    (pre post : List LoadedPlugin) (p : LoadedPlugin) (r : EventResult)
    (hpre_type : event.Typ ∈ [EventType.SERVER_PRE_START, EventType.SERVER_PRE_STOP,
      EventType.SERVER_PRE_RESTART, EventType.SERVER_PRE_INSTALL,
      EventType.SERVER_PRE_UPDATE, EventType.SERVER_PRE_REINSTALL,
      EventType.SERVER_PRE_DELETE])
    (hsubs : subscribersOf d event.Typ = pre ++ p :: post)
    (hen : p.Enabled = true)
    (hp : p.HandleEvent event = .ok r) (hr : r.ShouldCancel = true)
    (hfirst : ∀ q ∈ pre, q.Enabled = true → ∀ r', q.HandleEvent event = .ok r' →
      r'.ShouldCancel = false) :
    (Dispatch d event).invoked = pre.filter (fun q => q.Enabled) ++ [p] ∧
    (Dispatch d event).result.Cancelled = true ∧
    (Dispatch d event).result.CancelledBy = p.InfoId ∧
    (Dispatch d event).result.CancelMessage = r.Message.getD "" := by
  have hc : isCancellableEvent event.Typ = true := by
    simp only [List.mem_cons, List.mem_singleton, List.mem_nil_iff, or_false] at hpre_type
    rcases hpre_type with h | h | h | h | h | h | h <;> simp [h, isCancellableEvent]
  have hpre : ∀ q ∈ pre, q.Enabled = true → ∀ r', q.HandleEvent event = .ok r' →
      (isCancellableEvent event.Typ && r'.ShouldCancel) = false := by
    intro q hq hqe r' hr'
    simp [hfirst q hq hqe r' hr']
  rw [Dispatch_eq_loop, hsubs, dispatchLoop_append _ _ _ _ hpre]
  obtain ⟨g1, g2, g3, g4⟩ := dispatchLoop_no_cancel (isCancellableEvent event.Typ) event pre
    hpre { result := emptyResult, invoked := [] }
  rw [hc] at g1 g4
  simp only [emptyResult, List.nil_append] at g1 g4
  simp only [dispatchLoop, hen, hp, hc, hr, Bool.not_true, Bool.false_eq_true, if_false,
    Bool.and_self, if_true]
  refine ⟨by simp [emptyResult, g1], trivial, trivial, ?_⟩
  cases hm : r.Message with
  | some m => by_cases hhd : r.Handled = true <;> simp [hhd]
  | none => by_cases hhd : r.Handled = true <;> simp [hhd, g4, emptyResult]

/-- C1 at a concrete input: guest `A` handles, guest `B` vetoes a
`SERVER_PRE_START` event, guest `C` is not reached. -/
theorem dispatch_cancel_first_witness :
    (Dispatch (sampleDispatcher EventType.SERVER_PRE_START)
        ⟨EventType.SERVER_PRE_START, 0⟩).invoked
      = [guestHandles "A"].filter (fun q => q.Enabled) ++ [guestVetoes "B" "veto"] ∧
    (Dispatch (sampleDispatcher EventType.SERVER_PRE_START)
        ⟨EventType.SERVER_PRE_START, 0⟩).result.Cancelled = true ∧
    (Dispatch (sampleDispatcher EventType.SERVER_PRE_START)
        ⟨EventType.SERVER_PRE_START, 0⟩).result.CancelledBy = "B" ∧
    (Dispatch (sampleDispatcher EventType.SERVER_PRE_START)
        ⟨EventType.SERVER_PRE_START, 0⟩).result.CancelMessage = "veto" :=
  dispatch_cancel_first (sampleDispatcher EventType.SERVER_PRE_START)
    ⟨EventType.SERVER_PRE_START, 0⟩
    [guestHandles "A"] [guestFails "C" "boom", guestHandles "D"] (guestVetoes "B" "veto")
    ⟨false, true, some "veto", []⟩
    (by decide) rfl rfl rfl rfl
    (by
      intro q hq _ r' hr'
      simp only [List.mem_singleton] at hq
      subst hq
      simp only [guestHandles, Except.ok.injEq] at hr'
      subst hr'
      rfl)

/-- C5. Dispatch isolation: when the guest `p` of the subscriber list
`pre ++ p :: post` is enabled, is reached (no enabled guest before it cancels) and
its `HandleEvent` returns an error, then, compared with the dispatch of the same
event over `pre ++ post`, the dispatch records exactly one more error (the wrapped
error of `p`, at the place of `p`), calls exactly one more guest (`p`, at its place;
every later guest is called as without `p`), and returns the same `Cancelled`,
`CancelledBy`, `CancelMessage`, `HandledBy` and `ModifiedData`. -/
theorem dispatch_guest_error_isolated (d d' : Dispatcher) (event : Event)
    (pre post : List LoadedPlugin) (p : LoadedPlugin) (err : String)
    (hsubs : subscribersOf d event.Typ = pre ++ p :: post)
    (hsubs' : subscribersOf d' event.Typ = pre ++ post)
    (hen : p.Enabled = true)
    (hp : p.HandleEvent event = .error err)
    (hreach : ∀ q ∈ pre, q.Enabled = true → ∀ r, q.HandleEvent event = .ok r →
      (isCancellableEvent event.Typ && r.ShouldCancel) = false) :
    ∃ es₁ es₂ tr₁ tr₂,
      (Dispatch d event).result.Errors
        = es₁ ++ wrapHandleError err p.InfoId :: es₂ ∧
      (Dispatch d' event).result.Errors = es₁ ++ es₂ ∧
      (Dispatch d event).invoked = tr₁ ++ p :: tr₂ ∧
      (Dispatch d' event).invoked = tr₁ ++ tr₂ ∧
      (Dispatch d event).result.Cancelled = (Dispatch d' event).result.Cancelled ∧
      (Dispatch d event).result.CancelledBy = (Dispatch d' event).result.CancelledBy ∧
      (Dispatch d event).result.CancelMessage = (Dispatch d' event).result.CancelMessage ∧
      (Dispatch d event).result.HandledBy = (Dispatch d' event).result.HandledBy ∧
      (Dispatch d event).result.ModifiedData = (Dispatch d' event).result.ModifiedData := by
  rw [Dispatch_eq_loop, Dispatch_eq_loop, hsubs, hsubs',
    dispatchLoop_append _ _ _ _ hreach, dispatchLoop_append _ _ _ _ hreach]
  generalize dispatchLoop (isCancellableEvent event.Typ) event pre
    { result := emptyResult, invoked := [] } = mid
  simp only [dispatchLoop, hen, hp, Bool.not_true, Bool.false_eq_true, if_false]
  obtain ⟨es, tr, g1, g2, g3, g4, g5⟩ :=
    dispatchLoop_frame (isCancellableEvent event.Typ) event post
      { result := { mid.result with
          Errors := mid.result.Errors ++ [wrapHandleError err p.InfoId] }
        invoked := mid.invoked ++ [p] }
      mid ⟨rfl, rfl, rfl, rfl, rfl⟩
  refine ⟨mid.result.Errors, es, mid.invoked, tr, ?_, g2, ?_, g4, g5⟩
  · simpa using g1
  · simpa using g3

/-- C5 at a concrete input: on a `SERVER_POST_START` event guest `C` fails between
`A`, `B` and `D`. -/
theorem dispatch_guest_error_isolated_witness :
    ∃ es₁ es₂ tr₁ tr₂,
      (Dispatch (sampleDispatcher EventType.SERVER_POST_START)
          ⟨EventType.SERVER_POST_START, 0⟩).result.Errors
        = es₁ ++ wrapHandleError "boom" (guestFails "C" "boom").InfoId :: es₂ ∧
      (Dispatch (dispatcherOf EventType.SERVER_POST_START
          [guestHandles "A", guestVetoes "B" "veto", guestHandles "D"])
          ⟨EventType.SERVER_POST_START, 0⟩).result.Errors = es₁ ++ es₂ ∧
      (Dispatch (sampleDispatcher EventType.SERVER_POST_START)
          ⟨EventType.SERVER_POST_START, 0⟩).invoked
        = tr₁ ++ guestFails "C" "boom" :: tr₂ ∧
      (Dispatch (dispatcherOf EventType.SERVER_POST_START
          [guestHandles "A", guestVetoes "B" "veto", guestHandles "D"])
          ⟨EventType.SERVER_POST_START, 0⟩).invoked = tr₁ ++ tr₂ ∧
      (Dispatch (sampleDispatcher EventType.SERVER_POST_START)
          ⟨EventType.SERVER_POST_START, 0⟩).result.Cancelled
        = (Dispatch (dispatcherOf EventType.SERVER_POST_START
            [guestHandles "A", guestVetoes "B" "veto", guestHandles "D"])
            ⟨EventType.SERVER_POST_START, 0⟩).result.Cancelled ∧
      (Dispatch (sampleDispatcher EventType.SERVER_POST_START)
          ⟨EventType.SERVER_POST_START, 0⟩).result.CancelledBy
        = (Dispatch (dispatcherOf EventType.SERVER_POST_START
            [guestHandles "A", guestVetoes "B" "veto", guestHandles "D"])
            ⟨EventType.SERVER_POST_START, 0⟩).result.CancelledBy ∧
      (Dispatch (sampleDispatcher EventType.SERVER_POST_START)
          ⟨EventType.SERVER_POST_START, 0⟩).result.CancelMessage
        = (Dispatch (dispatcherOf EventType.SERVER_POST_START
            [guestHandles "A", guestVetoes "B" "veto", guestHandles "D"])
            ⟨EventType.SERVER_POST_START, 0⟩).result.CancelMessage ∧
      (Dispatch (sampleDispatcher EventType.SERVER_POST_START)
          ⟨EventType.SERVER_POST_START, 0⟩).result.HandledBy
        = (Dispatch (dispatcherOf EventType.SERVER_POST_START
            [guestHandles "A", guestVetoes "B" "veto", guestHandles "D"])
            ⟨EventType.SERVER_POST_START, 0⟩).result.HandledBy ∧
      (Dispatch (sampleDispatcher EventType.SERVER_POST_START)
          ⟨EventType.SERVER_POST_START, 0⟩).result.ModifiedData
        = (Dispatch (dispatcherOf EventType.SERVER_POST_START
            [guestHandles "A", guestVetoes "B" "veto", guestHandles "D"])
            ⟨EventType.SERVER_POST_START, 0⟩).result.ModifiedData :=
  dispatch_guest_error_isolated (sampleDispatcher EventType.SERVER_POST_START)
    (dispatcherOf EventType.SERVER_POST_START
      [guestHandles "A", guestVetoes "B" "veto", guestHandles "D"])
    ⟨EventType.SERVER_POST_START, 0⟩
    [guestHandles "A", guestVetoes "B" "veto"] [guestHandles "D"]
    (guestFails "C" "boom") "boom" rfl rfl rfl rfl
    (by intro q _ _ r _; rfl)

/-- C6. Non-cancellable events: for an event whose type is none of the seven
`SERVER_PRE_*` types, whatever the guests return, `Dispatch` calls `HandleEvent` on
every enabled subscriber of that type, in order, and returns `Cancelled = false`
with empty `CancelledBy` and `CancelMessage`. -/
theorem dispatch_non_cancellable (d : Dispatcher) (event : Event)
    (hpost : event.Typ ∉ [EventType.SERVER_PRE_START, EventType.SERVER_PRE_STOP,
      EventType.SERVER_PRE_RESTART, EventType.SERVER_PRE_INSTALL,
      EventType.SERVER_PRE_UPDATE, EventType.SERVER_PRE_REINSTALL,
      EventType.SERVER_PRE_DELETE]) :
    (Dispatch d event).invoked
      = (subscribersOf d event.Typ).filter (fun q => q.Enabled) ∧
    (Dispatch d event).result.Cancelled = false ∧
    (Dispatch d event).result.CancelledBy = "" ∧
    (Dispatch d event).result.CancelMessage = "" := by
  have hc : isCancellableEvent event.Typ = false := by
    simp only [List.mem_cons, List.mem_singleton, List.mem_nil_iff, or_false,
      not_or] at hpost
    obtain ⟨h1, h2, h3, h4, h5, h6, h7⟩ := hpost
    cases ht : event.Typ <;> simp_all [isCancellableEvent]
  rw [Dispatch_eq_loop, hc]
  have := dispatchLoop_no_cancel false event (subscribersOf d event.Typ)
    (by intro q _ _ r _; rfl) { result := emptyResult, invoked := [] }
  simpa [emptyResult] using this

/-- C6 at a concrete input: the veto of guest `B` is ignored on `SERVER_POST_START`. -/
theorem dispatch_non_cancellable_witness :
    (Dispatch (sampleDispatcher EventType.SERVER_POST_START)
        ⟨EventType.SERVER_POST_START, 0⟩).invoked
      = (subscribersOf (sampleDispatcher EventType.SERVER_POST_START)
          (Event.mk EventType.SERVER_POST_START 0).Typ).filter (fun q => q.Enabled) ∧
    (Dispatch (sampleDispatcher EventType.SERVER_POST_START)
        ⟨EventType.SERVER_POST_START, 0⟩).result.Cancelled = false ∧
    (Dispatch (sampleDispatcher EventType.SERVER_POST_START)
        ⟨EventType.SERVER_POST_START, 0⟩).result.CancelledBy = "" ∧
    (Dispatch (sampleDispatcher EventType.SERVER_POST_START)
        ⟨EventType.SERVER_POST_START, 0⟩).result.CancelMessage = "" :=
  dispatch_non_cancellable (sampleDispatcher EventType.SERVER_POST_START)
    ⟨EventType.SERVER_POST_START, 0⟩ (by decide)

/-! ## Theorems: plugin ID codec -/

/-- C3. The round trip `ParsePluginID (CompactPluginID n) = n` fails at `n = 215`:
the single byte `0xD7` is encoded as `"24"`, which `ParsePluginID` reads by its
first rule as the decimal number 24. -/
theorem compact_parse_roundtrip_fails_at_215 :
    215 < 2 ^ 64 ∧ CompactPluginID 215 = "24" ∧ ParsePluginID "24" = 24 ∧
    ParsePluginID (CompactPluginID 215) ≠ 215 := by
  decide

/-! ## Theorems: where the ID codec does round-trip -/

theorem parseUint10_foldl_none (l : List Char) :
    l.foldl
      (fun (acc : Option Nat) c =>
        match acc with
        | none => none
        | some n =>
          if '0' ≤ c ∧ c ≤ '9' then
            let n' := n * 10 + (c.toNat - '0'.toNat)
            if n' < 2 ^ 64 then some n' else none
          else none)
      none = none := by
  induction l with
  | nil => rfl
  | cons c l ih => simpa using ih

/-- `strconv.ParseUint` fails on a string with a character that is no decimal digit. -/
theorem parseUint10_of_letter (s : String) (h : ∃ c ∈ s.toList, ¬ ('0' ≤ c ∧ c ≤ '9')) :
    parseUint10 s = none := by
  unfold parseUint10
  by_cases hnil : s.toList = []
  · obtain ⟨c, hc, _⟩ := h
    rw [hnil] at hc
    simp at hc
  · rw [if_neg hnil]
    have key : ∀ (l : List Char) (acc : Option Nat),
        (∃ c ∈ l, ¬ ('0' ≤ c ∧ c ≤ '9')) →
        l.foldl
          (fun (acc : Option Nat) c =>
            match acc with
            | none => none
            | some n =>
              if '0' ≤ c ∧ c ≤ '9' then
                let n' := n * 10 + (c.toNat - '0'.toNat)
                if n' < 2 ^ 64 then some n' else none
              else none)
          acc = none := by
      intro l
      induction l with
      | nil => intro acc h; simp at h
      | cons c l ih =>
        intro acc h
        simp only [List.foldl_cons]
        by_cases hc : '0' ≤ c ∧ c ≤ '9'
        · apply ih
          obtain ⟨c', hc', hnd⟩ := h
          rcases List.mem_cons.1 hc' with rfl | hm
          · exact absurd hc hnd
          · exact ⟨c', hm, hnd⟩
        · cases acc with
          | none => exact parseUint10_foldl_none l
          | some n =>
            simp only [hc, if_false]
            exact parseUint10_foldl_none l
    exact key s.toList (some 0) h

theorem idDecodeMap_idAlphabet (v : Nat) (hv : v < 32) :
    idDecodeMap (idAlphabet v) = some v ∧ idAlphabet v ≠ '\r' ∧ idAlphabet v ≠ '\n' := by
  interval_cases v <;> decide

theorem idDecodeValues_map (vs : List Nat) (hvs : ∀ v ∈ vs, v < 32) :
    idDecodeValues (vs.map idAlphabet) = some vs := by
  induction vs with
  | nil => rfl
  | cons v vs ih =>
    have h1 := (idDecodeMap_idAlphabet v (hvs v (List.mem_cons_self _ _))).1
    have h2 := ih (fun x hx => hvs x (List.mem_cons_of_mem _ hx))
    simp [idDecodeValues, h1, h2]

theorem filter_newlines_map (vs : List Nat) (hvs : ∀ v ∈ vs, v < 32) :
    (vs.map idAlphabet).filter (fun c => c ≠ '\r' ∧ c ≠ '\n') = vs.map idAlphabet := by
  apply List.filter_eq_self.2
  intro c hc
  obtain ⟨v, hv, rfl⟩ := List.mem_map.1 hc
  have := idDecodeMap_idAlphabet v (hvs v hv)
  simp [this.2.1, this.2.2]

/-- Decoding undoes encoding on up to eight bytes. -/
theorem base32_roundtrip (bs : List Nat) (hlen : bs.length ≤ 8) (hb : ∀ b ∈ bs, b < 256) :
    base32Bytes (base32Values bs) = bs ∧ ∀ v ∈ base32Values bs, v < 32 := by
  match bs, hlen, hb with
  | [], _, _ => simp [base32Values, base32Bytes, base32Quantum]
  | [b0], _, hb =>
    have h0 := hb b0 (by simp)
    simp only [base32Values, base32Bytes, base32Quantum, List.mem_cons, List.mem_singleton,
      List.not_mem_nil, or_false, forall_eq_or_imp, forall_eq, List.cons.injEq, and_true]
    omega
  | [b0, b1], _, hb =>
    have h0 := hb b0 (by simp)
    have h1 := hb b1 (by simp)
    simp only [base32Values, base32Bytes, base32Quantum, List.mem_cons, List.mem_singleton,
      List.not_mem_nil, or_false, forall_eq_or_imp, forall_eq, List.cons.injEq, and_true]
    omega
  | [b0, b1, b2], _, hb =>
    have h0 := hb b0 (by simp)
    have h1 := hb b1 (by simp)
    have h2 := hb b2 (by simp)
    simp only [base32Values, base32Bytes, base32Quantum, List.mem_cons, List.mem_singleton,
      List.not_mem_nil, or_false, forall_eq_or_imp, forall_eq, List.cons.injEq, and_true]
    omega
  | [b0, b1, b2, b3], _, hb =>
    have h0 := hb b0 (by simp)
    have h1 := hb b1 (by simp)
    have h2 := hb b2 (by simp)
    have h3 := hb b3 (by simp)
    simp only [base32Values, base32Bytes, base32Quantum, List.mem_cons, List.mem_singleton,
      List.not_mem_nil, or_false, forall_eq_or_imp, forall_eq, List.cons.injEq, and_true]
    omega
  | [b0, b1, b2, b3, b4], _, hb =>
    have h0 := hb b0 (by simp)
    have h1 := hb b1 (by simp)
    have h2 := hb b2 (by simp)
    have h3 := hb b3 (by simp)
    have h4 := hb b4 (by simp)
    simp only [base32Values, base32Bytes, base32Quantum, List.mem_cons, List.mem_singleton,
      List.not_mem_nil, or_false, forall_eq_or_imp, forall_eq, List.cons.injEq, and_true,
      List.append_nil, List.cons_append, List.nil_append]
    omega
  | [b0, b1, b2, b3, b4, b5], _, hb =>
    have h0 := hb b0 (by simp)
    have h1 := hb b1 (by simp)
    have h2 := hb b2 (by simp)
    have h3 := hb b3 (by simp)
    have h4 := hb b4 (by simp)
    have h5 := hb b5 (by simp)
    simp only [base32Values, base32Bytes, base32Quantum, List.mem_cons, List.mem_singleton,
      List.not_mem_nil, or_false, forall_eq_or_imp, forall_eq, List.cons.injEq, and_true,
      List.append_nil, List.cons_append, List.nil_append]
    omega
  | [b0, b1, b2, b3, b4, b5, b6], _, hb =>
    have h0 := hb b0 (by simp)
    have h1 := hb b1 (by simp)
    have h2 := hb b2 (by simp)
    have h3 := hb b3 (by simp)
    have h4 := hb b4 (by simp)
    have h5 := hb b5 (by simp)
    have h6 := hb b6 (by simp)
    simp only [base32Values, base32Bytes, base32Quantum, List.mem_cons, List.mem_singleton,
      List.not_mem_nil, or_false, forall_eq_or_imp, forall_eq, List.cons.injEq, and_true,
      List.append_nil, List.cons_append, List.nil_append]
    omega
  | [b0, b1, b2, b3, b4, b5, b6, b7], _, hb =>
    have h0 := hb b0 (by simp)
    have h1 := hb b1 (by simp)
    have h2 := hb b2 (by simp)
    have h3 := hb b3 (by simp)
    have h4 := hb b4 (by simp)
    have h5 := hb b5 (by simp)
    have h6 := hb b6 (by simp)
    have h7 := hb b7 (by simp)
    simp only [base32Values, base32Bytes, base32Quantum, List.mem_cons, List.mem_singleton,
      List.not_mem_nil, or_false, forall_eq_or_imp, forall_eq, List.cons.injEq, and_true,
      List.append_nil, List.cons_append, List.nil_append]
    omega
  | _ :: _ :: _ :: _ :: _ :: _ :: _ :: _ :: _ :: _, hlen, _ =>
    simp only [List.length_cons] at hlen
    omega

theorem idDecodeString_idEncodeToString (bs : List Nat) (hlen : bs.length ≤ 8)
    (hb : ∀ b ∈ bs, b < 256) : idDecodeString (idEncodeToString bs) = some bs := by
  obtain ⟨h1, h2⟩ := base32_roundtrip bs hlen hb
  unfold idDecodeString idEncodeToString
  have : (String.mk ((base32Values bs).map idAlphabet)).toList
      = (base32Values bs).map idAlphabet := rfl
  rw [this, filter_newlines_map _ h2, idDecodeValues_map _ h2]
  simp [h1]

theorem skipLeadingZeros_spec (l : List Nat) :
    (skipLeadingZeros l).length ≤ l.length ∧
      List.replicate (l.length - (skipLeadingZeros l).length) 0 ++ skipLeadingZeros l = l ∧
      ∀ b ∈ skipLeadingZeros l, b ∈ l := by
  induction l with
  | nil => simp [skipLeadingZeros]
  | cons b l ih =>
    cases l with
    | nil => simp [skipLeadingZeros]
    | cons b' rest =>
      simp only [skipLeadingZeros]
      by_cases hb : b = 0
      · subst hb
        obtain ⟨h1, h2, h3⟩ := ih
        simp only [if_true]
        refine ⟨Nat.le_succ_of_le h1, ?_, fun x hx => List.mem_cons_of_mem _ (h3 x hx)⟩
        have : (0 :: b' :: rest).length - (skipLeadingZeros (b' :: rest)).length
            = ((b' :: rest).length - (skipLeadingZeros (b' :: rest)).length) + 1 := by
          simp only [List.length_cons] at h1 ⊢
          omega
        rw [this, List.replicate_succ, List.cons_append, h2]
      · simp [hb]

theorem bigEndianValue_putUint64 (n : Nat) (hn : n < 2 ^ 64) :
    bigEndianValue (putUint64 n) = n := by
  simp only [bigEndianValue, putUint64, List.foldl_cons, List.foldl_nil]
  omega

/-- The round trip holds for every ID whose compact form contains a character that
is no decimal digit; the decimal rule of `ParsePluginID` takes the others. -/
theorem compact_parse_roundtrip_of_letter (n : Nat) (hn : n < 2 ^ 64)
    (hletter : ∃ c ∈ (CompactPluginID n).toList, ¬ ('0' ≤ c ∧ c ≤ '9')) :
    ParsePluginID (CompactPluginID n) = n := by
  obtain ⟨h1, h2, h3⟩ := skipLeadingZeros_spec (putUint64 n)
  have hlen8 : (putUint64 n).length = 8 := rfl
  have hb : ∀ b ∈ skipLeadingZeros (putUint64 n), b < 256 := by
    intro b hb
    have := h3 b hb
    simp only [putUint64, List.mem_cons, List.mem_singleton, List.not_mem_nil, or_false] at this
    omega
  have hdec := idDecodeString_idEncodeToString (skipLeadingZeros (putUint64 n))
    (by omega) hb
  unfold ParsePluginID
  rw [parseUint10_of_letter _ hletter]
  unfold CompactPluginID
  simp only [hdec]
  rw [if_pos (by omega)]
  rw [← hlen8, h2]
  exact bigEndianValue_putUint64 n hn

/-! ## Theorems: Go maps and index sets -/

theorem GoMap.get_set {κ ν : Type} [DecidableEq κ] (m : GoMap κ ν) (k k' : κ) (v : ν) :
    (m.set k v).get k' = if k = k' then some v else m.get k' := by
  induction m with
  | nil =>
    by_cases h : k = k' <;> simp [GoMap.set, GoMap.get, h]
  | cons kv m ih =>
    obtain ⟨k₀, v₀⟩ := kv
    by_cases h0 : k₀ = k
    · subst h0
      by_cases h : k₀ = k' <;> simp [GoMap.set, GoMap.get, h]
    · by_cases h : k = k'
      · subst h
        simp [GoMap.set, GoMap.get, h0, ih]
      · have h' : ¬ k' = k := fun e => h e.symm
        by_cases h1 : k₀ = k'
        · subst h1
          simp [GoMap.set, GoMap.get, h0, h]
        · simp [GoMap.set, GoMap.get, h0, h1, ih, h]

theorem GoMap.get_delete {κ ν : Type} [DecidableEq κ] (m : GoMap κ ν) (k k' : κ) :
    (m.delete k).get k' = if k = k' then none else m.get k' := by
  induction m with
  | nil => simp [GoMap.delete, GoMap.get]
  | cons kv m ih =>
    obtain ⟨k₀, v₀⟩ := kv
    simp only [GoMap.delete] at ih
    by_cases h0 : k₀ = k
    · subst h0
      by_cases h : k₀ = k'
      · simpa [GoMap.delete, GoMap.get, List.filter_cons, h] using ih
      · simpa [GoMap.delete, GoMap.get, List.filter_cons, h] using ih
    · by_cases h : k = k'
      · subst h
        simpa [GoMap.delete, GoMap.get, List.filter_cons, h0] using ih
      · have h' : ¬ k' = k := fun e => h e.symm
        by_cases h1 : k₀ = k'
        · subst h1
          simp [GoMap.delete, GoMap.get, List.filter_cons, h0, h]
        · simpa [GoMap.delete, GoMap.get, List.filter_cons, h0, h1, h] using ih

theorem mem_setAdd (s : List Nat) (id x : Nat) : x ∈ setAdd s id ↔ x = id ∨ x ∈ s := by
  unfold setAdd
  by_cases h : id ∈ s
  · simp only [h, if_true]
    constructor
    · exact Or.inr
    · rintro (rfl | hx)
      · exact h
      · exact hx
  · simp [h, or_comm]

theorem mem_setDel (s : List Nat) (id x : Nat) : x ∈ setDel s id ↔ x ∈ s ∧ x ≠ id := by
  simp [setDel]

theorem nodup_setAdd (s : List Nat) (id : Nat) (h : s.Nodup) : (setAdd s id).Nodup := by
  unfold setAdd
  by_cases hm : id ∈ s
  · simpa [hm] using h
  · simp only [hm, if_false]
    exact List.Nodup.append h (List.nodup_singleton id) (by simpa using hm)

theorem indexHas_indexAdd {κ : Type} [DecidableEq κ] (idx : GoMap κ (List Nat)) (k k' : κ)
    (id id' : Nat) :
    indexHas (indexAdd idx k id) k' id' ↔ (k' = k ∧ id' = id) ∨ indexHas idx k' id' := by
  unfold indexHas indexAdd
  by_cases hk : k = k'
  · subst hk
    cases hg : idx.get k with
    | none => simp [GoMap.get_set, hg, mem_setAdd, setAdd]
    | some s => simp [GoMap.get_set, hg, mem_setAdd]
  · have hk' : ¬ k' = k := fun h => hk h.symm
    cases hg : idx.get k with
    | none => simp [GoMap.get_set, hg, hk, hk']
    | some s => simp [GoMap.get_set, hg, hk, hk']

theorem indexHas_indexRemove {κ : Type} [DecidableEq κ] (idx : GoMap κ (List Nat)) (k k' : κ)
    (id id' : Nat) :
    indexHas (indexRemove idx k id) k' id' ↔ indexHas idx k' id' ∧ ¬ (k' = k ∧ id' = id) := by
  unfold indexHas indexRemove
  cases hg : idx.get k with
  | none =>
    simp only []
    constructor
    · intro h
      refine ⟨h, ?_⟩
      rintro ⟨rfl, _⟩
      simp [hg] at h
    · exact fun h => h.1
  | some s =>
    simp only []
    by_cases hk : k = k'
    · subst hk
      by_cases hl : (setDel s id).length = 0
      · have hnil : setDel s id = [] := List.length_eq_zero.mp hl
        simp only [hl, if_true, GoMap.get_delete, hg, Option.getD_none, Option.getD_some,
          List.not_mem_nil, false_iff, true_and, not_and, not_not]
        intro hx
        by_contra hne
        have : id' ∈ setDel s id := (mem_setDel s id id').2 ⟨hx, hne⟩
        simp [hnil] at this
      · simp [hl, GoMap.get_set, hg, mem_setDel]
    · have hk' : ¬ k' = k := fun h => hk h.symm
      by_cases hl : (setDel s id).length = 0
      · simp [hl, GoMap.get_delete, GoMap.get_set, hk, hk']
      · simp [hl, GoMap.get_set, hk, hk']

/-! ## Theorems: the indices follow the primary map -/

theorem index_put_new {κ : Type} [DecidableEq κ] (f : PluginStorageEntry → κ)
    (entries : GoMap Nat PluginStorageEntry) (idx : GoMap κ (List Nat))
    (saved : PluginStorageEntry) (id₀ : Nat) (hnone : entries.get id₀ = none)
    (hsync : ∀ k id, indexHas idx k id ↔ ∃ e, entries.get id = some e ∧ f e = k)
    (k : κ) (id : Nat) :
    indexHas (indexAdd idx (f saved) id₀) k id ↔
      ∃ e, (entries.set id₀ saved).get id = some e ∧ f e = k := by
  rw [indexHas_indexAdd, hsync, GoMap.get_set]
  by_cases hid : id₀ = id
  · subst hid
    simp only [hnone, if_true, Option.some.injEq, exists_eq_left', and_true]
    constructor
    · rintro (h | ⟨e, he, _⟩)
      · exact h.symm
      · cases he
    · intro h
      exact Or.inl h.symm
  · have hid' : ¬ id = id₀ := fun e => hid e.symm
    simp [hid, hid']

theorem index_put_old {κ : Type} [DecidableEq κ] (f : PluginStorageEntry → κ)
    (entries : GoMap Nat PluginStorageEntry) (idx : GoMap κ (List Nat))
    (saved oldEntry : PluginStorageEntry) (id₀ : Nat)
    (hold : entries.get id₀ = some oldEntry) (hid₀ : oldEntry.ID = id₀)
    (hsync : ∀ k id, indexHas idx k id ↔ ∃ e, entries.get id = some e ∧ f e = k)
    (k : κ) (id : Nat) :
    indexHas (indexAdd (indexRemove idx (f oldEntry) oldEntry.ID) (f saved) id₀) k id ↔
      ∃ e, (entries.set id₀ saved).get id = some e ∧ f e = k := by
  rw [indexHas_indexAdd, indexHas_indexRemove, hsync, GoMap.get_set, hid₀]
  by_cases hid : id₀ = id
  · subst hid
    simp only [hold, if_true, Option.some.injEq, exists_eq_left', and_true]
    constructor
    · rintro (h | ⟨h1, h2⟩)
      · exact h.symm
      · exact absurd h1.symm h2
    · intro h
      exact Or.inl h.symm
  · have hid' : ¬ id = id₀ := fun e => hid e.symm
    simp [hid, hid']

theorem index_del_old {κ : Type} [DecidableEq κ] (f : PluginStorageEntry → κ)
    (entries : GoMap Nat PluginStorageEntry) (idx : GoMap κ (List Nat))
    (oldEntry : PluginStorageEntry) (id₀ : Nat)
    (hold : entries.get id₀ = some oldEntry) (hid₀ : oldEntry.ID = id₀)
    (hsync : ∀ k id, indexHas idx k id ↔ ∃ e, entries.get id = some e ∧ f e = k)
    (k : κ) (id : Nat) :
    indexHas (indexRemove idx (f oldEntry) oldEntry.ID) k id ↔
      ∃ e, (entries.delete id₀).get id = some e ∧ f e = k := by
  rw [indexHas_indexRemove, hsync, GoMap.get_delete, hid₀]
  by_cases hid : id₀ = id
  · subst hid
    simp only [hold, if_true, Option.some.injEq, exists_eq_left', and_true]
    constructor
    · rintro ⟨h1, h2⟩
      exact absurd h1.symm h2
    · rintro ⟨e, he, _⟩
      cases he
  · have hid' : ¬ id = id₀ := fun e => hid e.symm
    simp [hid, hid']

theorem index_del_none {κ : Type} [DecidableEq κ] (f : PluginStorageEntry → κ)
    (entries : GoMap Nat PluginStorageEntry) (idx : GoMap κ (List Nat)) (id₀ : Nat)
    (hnone : entries.get id₀ = none)
    (hsync : ∀ k id, indexHas idx k id ↔ ∃ e, entries.get id = some e ∧ f e = k)
    (k : κ) (id : Nat) :
    indexHas idx k id ↔ ∃ e, (entries.delete id₀).get id = some e ∧ f e = k := by
  rw [hsync, GoMap.get_delete]
  by_cases hid : id₀ = id
  · subst hid
    simp [hnone]
  · simp [hid]

theorem putEntry_entries (r : PluginStorageRepository) (saved : PluginStorageEntry)
    (k : Nat) :
    (putEntry r saved).entries.get k = if saved.ID = k then some saved else r.entries.get k := by
  unfold putEntry
  cases h : r.entries.get saved.ID <;>
    simp [addToIndexes, removeFromIndexes, GoMap.get_set]

theorem putEntry_nextID (r : PluginStorageRepository) (saved : PluginStorageEntry) :
    (putEntry r saved).nextID = r.nextID := by
  unfold putEntry
  cases h : r.entries.get saved.ID <;> simp [addToIndexes, removeFromIndexes]

theorem Synced_putEntry (r : PluginStorageRepository) (saved : PluginStorageEntry)
    (h : Synced r) : Synced (putEntry r saved) := by
  obtain ⟨hkeys, hp, hk, he⟩ := h
  refine ⟨?_, ?_, ?_, ?_⟩
  · intro k e hget
    rw [putEntry_entries] at hget
    by_cases hid : saved.ID = k
    · simp only [hid, if_true, Option.some.injEq] at hget
      rw [← hget]; exact hid
    · simp only [hid, if_false] at hget
      exact hkeys k e hget
  all_goals
    intro k id
    unfold putEntry
    cases hold : r.entries.get saved.ID with
    | none =>
      simp only [addToIndexes, removeFromIndexes]
      first
        | exact index_put_new (fun e => e.PluginID) r.entries _ saved saved.ID hold hp k id
        | exact index_put_new (fun e => e.Key) r.entries _ saved saved.ID hold hk k id
        | exact index_put_new (fun e => makeEntityKey e.EntityType e.EntityID) r.entries _
            saved saved.ID hold he k id
    | some oldEntry =>
      simp only [addToIndexes, removeFromIndexes]
      have hid₀ := hkeys _ _ hold
      first
        | exact index_put_old (fun e => e.PluginID) r.entries _ saved oldEntry saved.ID hold
            hid₀ hp k id
        | exact index_put_old (fun e => e.Key) r.entries _ saved oldEntry saved.ID hold
            hid₀ hk k id
        | exact index_put_old (fun e => makeEntityKey e.EntityType e.EntityID) r.entries _
            saved oldEntry saved.ID hold hid₀ he k id

theorem Delete_entries (r : PluginStorageRepository) (id k : Nat) :
    (Delete r id).entries.get k = if id = k then none else r.entries.get k := by
  unfold Delete
  cases h : r.entries.get id <;> simp [removeFromIndexes, GoMap.get_delete]

theorem Delete_nextID (r : PluginStorageRepository) (id : Nat) :
    (Delete r id).nextID = r.nextID := by
  unfold Delete
  cases h : r.entries.get id <;> simp [removeFromIndexes]

theorem Synced_Delete (r : PluginStorageRepository) (id₀ : Nat) (h : Synced r) :
    Synced (Delete r id₀) := by
  obtain ⟨hkeys, hp, hk, he⟩ := h
  refine ⟨?_, ?_, ?_, ?_⟩
  · intro k e hget
    rw [Delete_entries] at hget
    by_cases hid : id₀ = k
    · simp [hid] at hget
    · simp only [hid, if_false] at hget
      exact hkeys k e hget
  all_goals
    intro k id
    unfold Delete
    cases hold : r.entries.get id₀ with
    | none =>
      simp only []
      first
        | exact index_del_none (fun e => e.PluginID) r.entries _ id₀ hold hp k id
        | exact index_del_none (fun e => e.Key) r.entries _ id₀ hold hk k id
        | exact index_del_none (fun e => makeEntityKey e.EntityType e.EntityID) r.entries _
            id₀ hold he k id
    | some oldEntry =>
      simp only [removeFromIndexes]
      have hid₀ := hkeys _ _ hold
      first
        | exact index_del_old (fun e => e.PluginID) r.entries _ oldEntry id₀ hold hid₀ hp k id
        | exact index_del_old (fun e => e.Key) r.entries _ oldEntry id₀ hold hid₀ hk k id
        | exact index_del_old (fun e => makeEntityKey e.EntityType e.EntityID) r.entries _
            oldEntry id₀ hold hid₀ he k id

/-! ## Theorems: `Save` and `DeleteByPlugin` in terms of `putEntry` and `Delete` -/

theorem ptrEqual_iff (a b : Option String) : ptrEqual a b = true ↔ a = b := by
  cases a <;> cases b <;> simp [ptrEqual]

theorem ptrEqualUint_iff (a b : Option Nat) : ptrEqualUint a b = true ↔ a = b := by
  cases a <;> cases b <;> simp [ptrEqualUint]

/-- What `findExistingLoop` returns is 0 or the ID of a stored entry of the list that
has the key and the entity fields asked for. -/
theorem findExistingLoop_found (r : PluginStorageRepository) (key : String)
    (et : Option String) (eid : Option Nat) (ids : List Nat) :
    findExistingLoop r key et eid ids = 0 ∨
      (findExistingLoop r key et eid ids ∈ ids ∧
        ∃ e, r.entries.get (findExistingLoop r key et eid ids) = some e ∧
          e.Key = key ∧ e.EntityType = et ∧ e.EntityID = eid) := by
  induction ids with
  | nil => simp [findExistingLoop]
  | cons id ids ih =>
    have ih' : findExistingLoop r key et eid ids = 0 ∨
        (findExistingLoop r key et eid ids ∈ id :: ids ∧
          ∃ e, r.entries.get (findExistingLoop r key et eid ids) = some e ∧
            e.Key = key ∧ e.EntityType = et ∧ e.EntityID = eid) := by
      rcases ih with h | ⟨h1, h2⟩
      · exact Or.inl h
      · exact Or.inr ⟨List.mem_cons_of_mem _ h1, h2⟩
    simp only [findExistingLoop]
    cases hget : r.entries.get id with
    | none => simpa using ih'
    | some e =>
      simp only []
      by_cases hk : e.Key = key
      · by_cases ht : ptrEqual e.EntityType et = true
        · by_cases hi : ptrEqualUint e.EntityID eid = true
          · simp only [hk, ht, hi, ne_eq, not_true, if_false, Bool.not_true,
              Bool.false_eq_true]
            exact Or.inr ⟨List.mem_cons_self _ _, e, hget, hk,
              (ptrEqual_iff _ _).1 ht, (ptrEqualUint_iff _ _).1 hi⟩
          · simpa [hk, ht, hi] using ih'
        · simpa [hk, ht] using ih'
      · simpa [hk] using ih'

/-- When `findExistingLoop` returns 0 over non-zero IDs, no stored entry of the list
has the key and the entity fields asked for. -/
theorem findExistingLoop_zero (r : PluginStorageRepository) (key : String)
    (et : Option String) (eid : Option Nat) (ids : List Nat)
    (hnz : ∀ id ∈ ids, id ≠ 0) (hzero : findExistingLoop r key et eid ids = 0) :
    ∀ id ∈ ids, ∀ e, r.entries.get id = some e →
      ¬ (e.Key = key ∧ e.EntityType = et ∧ e.EntityID = eid) := by
  induction ids with
  | nil => simp
  | cons id₀ ids ih =>
    have hnz' : ∀ id ∈ ids, id ≠ 0 := fun id h => hnz id (List.mem_cons_of_mem _ h)
    have hid₀ : id₀ ≠ 0 := hnz id₀ (List.mem_cons_self _ _)
    simp only [findExistingLoop] at hzero
    intro id hid e hget
    cases hget₀ : r.entries.get id₀ with
    | none =>
      simp only [hget₀] at hzero
      rcases List.mem_cons.1 hid with rfl | hid'
      · rw [hget₀] at hget; cases hget
      · exact ih hnz' hzero id hid' e hget
    | some e₀ =>
      simp only [hget₀] at hzero
      by_cases hk : e₀.Key = key
      · by_cases ht : ptrEqual e₀.EntityType et = true
        · by_cases hi : ptrEqualUint e₀.EntityID eid = true
          · simp [hk, ht, hi] at hzero
            exact absurd hzero hid₀
          · simp only [hk, ht, hi, ne_eq, not_true, if_false, Bool.not_true,
              Bool.false_eq_true, Bool.not_false, if_true] at hzero
            rcases List.mem_cons.1 hid with rfl | hid'
            · rw [hget₀] at hget
              cases hget
              rintro ⟨_, _, h3⟩
              exact hi ((ptrEqualUint_iff _ _).2 h3)
            · exact ih hnz' hzero id hid' e hget
        · simp only [hk, ht, ne_eq, not_true, if_false, Bool.not_false, if_true] at hzero
          rcases List.mem_cons.1 hid with rfl | hid'
          · rw [hget₀] at hget
            cases hget
            rintro ⟨_, h2, _⟩
            exact ht ((ptrEqual_iff _ _).2 h2)
          · exact ih hnz' hzero id hid' e hget
      · simp only [hk, ne_eq, not_false_eq_true, if_true] at hzero
        rcases List.mem_cons.1 hid with rfl | hid'
        · rw [hget₀] at hget
          cases hget
          rintro ⟨h1, _, _⟩
          exact hk h1
        · exact ih hnz' hzero id hid' e hget

/-- The `Save` of an entry passed with a non-zero ID. -/
theorem Save_explicit (r : PluginStorageRepository) (entry : PluginStorageEntry) (now : Nat)
    (h : entry.ID ≠ 0) :
    Save r entry now =
      (putEntry r { entry with UpdatedAt := some now }, { entry with UpdatedAt := some now }) := by
  unfold Save resolveEntryID putEntry
  cases hold : r.entries.get entry.ID <;> simp [h, hold]

/-- The `Save` of an entry passed with ID 0 whose tuple `findExistingEntry` finds. -/
theorem Save_existing (r : PluginStorageRepository) (entry oldEntry : PluginStorageEntry)
    (now : Nat) (h0 : entry.ID = 0)
    (hx : findExistingEntry r entry.PluginID entry.Key entry.EntityType entry.EntityID ≠ 0)
    (hold : r.entries.get
      (findExistingEntry r entry.PluginID entry.Key entry.EntityType entry.EntityID)
        = some oldEntry) :
    Save r entry now =
      (putEntry r { entry with
          ID := findExistingEntry r entry.PluginID entry.Key entry.EntityType entry.EntityID
          CreatedAt := oldEntry.CreatedAt, UpdatedAt := some now },
        { entry with
          ID := findExistingEntry r entry.PluginID entry.Key entry.EntityType entry.EntityID
          CreatedAt := oldEntry.CreatedAt, UpdatedAt := some now }) := by
  unfold Save resolveEntryID putEntry
  simp [h0, hx, hold]

/-- The `Save` of an entry passed with ID 0 whose tuple is not found, when the next
ID of the counter is free. -/
theorem Save_fresh (r : PluginStorageRepository) (entry : PluginStorageEntry) (now : Nat)
    (h0 : entry.ID = 0)
    (hx : findExistingEntry r entry.PluginID entry.Key entry.EntityType entry.EntityID = 0)
    (hfree : r.entries.get ((r.nextID + 1) % 2 ^ 64) = none) :
    Save r entry now =
      (putEntry { r with nextID := (r.nextID + 1) % 2 ^ 64 }
          { entry with ID := (r.nextID + 1) % 2 ^ 64, CreatedAt := some now,
                       UpdatedAt := some now },
        { entry with ID := (r.nextID + 1) % 2 ^ 64, CreatedAt := some now,
                     UpdatedAt := some now }) := by
  have hfree' : r.entries.get ((r.nextID + 1) % 18446744073709551616) = none := hfree
  unfold Save resolveEntryID putEntry
  simp [h0, hx, hfree']

/-- Each round of the loop of `DeleteByPlugin` leaves the state alone or is a
`Delete`; so the loop keeps whatever `Delete` keeps. -/
theorem deleteByPluginLoop_keeps (P : PluginStorageRepository → Prop)
    (hP : ∀ r id, P r → P (Delete r id)) (pluginID : Nat) (ids : List Nat)
    (r : PluginStorageRepository) (h : P r) : P (deleteByPluginLoop pluginID ids r) := by
  induction ids generalizing r with
  | nil => simpa [deleteByPluginLoop] using h
  | cons id ids ih =>
    simp only [deleteByPluginLoop]
    by_cases hm : id ∈ (r.pluginIDIndex.get pluginID).getD []
    · simp only [hm, if_true]
      cases hget : r.entries.get id with
      | none => exact ih r h
      | some e =>
        simp only []
        have := hP r id h
        unfold Delete at this
        simp only [hget] at this
        exact ih _ this
    · simp only [hm, if_false]
      exact ih r h

theorem DeleteByPlugin_keeps (P : PluginStorageRepository → Prop)
    (hP : ∀ r id, P r → P (Delete r id)) (pluginID : Nat)
    (r : PluginStorageRepository) (h : P r) : P (DeleteByPlugin r pluginID) := by
  unfold DeleteByPlugin
  cases hg : r.pluginIDIndex.get pluginID with
  | none => exact h
  | some s => exact deleteByPluginLoop_keeps P hP pluginID s r h

/-! ## Theorems: what the calls keep -/

theorem findExistingEntry_found (r : PluginStorageRepository) (hs : Synced r) (p : Nat)
    (key : String) (et : Option String) (eid : Option Nat) :
    findExistingEntry r p key et eid = 0 ∨
      ∃ e, r.entries.get (findExistingEntry r p key et eid) = some e ∧
        e.PluginID = p ∧ e.Key = key ∧ e.EntityType = et ∧ e.EntityID = eid := by
  unfold findExistingEntry
  cases hg : r.pluginIDIndex.get p with
  | none => exact Or.inl rfl
  | some s =>
    simp only []
    rcases findExistingLoop_found r key et eid s with h | ⟨hm, e, he, h1, h2, h3⟩
    · exact Or.inl h
    · refine Or.inr ⟨e, he, ?_, h1, h2, h3⟩
      have hidx : indexHas r.pluginIDIndex p (findExistingLoop r key et eid s) := by
        simpa [indexHas, hg] using hm
      obtain ⟨e', he', hp'⟩ := (hs.2.1 p _).1 hidx
      rw [he] at he'
      cases he'
      exact hp'

theorem findExistingEntry_zero (r : PluginStorageRepository) (hs : Synced r) (hi : Issued r)
    (p : Nat) (key : String) (et : Option String) (eid : Option Nat)
    (hx : findExistingEntry r p key et eid = 0) :
    ∀ k e, r.entries.get k = some e →
      ¬ (e.PluginID = p ∧ e.Key = key ∧ e.EntityType = et ∧ e.EntityID = eid) := by
  intro k e hget ⟨hp, hrest⟩
  have hidx : indexHas r.pluginIDIndex p k := (hs.2.1 p k).2 ⟨e, hget, hp⟩
  unfold findExistingEntry at hx
  cases hg : r.pluginIDIndex.get p with
  | none => simp [indexHas, hg] at hidx
  | some s =>
    simp only [hg] at hx
    have hks : k ∈ s := by simpa [indexHas, hg] using hidx
    have hnz : ∀ id ∈ s, id ≠ 0 := by
      intro id hid
      have hid' : indexHas r.pluginIDIndex p id := by simpa [indexHas, hg] using hid
      obtain ⟨e', he', _⟩ := (hs.2.1 p id).1 hid'
      have := (hi id e' he').1
      omega
    exact findExistingLoop_zero r key et eid s hnz hx k hks e hget hrest

theorem Issued_putEntry (r : PluginStorageRepository) (saved : PluginStorageEntry)
    (hi : Issued r) (h1 : 1 ≤ saved.ID) (h2 : saved.ID ≤ r.nextID) :
    Issued (putEntry r saved) := by
  intro k e hget
  rw [putEntry_entries] at hget
  rw [putEntry_nextID]
  by_cases hid : saved.ID = k
  · subst hid; exact ⟨h1, h2⟩
  · simp only [hid, if_false] at hget
    exact hi k e hget

theorem UniqueTuples_putEntry (r : PluginStorageRepository) (saved : PluginStorageEntry)
    (hu : UniqueTuples r)
    (hnew : ∀ k e, r.entries.get k = some e → sameTuple e saved → k = saved.ID) :
    UniqueTuples (putEntry r saved) := by
  intro k₁ k₂ e₁ e₂ h₁ h₂ hst
  rw [putEntry_entries] at h₁ h₂
  by_cases hk₁ : saved.ID = k₁
  · by_cases hk₂ : saved.ID = k₂
    · rw [← hk₁, ← hk₂]
    · simp only [hk₁, if_true, Option.some.injEq] at h₁
      simp only [hk₂, if_false] at h₂
      subst h₁
      have := hnew k₂ e₂ h₂ ⟨hst.1.symm, hst.2.1.symm, hst.2.2.1.symm, hst.2.2.2.symm⟩
      exact absurd this.symm hk₂
  · simp only [hk₁, if_false] at h₁
    by_cases hk₂ : saved.ID = k₂
    · simp only [hk₂, if_true, Option.some.injEq] at h₂
      subst h₂
      have := hnew k₁ e₁ h₁ hst
      exact absurd this.symm hk₁
    · simp only [hk₂, if_false] at h₂
      exact hu k₁ k₂ e₁ e₂ h₁ h₂ hst

theorem Issued_Delete (r : PluginStorageRepository) (id : Nat) (hi : Issued r) :
    Issued (Delete r id) := by
  intro k e hget
  rw [Delete_entries] at hget
  rw [Delete_nextID]
  by_cases hid : id = k
  · simp [hid] at hget
  · simp only [hid, if_false] at hget
    exact hi k e hget

theorem UniqueTuples_Delete (r : PluginStorageRepository) (id : Nat) (hu : UniqueTuples r) :
    UniqueTuples (Delete r id) := by
  intro k₁ k₂ e₁ e₂ h₁ h₂ hst
  rw [Delete_entries] at h₁ h₂
  by_cases hk₁ : id = k₁
  · simp [hk₁] at h₁
  · by_cases hk₂ : id = k₂
    · simp [hk₂] at h₂
    · simp only [hk₁, hk₂, if_false] at h₁ h₂
      exact hu k₁ k₂ e₁ e₂ h₁ h₂ hst

/-- A `Save` of an entry passed with ID 0 or with an issued ID, while the counter
has room, keeps the indices in step and the IDs issued, and moves the counter by at
most one. -/
theorem Save_keeps (r : PluginStorageRepository) (entry : PluginStorageEntry) (now : Nat)
    (hs : Synced r) (hi : Issued r) (hadm : issuedOrZero r entry)
    (hroom : r.nextID + 1 < 2 ^ 64) :
    Synced (Save r entry now).1 ∧ Issued (Save r entry now).1 ∧
      r.nextID ≤ (Save r entry now).1.nextID ∧
      (Save r entry now).1.nextID ≤ r.nextID + 1 := by
  unfold issuedOrZero at hadm
  by_cases h0 : entry.ID = 0
  · rcases findExistingEntry_found r hs entry.PluginID entry.Key entry.EntityType
        entry.EntityID with hx | ⟨e, he, _⟩
    · have hmod : (r.nextID + 1) % 2 ^ 64 = r.nextID + 1 := Nat.mod_eq_of_lt hroom
      have hfree : r.entries.get ((r.nextID + 1) % 2 ^ 64) = none := by
        rw [hmod]
        cases hg : r.entries.get (r.nextID + 1) with
        | none => rfl
        | some e =>
          have := (hi _ e hg).2
          omega
      rw [Save_fresh r entry now h0 hx hfree, hmod]
      have hs' : Synced { r with nextID := r.nextID + 1 } := hs
      have hi' : Issued { r with nextID := r.nextID + 1 } := by
        intro k e hget
        have := hi k e hget
        exact ⟨this.1, Nat.le_succ_of_le this.2⟩
      refine ⟨Synced_putEntry _ _ hs', Issued_putEntry _ _ hi' ?_ ?_, ?_, ?_⟩
      · simp
      · simp
      · rw [putEntry_nextID]; simp
      · rw [putEntry_nextID]
    · have hx : findExistingEntry r entry.PluginID entry.Key entry.EntityType
          entry.EntityID ≠ 0 := by
        have := (hi _ e he).1
        omega
      rw [Save_existing r entry e now h0 hx he]
      have hb := hi _ e he
      refine ⟨Synced_putEntry _ _ hs, Issued_putEntry _ _ hi hb.1 hb.2, ?_, ?_⟩
      · rw [putEntry_nextID]
      · rw [putEntry_nextID]; omega
  · rw [Save_explicit r entry now h0]
    refine ⟨Synced_putEntry _ _ hs, Issued_putEntry _ _ hi ?_ hadm, ?_, ?_⟩
    · show 1 ≤ entry.ID
      omega
    · rw [putEntry_nextID]
    · rw [putEntry_nextID]; omega

/-- Under the same conditions, a `Save` whose entry does not bring in a tuple stored
under another ID keeps the four-tuples unique. -/
theorem Save_keeps_unique (r : PluginStorageRepository) (entry : PluginStorageEntry)
    (now : Nat) (hs : Synced r) (hi : Issued r) (hu : UniqueTuples r)
    (hadm : keepsTupleUnique r entry) (hroom : r.nextID + 1 < 2 ^ 64) :
    UniqueTuples (Save r entry now).1 := by
  by_cases h0 : entry.ID = 0
  · rcases findExistingEntry_found r hs entry.PluginID entry.Key entry.EntityType
        entry.EntityID with hx | ⟨e, he, hp, hk, ht, hid⟩
    · have hmod : (r.nextID + 1) % 2 ^ 64 = r.nextID + 1 := Nat.mod_eq_of_lt hroom
      have hfree : r.entries.get ((r.nextID + 1) % 2 ^ 64) = none := by
        rw [hmod]
        cases hg : r.entries.get (r.nextID + 1) with
        | none => rfl
        | some e =>
          have := (hi _ e hg).2
          omega
      rw [Save_fresh r entry now h0 hx hfree]
      apply UniqueTuples_putEntry
      · exact hu
      · intro k e hget hst
        exact absurd ⟨hst.1, hst.2.1, hst.2.2.1, hst.2.2.2⟩
          (findExistingEntry_zero r hs hi _ _ _ _ hx k e hget)
    · have hx : findExistingEntry r entry.PluginID entry.Key entry.EntityType
          entry.EntityID ≠ 0 := by
        have := (hi _ e he).1
        omega
      rw [Save_existing r entry e now h0 hx he]
      apply UniqueTuples_putEntry _ _ hu
      intro k e' hget hst
      exact hu k _ e' e hget he
        ⟨hst.1.trans hp.symm, hst.2.1.trans hk.symm, hst.2.2.1.trans ht.symm,
          hst.2.2.2.trans hid.symm⟩
  · rw [Save_explicit r entry now h0]
    rcases hadm with h | ⟨_, h⟩
    · exact absurd h h0
    · apply UniqueTuples_putEntry _ _ hu
      intro k e hget hst
      exact h k e hget hst

theorem DeleteByPlugin_nextID (r : PluginStorageRepository) (pluginID : Nat) :
    (DeleteByPlugin r pluginID).nextID = r.nextID :=
  DeleteByPlugin_keeps (fun r' => r'.nextID = r.nextID)
    (fun r' id h => by
      show (Delete r' id).nextID = r.nextID
      rw [Delete_nextID]; exact h) pluginID r rfl

/-- One call keeps the indices in step and the IDs issued, when a `Save` is passed ID 0
or an issued ID and the counter has room. -/
theorem applyOp_keeps (r : PluginStorageRepository) (op : RepoOp) (hs : Synced r)
    (hi : Issued r)
    (hadm : saveSatisfies issuedOrZero r op)
    (hroom : r.nextID + 1 < 2 ^ 64) :
    Synced (applyOp r op) ∧ Issued (applyOp r op) ∧ r.nextID ≤ (applyOp r op).nextID ∧
      (applyOp r op).nextID ≤ r.nextID + 1 := by
  cases op with
  | save entry now => exact Save_keeps r entry now hs hi hadm hroom
  | delete id =>
    refine ⟨Synced_Delete r id hs, Issued_Delete r id hi, ?_, ?_⟩ <;>
      simp [applyOp, Delete_nextID]
  | deleteByPlugin p =>
    refine ⟨DeleteByPlugin_keeps Synced (fun r' id h => Synced_Delete r' id h) p r hs,
      DeleteByPlugin_keeps Issued (fun r' id h => Issued_Delete r' id h) p r hi, ?_, ?_⟩ <;>
      simp [applyOp, DeleteByPlugin_nextID]

theorem Synced_New : Synced NewPluginStorageRepository := by
  refine ⟨?_, ?_, ?_, ?_⟩ <;> intros <;>
    simp_all [NewPluginStorageRepository, GoMap.get, indexHas]

theorem Issued_New : Issued NewPluginStorageRepository := by
  intro k e h
  simp [NewPluginStorageRepository, GoMap.get] at h

theorem UniqueTuples_New : UniqueTuples NewPluginStorageRepository := by
  intro k₁ k₂ e₁ e₂ h
  simp [NewPluginStorageRepository, GoMap.get] at h

/-- A sequence of calls whose `Save`s are passed ID 0 or an issued ID keeps the
indices in step and the IDs issued, as long as the counter has room for it. -/
theorem runOps_keeps (ok : PluginStorageRepository → PluginStorageEntry → Prop)
    (hok : ∀ r e, ok r e → issuedOrZero r e) (ops : List RepoOp)
    (r : PluginStorageRepository) (hs : Synced r) (hi : Issued r)
    (hsat : savesSatisfy ok r ops) (hroom : r.nextID + ops.length < 2 ^ 64) :
    Synced (runOps r ops) ∧ Issued (runOps r ops) ∧
      (runOps r ops).nextID ≤ r.nextID + ops.length := by
  induction ops generalizing r with
  | nil => exact ⟨hs, hi, by simp [runOps]⟩
  | cons op ops ih =>
    obtain ⟨hop, hrest⟩ := hsat
    simp only [List.length_cons] at hroom
    have hadm : saveSatisfies issuedOrZero r op := by
      cases op with
      | save entry now => exact hok r entry hop
      | delete id => trivial
      | deleteByPlugin p => trivial
    obtain ⟨hs', hi', _, hn'⟩ := applyOp_keeps r op hs hi hadm (by omega)
    obtain ⟨g1, g2, g3⟩ := ih (applyOp r op) hs' hi' hrest (by omega)
    refine ⟨g1, g2, ?_⟩
    show (runOps (applyOp r op) ops).nextID ≤ r.nextID + (ops.length + 1)
    omega

theorem runOps_keeps_unique (ops : List RepoOp) (r : PluginStorageRepository)
    (hs : Synced r) (hi : Issued r) (hu : UniqueTuples r)
    (hsat : savesSatisfy keepsTupleUnique r ops) (hroom : r.nextID + ops.length < 2 ^ 64) :
    UniqueTuples (runOps r ops) := by
  induction ops generalizing r with
  | nil => exact hu
  | cons op ops ih =>
    obtain ⟨hop, hrest⟩ := hsat
    simp only [List.length_cons] at hroom
    have hadm : saveSatisfies issuedOrZero r op := by
      cases op with
      | save entry now =>
        rcases hop with h | ⟨h, _⟩
        · show entry.ID ≤ r.nextID
          omega
        · exact h
      | delete id => trivial
      | deleteByPlugin p => trivial
    obtain ⟨hs', hi', _, hn'⟩ := applyOp_keeps r op hs hi hadm (by omega)
    have hu' : UniqueTuples (applyOp r op) := by
      cases op with
      | save entry now => exact Save_keeps_unique r entry now hs hi hu hop (by omega)
      | delete id => exact UniqueTuples_Delete r id hu
      | deleteByPlugin p =>
        exact DeleteByPlugin_keeps UniqueTuples (fun r' id h => UniqueTuples_Delete r' id h)
          p r hu
    exact ih (applyOp r op) hs' hi' hu' hrest (by omega)

/-! ## Theorems: uniqueness of the four-tuple -/

/-- C8, as stated, fails: after `Save` of `(plugin 1, "a")` with ID 0 and `Save` of
the same tuple passed with ID 5, the entries stored under IDs 1 and 5 carry the same
four-tuple. -/
theorem unique_tuples_fails_with_explicit_id :
    ¬ UniqueTuples (runOps NewPluginStorageRepository
      [RepoOp.save ⟨0, 1, "a", none, none, [], none, none⟩ 10,
       RepoOp.save ⟨5, 1, "a", none, none, [7], none, none⟩ 11]) := by
  intro h
  have := h 1 5 ⟨1, 1, "a", none, none, [], some 10, some 10⟩
    ⟨5, 1, "a", none, none, [7], none, some 11⟩ (by decide) (by decide)
    ⟨rfl, rfl, rfl, rfl⟩
  exact absurd this (by decide)

/-- C8, amended. In every state reached from the empty repository by fewer than
`2 ^ 64` calls of `Save`, `Delete` and `DeleteByPlugin`, in which every `Save` is
passed an entry with ID 0, or with an ID between 1 and the ID counter while no entry
stored under another ID carries the same four-tuple, no two stored entries have the
same `(plugin_id, key, entity_type, entity_id)`, an absent entity field being equal
only to an absent one. -/
theorem unique_tuples_reachable (ops : List RepoOp) (hlen : ops.length < 2 ^ 64)
    (hsat : savesSatisfy keepsTupleUnique NewPluginStorageRepository ops) :
    UniqueTuples (runOps NewPluginStorageRepository ops) :=
  runOps_keeps_unique ops NewPluginStorageRepository Synced_New Issued_New UniqueTuples_New
    hsat (by simpa [NewPluginStorageRepository] using hlen)

theorem sampleHistory_admissible :
    savesSatisfy keepsTupleUnique NewPluginStorageRepository sampleHistory := by
  refine ⟨Or.inl rfl, Or.inl rfl, Or.inr ⟨by decide, ?_⟩, Or.inl rfl, trivial, trivial,
    trivial⟩
  intro k e hget _
  have hentries : (applyOp (applyOp NewPluginStorageRepository
      (RepoOp.save ⟨0, 1, "a", none, none, [], none, none⟩ 10))
      (RepoOp.save ⟨0, 1, "a", none, none, [1], none, none⟩ 11)).entries
        = [(1, ⟨1, 1, "a", none, none, [1], some 10, some 11⟩)] := by decide
  rw [hentries] at hget
  by_cases hk : k = 1
  · exact hk
  · simp [GoMap.get, Ne.symm hk] at hget

/-- C8, amended, at a concrete history: two upserts of one tuple, an update by ID, a
second tuple, and the two deletions. -/
theorem unique_tuples_reachable_witness :
    UniqueTuples (runOps NewPluginStorageRepository sampleHistory) :=
  unique_tuples_reachable sampleHistory (by decide) sampleHistory_admissible

/-! ## Theorems: `DeleteByPlugin` -/

theorem findExistingEntry_stored (r : PluginStorageRepository) (p : Nat) (key : String)
    (et : Option String) (eid : Option Nat) :
    findExistingEntry r p key et eid = 0 ∨
      ∃ e, r.entries.get (findExistingEntry r p key et eid) = some e := by
  unfold findExistingEntry
  cases hg : r.pluginIDIndex.get p with
  | none => exact Or.inl rfl
  | some s =>
    simp only []
    rcases findExistingLoop_found r key et eid s with h | ⟨_, e, he, _⟩
    · exact Or.inl h
    · exact Or.inr ⟨e, he⟩

/-- The `Save` of an entry passed with ID 0 whose tuple is not found, whether or not
the next ID of the counter is free: nothing is removed from the indices. -/
theorem Save_fresh_raw (r : PluginStorageRepository) (entry : PluginStorageEntry)
    (now : Nat) (h0 : entry.ID = 0)
    (hx : findExistingEntry r entry.PluginID entry.Key entry.EntityType entry.EntityID = 0) :
    (Save r entry now).1 =
      addToIndexes
        { r with
          nextID := (r.nextID + 1) % 2 ^ 64
          entries := r.entries.set ((r.nextID + 1) % 2 ^ 64)
            { entry with ID := (r.nextID + 1) % 2 ^ 64, CreatedAt := some now,
                         UpdatedAt := some now } }
        { entry with ID := (r.nextID + 1) % 2 ^ 64, CreatedAt := some now,
                     UpdatedAt := some now } := by
  unfold Save resolveEntryID
  simp [h0, hx]

/-- Storing and indexing `saved` over a state whose plugin index is complete away
from `saved.ID` gives a state whose plugin index is complete. -/
theorem PluginIndexComplete_store (r₁ : PluginStorageRepository)
    (saved : PluginStorageEntry)
    (hkeys : ∀ k e, r₁.entries.get k = some e → e.ID = k)
    (hc : ∀ k e, k ≠ saved.ID → r₁.entries.get k = some e →
      indexHas r₁.pluginIDIndex e.PluginID k) :
    PluginIndexComplete
      (addToIndexes { r₁ with entries := r₁.entries.set saved.ID saved } saved) := by
  constructor
  · intro k e hget
    simp only [addToIndexes, GoMap.get_set] at hget
    by_cases hid : saved.ID = k
    · simp only [hid, if_true, Option.some.injEq] at hget
      rw [← hget]; exact hid
    · simp only [hid, if_false] at hget
      exact hkeys k e hget
  · intro k e hget
    simp only [addToIndexes, GoMap.get_set] at hget
    simp only [addToIndexes]
    rw [indexHas_indexAdd]
    by_cases hid : saved.ID = k
    · simp only [hid, if_true, Option.some.injEq] at hget
      subst hget
      exact Or.inl ⟨rfl, hid.symm⟩
    · simp only [hid, if_false] at hget
      exact Or.inr (hc k e (fun h => hid h.symm) hget)

theorem PluginIndexComplete_putEntry (r : PluginStorageRepository)
    (saved : PluginStorageEntry) (h : PluginIndexComplete r) :
    PluginIndexComplete (putEntry r saved) := by
  unfold putEntry
  cases hold : r.entries.get saved.ID with
  | none =>
    exact PluginIndexComplete_store r saved h.1 (fun k e _ hget => h.2 k e hget)
  | some oldEntry =>
    apply PluginIndexComplete_store (removeFromIndexes r oldEntry) saved
    · exact h.1
    · intro k e hk hget
      simp only [removeFromIndexes]
      rw [indexHas_indexRemove]
      refine ⟨h.2 k e hget, ?_⟩
      rintro ⟨_, hk'⟩
      exact hk (hk'.trans (h.1 _ _ hold))

theorem PluginIndexComplete_Save (r : PluginStorageRepository) (entry : PluginStorageEntry)
    (now : Nat) (h : PluginIndexComplete r) : PluginIndexComplete (Save r entry now).1 := by
  by_cases h0 : entry.ID = 0
  · rcases findExistingEntry_stored r entry.PluginID entry.Key entry.EntityType
        entry.EntityID with hx | ⟨e, he⟩
    · rw [Save_fresh_raw r entry now h0 hx]
      exact PluginIndexComplete_store { r with nextID := (r.nextID + 1) % 2 ^ 64 }
        { entry with ID := (r.nextID + 1) % 2 ^ 64, CreatedAt := some now,
                     UpdatedAt := some now }
        h.1 (fun k e _ hget => h.2 k e hget)
    · by_cases hx : findExistingEntry r entry.PluginID entry.Key entry.EntityType
          entry.EntityID = 0
      · rw [Save_fresh_raw r entry now h0 hx]
        exact PluginIndexComplete_store { r with nextID := (r.nextID + 1) % 2 ^ 64 }
          { entry with ID := (r.nextID + 1) % 2 ^ 64, CreatedAt := some now,
                       UpdatedAt := some now }
          h.1 (fun k e _ hget => h.2 k e hget)
      · rw [Save_existing r entry e now h0 hx he]
        exact PluginIndexComplete_putEntry _ _ h
  · rw [Save_explicit r entry now h0]
    exact PluginIndexComplete_putEntry _ _ h

theorem Delete_pluginIDIndex (r : PluginStorageRepository) (id : Nat) (p k : Nat) :
    indexHas (Delete r id).pluginIDIndex p k ↔
      indexHas r.pluginIDIndex p k ∧
        ¬ ∃ e, r.entries.get id = some e ∧ p = e.PluginID ∧ k = e.ID := by
  unfold Delete
  cases hg : r.entries.get id with
  | none => simp
  | some e => simp [removeFromIndexes, indexHas_indexRemove]

theorem PluginIndexComplete_Delete (r : PluginStorageRepository) (id : Nat)
    (h : PluginIndexComplete r) : PluginIndexComplete (Delete r id) := by
  constructor
  · intro k e hget
    rw [Delete_entries] at hget
    by_cases hid : id = k
    · simp [hid] at hget
    · simp only [hid, if_false] at hget
      exact h.1 k e hget
  · intro k e hget
    rw [Delete_entries] at hget
    by_cases hid : id = k
    · simp [hid] at hget
    · simp only [hid, if_false] at hget
      rw [Delete_pluginIDIndex]
      refine ⟨h.2 k e hget, ?_⟩
      rintro ⟨e', he', _, hk⟩
      exact hid ((h.1 _ _ he').symm.trans hk.symm)

theorem PluginIndexComplete_New : PluginIndexComplete NewPluginStorageRepository := by
  constructor <;> intro k e h <;> simp [NewPluginStorageRepository, GoMap.get] at h

theorem PluginIndexComplete_runOps (ops : List RepoOp) (r : PluginStorageRepository)
    (h : PluginIndexComplete r) : PluginIndexComplete (runOps r ops) := by
  induction ops generalizing r with
  | nil => exact h
  | cons op ops ih =>
    apply ih
    cases op with
    | save entry now => exact PluginIndexComplete_Save r entry now h
    | delete id => exact PluginIndexComplete_Delete r id h
    | deleteByPlugin p =>
      exact DeleteByPlugin_keeps PluginIndexComplete
        (fun r' id h' => PluginIndexComplete_Delete r' id h') p r h

/-- The loop of `DeleteByPlugin` over `ids` removes every entry of the plugin, when
every entry of the plugin has its ID in `ids` and in the plugin's index set. -/
theorem deleteByPluginLoop_removes (p : Nat) (ids : List Nat) (r : PluginStorageRepository)
    (hkeys : ∀ k e, r.entries.get k = some e → e.ID = k)
    (hin : ∀ k e, r.entries.get k = some e → e.PluginID = p →
      k ∈ ids ∧ indexHas r.pluginIDIndex p k) :
    ∀ k e, (deleteByPluginLoop p ids r).entries.get k = some e → e.PluginID ≠ p := by
  induction ids generalizing r with
  | nil =>
    intro k e hget hp
    simp only [deleteByPluginLoop] at hget
    exact absurd (hin k e hget hp).1 (List.not_mem_nil _)
  | cons id ids ih =>
    simp only [deleteByPluginLoop]
    by_cases hm : id ∈ (r.pluginIDIndex.get p).getD []
    · simp only [hm, if_true]
      cases hget₀ : r.entries.get id with
      | none =>
        simp only []
        apply ih r hkeys
        intro k e hget hp
        obtain ⟨h1, h2⟩ := hin k e hget hp
        refine ⟨?_, h2⟩
        rcases List.mem_cons.1 h1 with rfl | h
        · rw [hget₀] at hget; cases hget
        · exact h
      | some e₀ =>
        simp only []
        have hD : Delete r id =
            { removeFromIndexes r e₀ with
              entries := (removeFromIndexes r e₀).entries.delete id } := by
          unfold Delete
          simp [hget₀]
        rw [← hD]
        apply ih (Delete r id)
        · intro k e hget
          rw [Delete_entries] at hget
          by_cases hid : id = k
          · simp [hid] at hget
          · simp only [hid, if_false] at hget
            exact hkeys k e hget
        · intro k e hget hp
          rw [Delete_entries] at hget
          by_cases hid : id = k
          · simp [hid] at hget
          · simp only [hid, if_false] at hget
            obtain ⟨h1, h2⟩ := hin k e hget hp
            refine ⟨?_, ?_⟩
            · rcases List.mem_cons.1 h1 with h | h
              · exact absurd h.symm hid
              · exact h
            · rw [Delete_pluginIDIndex]
              refine ⟨h2, ?_⟩
              rintro ⟨e', he', _, hk⟩
              exact hid ((hkeys _ _ he').symm.trans hk.symm)
    · simp only [hm, if_false]
      apply ih r hkeys
      intro k e hget hp
      obtain ⟨h1, h2⟩ := hin k e hget hp
      refine ⟨?_, h2⟩
      rcases List.mem_cons.1 h1 with rfl | h
      · exact absurd h2 hm
      · exact h

/-- After `DeleteByPlugin`, no entry of the plugin is stored, whenever every stored
entry was listed in the index set of its plugin. -/
theorem DeleteByPlugin_removes (r : PluginStorageRepository) (p : Nat)
    (h : PluginIndexComplete r) :
    ∀ k e, (DeleteByPlugin r p).entries.get k = some e → e.PluginID ≠ p := by
  unfold DeleteByPlugin
  cases hg : r.pluginIDIndex.get p with
  | none =>
    intro k e hget hp
    have := h.2 k e hget
    rw [hp] at this
    simp [indexHas, hg] at this
  | some s =>
    apply deleteByPluginLoop_removes p s r h.1
    intro k e hget hp
    have := h.2 k e hget
    rw [hp] at this
    exact ⟨by simpa [indexHas, hg] using this, this⟩

/-- While the indices are in step, the loop of `DeleteByPlugin` leaves the entries of
the other plugins in place. -/
theorem deleteByPluginLoop_frame (p : Nat) (ids : List Nat) (r : PluginStorageRepository)
    (hs : Synced r) :
    ∀ k e, r.entries.get k = some e → e.PluginID ≠ p →
      (deleteByPluginLoop p ids r).entries.get k = some e := by
  induction ids generalizing r with
  | nil => intro k e hget _; simpa [deleteByPluginLoop] using hget
  | cons id ids ih =>
    intro k e hget hp
    simp only [deleteByPluginLoop]
    by_cases hm : id ∈ (r.pluginIDIndex.get p).getD []
    · simp only [hm, if_true]
      cases hget₀ : r.entries.get id with
      | none => exact ih r hs k e hget hp
      | some e₀ =>
        simp only []
        have hD : Delete r id =
            { removeFromIndexes r e₀ with
              entries := (removeFromIndexes r e₀).entries.delete id } := by
          unfold Delete
          simp [hget₀]
        rw [← hD]
        apply ih (Delete r id) (Synced_Delete r id hs) k e _ hp
        rw [Delete_entries]
        have hne : id ≠ k := by
          rintro rfl
          obtain ⟨e', he', hp'⟩ := (hs.2.1 p id).1 hm
          rw [hget] at he'
          cases he'
          exact hp hp'
        simp [hne, hget]
    · simp only [hm, if_false]
      exact ih r hs k e hget hp

theorem DeleteByPlugin_frame (r : PluginStorageRepository) (p : Nat) (hs : Synced r) :
    ∀ k e, r.entries.get k = some e → e.PluginID ≠ p →
      (DeleteByPlugin r p).entries.get k = some e := by
  unfold DeleteByPlugin
  cases hg : r.pluginIDIndex.get p with
  | none => intro k e hget _; exact hget
  | some s => exact deleteByPluginLoop_frame p s r hs

/-- C4. `DeleteByPlugin` removes an entry of another plugin: after `Save` of a
plugin-1 entry passed with ID 1 and `Save` of a plugin-2 entry passed with ID 0 (which
the counter also numbers 1, `pluginIDIndex[1]` still listing that ID), the entry of
plugin 2 is stored under ID 1, and `DeleteByPlugin(1)` removes it. -/
theorem deleteByPlugin_removes_other_plugin :
    (runOps NewPluginStorageRepository
      [RepoOp.save ⟨1, 1, "a", none, none, [], none, none⟩ 10,
       RepoOp.save ⟨0, 2, "b", none, none, [], none, none⟩ 11]).entries.get 1
      = some ⟨1, 2, "b", none, none, [], some 11, some 11⟩ ∧
    (DeleteByPlugin (runOps NewPluginStorageRepository
      [RepoOp.save ⟨1, 1, "a", none, none, [], none, none⟩ 10,
       RepoOp.save ⟨0, 2, "b", none, none, [], none, none⟩ 11]) 1).entries.get 1
      = none := by
  decide

/-- What `DeleteByPlugin` does keep. In every state reached from the empty repository
through `Save`, `Delete` and `DeleteByPlugin`, `DeleteByPlugin(p)` leaves no stored
entry whose `plugin_id` is `p`; and when the state was reached by fewer than `2 ^ 64`
calls in which every `Save` was passed an entry with ID 0 or with an ID between 1 and
the ID counter, every entry whose `plugin_id` differs from `p` that was stored before
the call is still stored afterwards, under the same ID and with all fields
unchanged. -/
theorem deleteByPlugin_effect (ops : List RepoOp) (p : Nat) :
    (∀ k e, (DeleteByPlugin (runOps NewPluginStorageRepository ops) p).entries.get k = some e →
      e.PluginID ≠ p) ∧
    (ops.length < 2 ^ 64 → savesSatisfy issuedOrZero NewPluginStorageRepository ops →
      ∀ k e, (runOps NewPluginStorageRepository ops).entries.get k = some e →
        e.PluginID ≠ p →
        (DeleteByPlugin (runOps NewPluginStorageRepository ops) p).entries.get k = some e) := by
  refine ⟨DeleteByPlugin_removes _ p
    (PluginIndexComplete_runOps ops _ PluginIndexComplete_New), ?_⟩
  intro hlen hsat
  have hs := (runOps_keeps issuedOrZero (fun _ _ h => h) ops NewPluginStorageRepository
    Synced_New Issued_New hsat (by simpa [NewPluginStorageRepository] using hlen)).1
  exact DeleteByPlugin_frame _ p hs

theorem sampleSaves_admissible :
    savesSatisfy issuedOrZero NewPluginStorageRepository sampleSaves :=
  ⟨Nat.zero_le _, Nat.zero_le _, Nat.zero_le _, trivial⟩

/-- The effect of `DeleteByPlugin(1)` at a concrete store, after three saves of two
plugins. -/
theorem deleteByPlugin_effect_witness :
    (∀ k e, (DeleteByPlugin (runOps NewPluginStorageRepository sampleSaves) 1).entries.get k
        = some e → e.PluginID ≠ 1) ∧
    (∀ k e, (runOps NewPluginStorageRepository sampleSaves).entries.get k = some e →
        e.PluginID ≠ 1 →
        (DeleteByPlugin (runOps NewPluginStorageRepository sampleSaves) 1).entries.get k
          = some e) :=
  ⟨(deleteByPlugin_effect sampleSaves 1).1,
    (deleteByPlugin_effect sampleSaves 1).2 (by decide) sampleSaves_admissible⟩

/-! ## Theorems: the indices and the primary map -/

/-- C9, as stated, fails in two ways. After `Save` of a plugin-1 entry passed with
ID 1 and `Save` of a plugin-2 entry passed with ID 0, `pluginIDIndex[1]` lists ID 1
while the entry stored under ID 1 belongs to plugin 2. And after `Save` of an entry
with no entity type and entity ID 0, `entityIndex[makeEntityKey(nil, nil)]` lists its
ID while its entity fields are not `(nil, nil)`. -/
theorem indices_out_of_step :
    (indexHas (runOps NewPluginStorageRepository
        [RepoOp.save ⟨1, 1, "a", none, none, [], none, none⟩ 10,
         RepoOp.save ⟨0, 2, "b", none, none, [], none, none⟩ 11]).pluginIDIndex 1 1 ∧
      ¬ ∃ e, (runOps NewPluginStorageRepository
        [RepoOp.save ⟨1, 1, "a", none, none, [], none, none⟩ 10,
         RepoOp.save ⟨0, 2, "b", none, none, [], none, none⟩ 11]).entries.get 1 = some e ∧
          e.PluginID = 1) ∧
    (indexHas (runOps NewPluginStorageRepository
        [RepoOp.save ⟨0, 1, "a", none, some 0, [], none, none⟩ 10]).entityIndex
        (makeEntityKey none none) 1 ∧
      ¬ ∃ e, (runOps NewPluginStorageRepository
        [RepoOp.save ⟨0, 1, "a", none, some 0, [], none, none⟩ 10]).entries.get 1 = some e ∧
          e.EntityType = none ∧ e.EntityID = none) := by
  refine ⟨⟨by unfold indexHas; decide, ?_⟩, ⟨by unfold indexHas; decide, ?_⟩⟩
  · rintro ⟨e, he, hp⟩
    have h : (runOps NewPluginStorageRepository
        [RepoOp.save ⟨1, 1, "a", none, none, [], none, none⟩ 10,
         RepoOp.save ⟨0, 2, "b", none, none, [], none, none⟩ 11]).entries.get 1
        = some ⟨1, 2, "b", none, none, [], some 11, some 11⟩ := by decide
    rw [h] at he
    cases he
    exact absurd hp (by decide)
  · rintro ⟨e, he, _, hi⟩
    have h : (runOps NewPluginStorageRepository
        [RepoOp.save ⟨0, 1, "a", none, some 0, [], none, none⟩ 10]).entries.get 1
        = some ⟨1, 1, "a", none, some 0, [], some 10, some 10⟩ := by decide
    rw [h] at he
    cases he
    exact absurd hi (by decide)

/-- C9, amended. In every state reached from the empty repository by fewer than
`2 ^ 64` calls of `Save`, `Delete` and `DeleteByPlugin` in which every `Save` is passed
an entry with ID 0 or with an ID between 1 and the ID counter, the secondary indices
agree with the primary map: an ID is in `pluginIDIndex[p]` exactly when the primary
map holds, under that ID, an entry with that ID and `plugin_id` `p`; in `keyIndex[k]`
exactly when it holds one with that ID and key `k`; and in `entityIndex[ek]` exactly
when it holds one with that ID whose entity fields give
`makeEntityKey(entity_type, entity_id) = ek` (an absent entity type counts as the
empty string, an absent entity ID as 0). -/
theorem indices_in_step_reachable (ops : List RepoOp) (hlen : ops.length < 2 ^ 64)
    (hsat : savesSatisfy issuedOrZero NewPluginStorageRepository ops) :
    (∀ p id, indexHas (runOps NewPluginStorageRepository ops).pluginIDIndex p id ↔
      ∃ e, (runOps NewPluginStorageRepository ops).entries.get id = some e ∧
        e.ID = id ∧ e.PluginID = p) ∧
    (∀ k id, indexHas (runOps NewPluginStorageRepository ops).keyIndex k id ↔
      ∃ e, (runOps NewPluginStorageRepository ops).entries.get id = some e ∧
        e.ID = id ∧ e.Key = k) ∧
    (∀ ek id, indexHas (runOps NewPluginStorageRepository ops).entityIndex ek id ↔
      ∃ e, (runOps NewPluginStorageRepository ops).entries.get id = some e ∧
        e.ID = id ∧ makeEntityKey e.EntityType e.EntityID = ek) := by
  obtain ⟨hkeys, hp, hk, he⟩ :=
    (runOps_keeps issuedOrZero (fun _ _ h => h) ops NewPluginStorageRepository
      Synced_New Issued_New hsat (by simpa [NewPluginStorageRepository] using hlen)).1
  refine ⟨?_, ?_, ?_⟩
  · intro p id
    rw [hp]
    exact ⟨fun ⟨e, h1, h2⟩ => ⟨e, h1, hkeys _ _ h1, h2⟩, fun ⟨e, h1, _, h2⟩ => ⟨e, h1, h2⟩⟩
  · intro k id
    rw [hk]
    exact ⟨fun ⟨e, h1, h2⟩ => ⟨e, h1, hkeys _ _ h1, h2⟩, fun ⟨e, h1, _, h2⟩ => ⟨e, h1, h2⟩⟩
  · intro ek id
    rw [he]
    exact ⟨fun ⟨e, h1, h2⟩ => ⟨e, h1, hkeys _ _ h1, h2⟩, fun ⟨e, h1, _, h2⟩ => ⟨e, h1, h2⟩⟩

theorem sampleHistory_issued :
    savesSatisfy issuedOrZero NewPluginStorageRepository sampleHistory :=
  ⟨Nat.zero_le _, Nat.zero_le _, by simp only [saveSatisfies, issuedOrZero]; decide,
    Nat.zero_le _, trivial, trivial, trivial⟩

/-- C9, amended, at a concrete history. -/
theorem indices_in_step_reachable_witness :
    (∀ p id, indexHas (runOps NewPluginStorageRepository sampleHistory).pluginIDIndex p id ↔
      ∃ e, (runOps NewPluginStorageRepository sampleHistory).entries.get id = some e ∧
        e.ID = id ∧ e.PluginID = p) ∧
    (∀ k id, indexHas (runOps NewPluginStorageRepository sampleHistory).keyIndex k id ↔
      ∃ e, (runOps NewPluginStorageRepository sampleHistory).entries.get id = some e ∧
        e.ID = id ∧ e.Key = k) ∧
    (∀ ek id, indexHas (runOps NewPluginStorageRepository sampleHistory).entityIndex ek id ↔
      ∃ e, (runOps NewPluginStorageRepository sampleHistory).entries.get id = some e ∧
        e.ID = id ∧ makeEntityKey e.EntityType e.EntityID = ek) :=
  indices_in_step_reachable sampleHistory (by decide) sampleHistory_issued

/-! ## Theorems: `Find` -/

/-- C10 fails on an entry whose entity ID is 0: saved with no entity type and entity
ID 0, or with the empty entity type and entity ID 0, it is returned by `Find` with the
single entity pair `(nil, nil)`, although its entity ID is present and the pair's is
absent. -/
theorem find_nil_pair_matches_zero_entity (DefaultLimit : Int) :
    Find DefaultLimit
        (Save NewPluginStorageRepository ⟨0, 1, "a", none, some 0, [], none, none⟩ 10).1
        (some { IDs := [], PluginIDs := [], Keys := [], EntityPairs := [⟨none, none⟩] })
        [] none
      = some [⟨1, 1, "a", none, some 0, [], some 10, some 10⟩] ∧
    Find DefaultLimit
        (Save NewPluginStorageRepository ⟨0, 1, "a", some "", some 0, [], none, none⟩ 10).1
        (some { IDs := [], PluginIDs := [], Keys := [], EntityPairs := [⟨none, none⟩] })
        [] none
      = some [⟨1, 1, "a", some "", some 0, [], some 10, some 10⟩] :=
  ⟨rfl, rfl⟩

/-! ## Theorems: upsert -/

theorem Save_on_empty (entry : PluginStorageEntry) (now : Nat) (h0 : entry.ID = 0) :
    Save NewPluginStorageRepository entry now =
      (singleEntryState { entry with ID := 1, CreatedAt := some now, UpdatedAt := some now },
        { entry with ID := 1, CreatedAt := some now, UpdatedAt := some now }) := by
  simp [Save, resolveEntryID, h0, findExistingEntry, NewPluginStorageRepository, GoMap.get,
    GoMap.set, addToIndexes, indexAdd, setAdd, singleEntryState]

theorem Save_on_single (e entry : PluginStorageEntry) (now : Nat) (he : e.ID = 1)
    (ht : sameTuple entry e)
    (hid : entry.ID = 0 ∨ (entry.ID = 1 ∧ entry.CreatedAt = e.CreatedAt)) :
    Save (singleEntryState e) entry now =
      (singleEntryState { entry with ID := 1, CreatedAt := e.CreatedAt, UpdatedAt := some now },
        { entry with ID := 1, CreatedAt := e.CreatedAt, UpdatedAt := some now }) := by
  obtain ⟨h1, h2, h3, h4⟩ := ht
  have hpt : ptrEqual e.EntityType e.EntityType = true := (ptrEqual_iff _ _).2 rfl
  have hpi : ptrEqualUint e.EntityID e.EntityID = true := (ptrEqualUint_iff _ _).2 rfl
  rcases hid with h0 | ⟨h1', hc⟩
  · simp [Save, resolveEntryID, h0, findExistingEntry, findExistingLoop, GoMap.get,
      GoMap.set, GoMap.delete, addToIndexes, removeFromIndexes, indexAdd, indexRemove,
      setAdd, setDel, singleEntryState, he, h1, h2, h3, h4, hpt, hpi]
  · simp [Save, resolveEntryID, h1', findExistingEntry, findExistingLoop, GoMap.get,
      GoMap.set, GoMap.delete, addToIndexes, removeFromIndexes, indexAdd, indexRemove,
      setAdd, setDel, singleEntryState, he, h1, h2, h3, h4, hc]

theorem Find_on_single (DefaultLimit : Int) (e : PluginStorageEntry) :
    Find DefaultLimit (singleEntryState e)
      (some (tupleFilter e.PluginID e.Key e.EntityType e.EntityID)) [] none = some [e] := by
  simp [Find, getFilteredEntryIDs, tupleFilter, collectIndex, intersectWithKeys,
    intersectWithEntityPairs, intersectIndex, singleEntryState, GoMap.get, setAdd,
    sortEntries, applyPagination]

/-- From the repository that holds one entry, a sequence of `Save`s of the same tuple,
each passed with ID 0 or with what an earlier `Save` wrote, ends in a repository that
holds one entry again. -/
theorem saveAll_on_single (calls : List (PluginStorageEntry × Nat))
    (e : PluginStorageEntry) (earlier : List PluginStorageEntry) (he : e.ID = 1)
    (hearlier : ∀ o ∈ earlier, o.ID = 1 ∧ o.CreatedAt = e.CreatedAt)
    (htuple : ∀ c ∈ calls, sameTuple c.1 e)
    (hreuse : callsReuseEarlier (singleEntryState e) earlier calls) :
    ∃ e', (saveAll (singleEntryState e) calls).1 = singleEntryState e' ∧ e'.ID = 1 ∧
      sameTuple e' e ∧ e'.CreatedAt = e.CreatedAt ∧
      (∀ o ∈ (saveAll (singleEntryState e) calls).2, o.ID = 1) ∧
      (calls = [] → e' = e) ∧
      (∀ last, calls.getLast? = some last →
        e'.Payload = last.1.Payload ∧ e'.UpdatedAt = some last.2) := by
  induction calls generalizing e earlier with
  | nil =>
    exact ⟨e, rfl, he, ⟨rfl, rfl, rfl, rfl⟩, rfl, by simp [saveAll], fun _ => rfl,
      by simp⟩
  | cons c rest ih =>
    obtain ⟨entry, now⟩ := c
    obtain ⟨hre, hrest⟩ := hreuse
    have ht : sameTuple entry e := htuple (entry, now) (List.mem_cons_self _ _)
    have hid : entry.ID = 0 ∨ (entry.ID = 1 ∧ entry.CreatedAt = e.CreatedAt) := by
      rcases hre with h | ⟨o, ho, h1, h2⟩
      · exact Or.inl h
      · exact Or.inr ⟨h1.trans (hearlier o ho).1, h2.trans (hearlier o ho).2⟩
    have hsave := Save_on_single e entry now he ht hid
    rw [hsave] at hrest
    obtain ⟨e', g1, g2, g3, g4, g5, g6, g7⟩ := ih
      { entry with ID := 1, CreatedAt := e.CreatedAt, UpdatedAt := some now }
      (earlier ++ [{ entry with ID := 1, CreatedAt := e.CreatedAt, UpdatedAt := some now }])
      rfl
      (by
        intro o ho
        rcases List.mem_append.1 ho with h | h
        · exact hearlier o h
        · simp only [List.mem_singleton] at h
          subst h
          exact ⟨rfl, rfl⟩)
      (by
        intro c hc
        have := htuple c (List.mem_cons_of_mem _ hc)
        exact ⟨this.1.trans ht.1.symm, this.2.1.trans ht.2.1.symm,
          this.2.2.1.trans ht.2.2.1.symm, this.2.2.2.trans ht.2.2.2.symm⟩)
      hrest
    refine ⟨e', ?_, g2, ?_, g4, ?_, ?_, ?_⟩
    · simp only [saveAll, hsave]
      exact g1
    · exact ⟨g3.1.trans ht.1, g3.2.1.trans ht.2.1, g3.2.2.1.trans ht.2.2.1,
        g3.2.2.2.trans ht.2.2.2⟩
    · intro o ho
      simp only [saveAll, hsave, List.mem_cons] at ho
      rcases ho with h | h
      · subst h; rfl
      · exact g5 o h
    · intro h; cases h
    · intro last hlast
      cases rest with
      | nil =>
        simp only [List.getLast?_singleton, Option.some.injEq] at hlast
        subst hlast
        rw [g6 rfl]
        exact ⟨rfl, rfl⟩
      | cons c' rest' =>
        rw [List.getLast?_cons_cons] at hlast
        exact g7 last hlast

/-- Storage upsert on a fresh in-memory repository: for every non-empty
sequence of `Save` calls whose entries carry the same
`(plugin_id, key, entity_type, entity_id)`, each entry passed with ID 0 or with the ID
and `created_at` an earlier `Save` of the sequence wrote into it, and the clock
readings non-decreasing: every `Save` reports the same entry ID, and `Find` for that
tuple returns exactly one entry, with that ID, whose payload is the last saved
payload, whose `created_at` is the time of the first `Save`, and whose `updated_at`
is not earlier than `created_at`. -/
theorem save_sequence_same_tuple (DefaultLimit : Int) (pluginID : Nat) (key : String)
    (entityType : Option String) (entityID : Option Nat)
    (calls : List (PluginStorageEntry × Nat)) (first last : PluginStorageEntry × Nat)
    (hfirst : calls.head? = some first) (hlast : calls.getLast? = some last)
    (htuple : ∀ c ∈ calls, c.1.PluginID = pluginID ∧ c.1.Key = key ∧
      c.1.EntityType = entityType ∧ c.1.EntityID = entityID)
    (hreuse : callsReuseEarlier NewPluginStorageRepository [] calls)
    (hclock : List.Chain' (fun a b => a ≤ b) (calls.map Prod.snd)) :
    ∃ id e updatedAt,
      (∀ o ∈ (saveAll NewPluginStorageRepository calls).2, o.ID = id) ∧
      (saveAll NewPluginStorageRepository calls).2.length = calls.length ∧
      Find DefaultLimit (saveAll NewPluginStorageRepository calls).1
        (some (tupleFilter pluginID key entityType entityID)) [] none = some [e] ∧
      e.ID = id ∧ e.Payload = last.1.Payload ∧ e.CreatedAt = some first.2 ∧
      e.UpdatedAt = some updatedAt ∧ first.2 ≤ updatedAt := by
  cases calls with
  | nil => simp at hfirst
  | cons c rest =>
    simp only [List.head?_cons, Option.some.injEq] at hfirst
    subst hfirst
    obtain ⟨entry, now⟩ := c
    obtain ⟨hre, hrest⟩ := hreuse
    have h0 : entry.ID = 0 := by
      rcases hre with h | ⟨o, ho, _⟩
      · exact h
      · simp at ho
    have hsave := Save_on_empty entry now h0
    rw [hsave] at hrest
    have ht := htuple (entry, now) (List.mem_cons_self _ _)
    obtain ⟨e', g1, g2, g3, g4, g5, g6, g7⟩ := saveAll_on_single rest
      { entry with ID := 1, CreatedAt := some now, UpdatedAt := some now }
      ([] ++ [{ entry with ID := 1, CreatedAt := some now, UpdatedAt := some now }])
      rfl
      (by
        intro o ho
        simp only [List.nil_append, List.mem_singleton] at ho
        subst ho
        exact ⟨rfl, rfl⟩)
      (by
        intro c hc
        have := htuple c (List.mem_cons_of_mem _ hc)
        exact ⟨this.1.trans ht.1.symm, this.2.1.trans ht.2.1.symm,
          this.2.2.1.trans ht.2.2.1.symm, this.2.2.2.trans ht.2.2.2.symm⟩)
      hrest
    have hstate : (saveAll NewPluginStorageRepository ((entry, now) :: rest)).1
        = singleEntryState e' := by
      simp only [saveAll, hsave]
      exact g1
    have hfind : Find DefaultLimit (singleEntryState e')
        (some (tupleFilter pluginID key entityType entityID)) [] none = some [e'] := by
      have := Find_on_single DefaultLimit e'
      rw [g3.1, g3.2.1, g3.2.2.1, g3.2.2.2] at this
      simp only [] at this
      rw [ht.1, ht.2.1, ht.2.2.1, ht.2.2.2] at this
      exact this
    have hlen : ∀ (r : PluginStorageRepository) (cs : List (PluginStorageEntry × Nat)),
        (saveAll r cs).2.length = cs.length := by
      intro r cs
      induction cs generalizing r with
      | nil => rfl
      | cons c cs ih =>
        obtain ⟨en, nw⟩ := c
        simp [saveAll, ih]
    have hpair : List.Pairwise (fun a b => a ≤ b) (List.map Prod.snd ((entry, now) :: rest)) :=
      List.chain'_iff_pairwise.1 hclock
    have hids : ∀ o ∈ (saveAll NewPluginStorageRepository ((entry, now) :: rest)).2,
        o.ID = 1 := by
      intro o ho
      simp only [saveAll, hsave, List.mem_cons] at ho
      rcases ho with h | h
      · subst h; rfl
      · exact g5 o h
    cases rest with
    | nil =>
      simp only [List.getLast?_singleton, Option.some.injEq] at hlast
      subst hlast
      have he' := g6 rfl
      refine ⟨1, e', now, hids, hlen _ _, ?_, g2, ?_, ?_, ?_, le_refl _⟩
      · rw [hstate]; exact hfind
      · rw [he']
      · rw [he']
      · rw [he']
    | cons c' rest' =>
      rw [List.getLast?_cons_cons] at hlast
      obtain ⟨hp, hu⟩ := g7 last hlast
      have hmem : last ∈ c' :: rest' := List.mem_of_getLast?_eq_some hlast
      have hle : now ≤ last.2 := by
        simp only [List.map_cons, List.pairwise_cons] at hpair
        exact hpair.1 last.2 (by
          have := List.mem_map_of_mem Prod.snd hmem
          simpa using this)
      refine ⟨1, e', last.2, hids, hlen _ _, ?_, g2, hp, g4, hu, hle⟩
      · rw [hstate]; exact hfind

/-- The upsert on a fresh repository at a concrete input: three saves of the tuple
`(3, "cache", nil, nil)`. -/
theorem save_sequence_same_tuple_witness :
    ∃ id e updatedAt,
      (∀ o ∈ (saveAll NewPluginStorageRepository sampleUpserts).2, o.ID = id) ∧
      (saveAll NewPluginStorageRepository sampleUpserts).2.length = sampleUpserts.length ∧
      Find 100 (saveAll NewPluginStorageRepository sampleUpserts).1
        (some (tupleFilter 3 "cache" none none)) [] none = some [e] ∧
      e.ID = id ∧
      e.Payload = (Prod.mk (PluginStorageEntry.mk 0 3 "cache" none none [3] none none) 7).1.Payload ∧
      e.CreatedAt
        = some (Prod.mk (PluginStorageEntry.mk 0 3 "cache" none none [1] none none) 5).2 ∧
      e.UpdatedAt = some updatedAt ∧
      (Prod.mk (PluginStorageEntry.mk 0 3 "cache" none none [1] none none) 5).2 ≤ updatedAt :=
  save_sequence_same_tuple 100 3 "cache" none none sampleUpserts
    (⟨0, 3, "cache", none, none, [1], none, none⟩, 5)
    (⟨0, 3, "cache", none, none, [3], none, none⟩, 7)
    rfl rfl (by decide)
    ⟨Or.inl rfl,
      Or.inr ⟨_, List.mem_append_right _ (List.mem_singleton_self _), rfl, rfl⟩,
      Or.inl rfl, trivial⟩
    (by simp [sampleUpserts])

/-! ## Theorems: the candidate IDs of `Find` -/

theorem mem_foldl_setAdd (l acc : List Nat) (x : Nat) :
    x ∈ l.foldl setAdd acc ↔ x ∈ acc ∨ x ∈ l := by
  induction l generalizing acc with
  | nil => simp
  | cons a l ih =>
    simp only [List.foldl_cons, ih, mem_setAdd, List.mem_cons]
    tauto

theorem nodup_foldl_setAdd (l acc : List Nat) (h : acc.Nodup) :
    (l.foldl setAdd acc).Nodup := by
  induction l generalizing acc with
  | nil => simpa using h
  | cons a l ih => exact ih _ (nodup_setAdd acc a h)

theorem mem_collectIndex {κ : Type} [DecidableEq κ] (idx : GoMap κ (List Nat)) (ks : List κ)
    (acc : List Nat) (x : Nat) :
    x ∈ collectIndex idx ks acc ↔ x ∈ acc ∨ ∃ k ∈ ks, indexHas idx k x := by
  unfold collectIndex
  induction ks generalizing acc with
  | nil => simp
  | cons k ks ih =>
    simp only [List.foldl_cons, ih, List.mem_cons, exists_eq_or_imp]
    cases hg : idx.get k with
    | none => simp [indexHas, hg]
    | some s =>
      simp only [mem_foldl_setAdd, indexHas, hg, Option.getD_some]
      tauto

theorem nodup_collectIndex {κ : Type} [DecidableEq κ] (idx : GoMap κ (List Nat))
    (ks : List κ) (acc : List Nat) (h : acc.Nodup) : (collectIndex idx ks acc).Nodup := by
  unfold collectIndex
  induction ks generalizing acc with
  | nil => simpa using h
  | cons k ks ih =>
    simp only [List.foldl_cons]
    apply ih
    cases hg : idx.get k with
    | none => exact h
    | some s => exact nodup_foldl_setAdd s acc h

theorem mem_foldl_setAdd_if (res s acc : List Nat) (x : Nat) :
    x ∈ s.foldl (fun acc entryID => if entryID ∈ res then setAdd acc entryID else acc) acc ↔
      x ∈ acc ∨ (x ∈ res ∧ x ∈ s) := by
  induction s generalizing acc with
  | nil => simp
  | cons a s ih =>
    simp only [List.foldl_cons, ih, List.mem_cons]
    by_cases ha : a ∈ res
    · simp only [ha, if_true, mem_setAdd]
      constructor
      · rintro ((rfl | h) | h)
        · exact Or.inr ⟨ha, Or.inl rfl⟩
        · exact Or.inl h
        · exact Or.inr ⟨h.1, Or.inr h.2⟩
      · rintro (h | ⟨h1, rfl | h2⟩)
        · exact Or.inl (Or.inr h)
        · exact Or.inl (Or.inl rfl)
        · exact Or.inr ⟨h1, h2⟩
    · simp only [ha, if_false]
      constructor
      · rintro (h | h)
        · exact Or.inl h
        · exact Or.inr ⟨h.1, Or.inr h.2⟩
      · rintro (h | ⟨h1, rfl | h2⟩)
        · exact Or.inl h
        · exact absurd h1 ha
        · exact Or.inr ⟨h1, h2⟩

theorem mem_intersectIndex {κ : Type} [DecidableEq κ] (idx : GoMap κ (List Nat))
    (ks : List κ) (res : List Nat) (x : Nat) :
    x ∈ intersectIndex idx ks res ↔ x ∈ res ∧ ∃ k ∈ ks, indexHas idx k x := by
  unfold intersectIndex
  simp only [mem_foldl_setAdd, List.not_mem_nil, false_or]
  have key : ∀ acc : List Nat,
      x ∈ ks.foldl
        (fun acc k =>
          match idx.get k with
          | some entrySet =>
            entrySet.foldl
              (fun acc entryID => if entryID ∈ res then setAdd acc entryID else acc) acc
          | none => acc) acc ↔
        x ∈ acc ∨ (x ∈ res ∧ ∃ k ∈ ks, indexHas idx k x) := by
    induction ks with
    | nil => intro acc; simp
    | cons k ks ih =>
      intro acc
      simp only [List.foldl_cons, ih, List.mem_cons, exists_eq_or_imp]
      cases hg : idx.get k with
      | none => simp [indexHas, hg]
      | some s =>
        simp only [mem_foldl_setAdd_if, indexHas, hg, Option.getD_some]
        tauto
  simpa using key []

theorem nodup_intersectIndex {κ : Type} [DecidableEq κ] (idx : GoMap κ (List Nat))
    (ks : List κ) (res : List Nat) : (intersectIndex idx ks res).Nodup := by
  unfold intersectIndex
  exact nodup_foldl_setAdd _ [] List.nodup_nil

theorem mem_foldl_stored (entries : GoMap Nat PluginStorageEntry) (ids acc : List Nat)
    (x : Nat) :
    x ∈ ids.foldl (fun acc id => if (entries.get id).isSome then setAdd acc id else acc) acc ↔
      x ∈ acc ∨ (x ∈ ids ∧ (entries.get x).isSome) := by
  induction ids generalizing acc with
  | nil => simp
  | cons a ids ih =>
    simp only [List.foldl_cons, ih, List.mem_cons]
    by_cases ha : (entries.get a).isSome
    · simp only [ha, if_true, mem_setAdd]
      constructor
      · rintro ((rfl | h) | h)
        · exact Or.inr ⟨Or.inl rfl, ha⟩
        · exact Or.inl h
        · exact Or.inr ⟨Or.inr h.1, h.2⟩
      · rintro (h | ⟨rfl | h1, h2⟩)
        · exact Or.inl (Or.inr h)
        · exact Or.inl (Or.inl rfl)
        · exact Or.inr ⟨h1, h2⟩
    · simp only [ha, if_false]
      constructor
      · rintro (h | h)
        · exact Or.inl h
        · exact Or.inr ⟨Or.inr h.1, h.2⟩
      · rintro (h | ⟨rfl | h1, h2⟩)
        · exact Or.inl h
        · exact absurd h2 ha
        · exact Or.inr ⟨h1, h2⟩

theorem nodup_foldl_stored (entries : GoMap Nat PluginStorageEntry) (ids acc : List Nat)
    (h : acc.Nodup) :
    (ids.foldl (fun acc id => if (entries.get id).isSome then setAdd acc id else acc)
      acc).Nodup := by
  induction ids generalizing acc with
  | nil => simpa using h
  | cons a ids ih =>
    simp only [List.foldl_cons]
    apply ih
    by_cases ha : (entries.get a).isSome
    · simpa [ha] using nodup_setAdd acc a h
    · simpa [ha] using h

theorem GoMap.mem_keys {κ ν : Type} [DecidableEq κ] (m : GoMap κ ν) (k : κ) :
    k ∈ m.keys ↔ (m.get k).isSome := by
  induction m with
  | nil => simp [GoMap.keys, GoMap.get]
  | cons kv m ih =>
    obtain ⟨k₀, v₀⟩ := kv
    simp only [GoMap.keys, List.map_cons, List.mem_cons, GoMap.get] at ih ⊢
    by_cases h : k₀ = k
    · simp [h]
    · have h' : ¬ k = k₀ := fun e => h e.symm
      simp [h, h', ih]

theorem index_clause_none {κ : Type} [DecidableEq κ] (f : PluginStorageEntry → κ)
    (entries : GoMap Nat PluginStorageEntry) (idx : GoMap κ (List Nat))
    (hsync : ∀ k id, indexHas idx k id ↔ ∃ e, entries.get id = some e ∧ f e = k)
    (ks : List κ) (x : Nat) (hget : entries.get x = none) :
    ¬ ∃ k ∈ ks, indexHas idx k x := by
  rintro ⟨k, _, hk⟩
  obtain ⟨e, he, _⟩ := (hsync k x).1 hk
  rw [hget] at he
  cases he

theorem index_clause_some {κ : Type} [DecidableEq κ] (f : PluginStorageEntry → κ)
    (entries : GoMap Nat PluginStorageEntry) (idx : GoMap κ (List Nat))
    (hsync : ∀ k id, indexHas idx k id ↔ ∃ e, entries.get id = some e ∧ f e = k)
    (ks : List κ) (x : Nat) (e : PluginStorageEntry) (hget : entries.get x = some e) :
    (∃ k ∈ ks, indexHas idx k x) ↔ f e ∈ ks := by
  constructor
  · rintro ⟨k, hk, hidx⟩
    obtain ⟨e', he', hf⟩ := (hsync k x).1 hidx
    rw [hget] at he'
    cases he'
    rw [hf]; exact hk
  · intro h
    exact ⟨f e, h, (hsync (f e) x).2 ⟨e, hget, rfl⟩⟩

/-- While the indices are in step, the candidate IDs of `Find` are the IDs of the
stored entries that pass `filterMatches`. -/
theorem mem_getFilteredEntryIDs (r : PluginStorageRepository) (hs : Synced r)
    (f : FindPluginStorage) (x : Nat) :
    x ∈ getFilteredEntryIDs r (some f) ↔
      ∃ e, r.entries.get x = some e ∧ filterMatches f e := by
  obtain ⟨hkeys, hp, hk, he⟩ := hs
  unfold getFilteredEntryIDs filterMatches
  simp only [gt_iff_lt, List.length_pos, intersectWithPluginIDs, intersectWithKeys,
    intersectWithEntityPairs]
  cases hget : r.entries.get x with
  | none =>
    have nB := index_clause_none (fun e => e.PluginID) r.entries _ hp f.PluginIDs x hget
    have nC := index_clause_none (fun e => e.Key) r.entries _ hk f.Keys x hget
    have nD := index_clause_none (fun e => makeEntityKey e.EntityType e.EntityID) r.entries _
      he (f.EntityPairs.map (fun pair => makeEntityKey pair.EntityType pair.EntityID)) x hget
    have nD2 : ∀ a ∈ f.EntityPairs,
        ¬ indexHas r.entityIndex (makeEntityKey a.EntityType a.EntityID) x := by
      simpa using nD
    by_cases hA : f.IDs = [] <;> by_cases hB : f.PluginIDs = [] <;>
      by_cases hC : f.Keys = [] <;> by_cases hD : f.EntityPairs = [] <;>
      simp [hA, hB, hC, hD, mem_intersectIndex, mem_collectIndex, mem_foldl_stored,
        mem_foldl_setAdd, GoMap.mem_keys, hget, nB, nC, nD2]
    exact nD2
  | some e =>
    have cB := index_clause_some (fun e => e.PluginID) r.entries _ hp f.PluginIDs x e hget
    have cC := index_clause_some (fun e => e.Key) r.entries _ hk f.Keys x e hget
    have cD := index_clause_some (fun e => makeEntityKey e.EntityType e.EntityID) r.entries _
      he (f.EntityPairs.map (fun pair => makeEntityKey pair.EntityType pair.EntityID)) x e hget
    have hid : e.ID = x := hkeys x e hget
    have cD' : (makeEntityKey e.EntityType e.EntityID ∈
        f.EntityPairs.map (fun pair => makeEntityKey pair.EntityType pair.EntityID)) ↔
        ∃ pair ∈ f.EntityPairs,
          makeEntityKey pair.EntityType pair.EntityID
            = makeEntityKey e.EntityType e.EntityID := by
      simp [List.mem_map]
    simp only [] at cB cC cD
    rw [cD'] at cD
    have cD2 : (∃ a ∈ f.EntityPairs,
        indexHas r.entityIndex (makeEntityKey a.EntityType a.EntityID) x) ↔
        ∃ pair ∈ f.EntityPairs,
          makeEntityKey pair.EntityType pair.EntityID
            = makeEntityKey e.EntityType e.EntityID := by
      simpa using cD
    by_cases hA : f.IDs = [] <;> by_cases hB : f.PluginIDs = [] <;>
      by_cases hC : f.Keys = [] <;> by_cases hD : f.EntityPairs = [] <;>
      simp [hA, hB, hC, hD, mem_intersectIndex, mem_collectIndex, mem_foldl_stored,
        mem_foldl_setAdd, GoMap.mem_keys, hget, cB, cC, cD2, hid, and_assoc]

theorem nodup_getFilteredEntryIDs (r : PluginStorageRepository)
    (f : Option FindPluginStorage) : (getFilteredEntryIDs r f).Nodup := by
  unfold getFilteredEntryIDs
  cases f with
  | none => exact nodup_foldl_setAdd _ [] List.nodup_nil
  | some f =>
    simp only [intersectWithPluginIDs, intersectWithKeys, intersectWithEntityPairs]
    split_ifs <;>
      first
        | exact nodup_intersectIndex _ _ _
        | exact nodup_foldl_setAdd _ [] List.nodup_nil
        | exact nodup_collectIndex _ _ [] List.nodup_nil
        | exact nodup_foldl_stored _ _ [] List.nodup_nil

/-! ## Theorems: `Find` depends only on the entries the filter admits -/

theorem sortEntries_default_eq_of_perm (l l' : List PluginStorageEntry) (hperm : l.Perm l')
    (hinj : ∀ a ∈ l, ∀ b ∈ l, a.ID = b.ID → a = b) :
    sortEntries l [] = sortEntries l' [] := by
  simp only [sortEntries, List.length_nil, if_true]
  haveI : IsTotal PluginStorageEntry (fun a b => ¬ (b.ID < a.ID)) :=
    ⟨fun a b => by
      simp only [not_lt]
      exact le_total a.ID b.ID⟩
  haveI : IsTrans PluginStorageEntry (fun a b => ¬ (b.ID < a.ID)) :=
    ⟨fun a b c hab hbc => by
      simp only [not_lt] at hab hbc ⊢
      exact le_trans hab hbc⟩
  have p1 := List.perm_insertionSort (fun a b : PluginStorageEntry => ¬ (b.ID < a.ID)) l
  have p2 := List.perm_insertionSort (fun a b : PluginStorageEntry => ¬ (b.ID < a.ID)) l'
  refine @List.Perm.eq_of_sorted PluginStorageEntry
    (fun a b : PluginStorageEntry => ¬ (b.ID < a.ID)) _ _ ?_ ?_ ?_ ?_
  · intro a b ha hb hab hba
    simp only [not_lt] at hab hba
    exact hinj a (p1.subset ha) b ((p2.trans hperm.symm).subset hb) (le_antisymm hab hba)
  · exact List.sorted_insertionSort _ l
  · exact List.sorted_insertionSort _ l'
  · exact p1.trans (hperm.trans p2.symm)

theorem mem_candidates (r : PluginStorageRepository) (hs : Synced r) (f : FindPluginStorage)
    (e : PluginStorageEntry) :
    e ∈ (getFilteredEntryIDs r (some f)).filterMap (fun entryID => r.entries.get entryID) ↔
      r.entries.get e.ID = some e ∧ filterMatches f e := by
  simp only [List.mem_filterMap, mem_getFilteredEntryIDs r hs]
  constructor
  · rintro ⟨x, ⟨e', he', hm⟩, hx⟩
    rw [hx] at he'
    cases he'
    have := hs.1 x e hx
    rw [this]
    exact ⟨hx, hm⟩
  · rintro ⟨h1, h2⟩
    exact ⟨e.ID, ⟨e, h1, h2⟩, h1⟩

theorem nodup_candidates (r : PluginStorageRepository) (hs : Synced r)
    (f : FindPluginStorage) :
    ((getFilteredEntryIDs r (some f)).filterMap
      (fun entryID => r.entries.get entryID)).Nodup := by
  apply List.Nodup.filterMap _ (nodup_getFilteredEntryIDs r (some f))
  intro a a' b hb hb'
  have h1 := hs.1 a b hb
  have h2 := hs.1 a' b hb'
  rw [← h1, ← h2]

/-- Two repositories with their indices in step that store the same entries among
those a filter admits give the same `Find` result under the default order. -/
theorem Find_congr (DefaultLimit : Int) (r r' : PluginStorageRepository) (hs : Synced r)
    (hs' : Synced r') (f : FindPluginStorage)
    (hsame : ∀ k e, filterMatches f e →
      (r.entries.get k = some e ↔ r'.entries.get k = some e))
    (pagination : Option Pagination) :
    Find DefaultLimit r (some f) [] pagination
      = Find DefaultLimit r' (some f) [] pagination := by
  unfold Find
  simp only []
  congr 1
  apply sortEntries_default_eq_of_perm
  · apply (List.perm_ext_iff_of_nodup (nodup_candidates r hs f)
      (nodup_candidates r' hs' f)).2
    intro e
    rw [mem_candidates r hs, mem_candidates r' hs']
    constructor
    · rintro ⟨h1, h2⟩
      exact ⟨(hsame _ e h2).1 h1, h2⟩
    · rintro ⟨h1, h2⟩
      exact ⟨(hsame _ e h2).2 h1, h2⟩
  · intro a ha b hb hab
    have h1 := ((mem_candidates r hs f a).1 ha).1
    have h2 := ((mem_candidates r hs f b).1 hb).1
    rw [hab, h2] at h1
    cases h1
    rfl

theorem applyPagination_first (DefaultLimit : Int) (l : List PluginStorageEntry) :
    applyPagination DefaultLimit l (some { Limit := 1, Offset := 0 }) = some (l.take 1) := by
  cases l with
  | nil => simp [applyPagination]
  | cons a l =>
    have h1 : addInt64 0 1 = 1 := by decide
    have h2 : ¬ ((0 : Int) ≥ ((a :: l).length : Int)) := by
      simp only [List.length_cons, ge_iff_le, not_le]
      omega
    have h3 : min (1 : Int) ((a :: l).length : Int) = 1 := by
      simp only [List.length_cons]
      omega
    simp only [applyPagination, show ¬ ((1 : Int) ≤ 0) by decide, if_false, max_self, h1,
      h2, h3]
    simp

/-! ## Theorems: storage isolation between plugins -/

/-- A `Save` of an entry passed with ID 0 leaves the entries of the other plugins as
they are, while the indices are in step, the IDs issued and the counter has room. -/
theorem Save_frame (r : PluginStorageRepository) (entry : PluginStorageEntry) (now : Nat)
    (hs : Synced r) (hi : Issued r) (h0 : entry.ID = 0) (hroom : r.nextID + 1 < 2 ^ 64) :
    ∀ k e, e.PluginID ≠ entry.PluginID →
      (r.entries.get k = some e ↔ (Save r entry now).1.entries.get k = some e) := by
  intro k e hp
  rcases findExistingEntry_found r hs entry.PluginID entry.Key entry.EntityType
      entry.EntityID with hx | ⟨old, hold, hpo, _⟩
  · have hmod : (r.nextID + 1) % 2 ^ 64 = r.nextID + 1 := Nat.mod_eq_of_lt hroom
    have hfree : r.entries.get ((r.nextID + 1) % 2 ^ 64) = none := by
      rw [hmod]
      cases hg : r.entries.get (r.nextID + 1) with
      | none => rfl
      | some e =>
        have := (hi _ e hg).2
        omega
    rw [Save_fresh r entry now h0 hx hfree, putEntry_entries]
    by_cases hk : (r.nextID + 1) % 2 ^ 64 = k
    · rw [if_pos hk, ← hk, hfree]
      constructor
      · intro h; cases h
      · intro h
        simp only [Option.some.injEq] at h
        rw [← h] at hp
        exact absurd rfl hp
    · rw [if_neg hk]
  · have hx : findExistingEntry r entry.PluginID entry.Key entry.EntityType
        entry.EntityID ≠ 0 := by
      have := (hi _ old hold).1
      omega
    rw [Save_existing r entry old now h0 hx hold, putEntry_entries]
    by_cases hk : findExistingEntry r entry.PluginID entry.Key entry.EntityType
        entry.EntityID = k
    · rw [if_pos hk, ← hk, hold]
      simp only [Option.some.injEq]
      constructor
      · intro h
        rw [← h] at hp
        exact absurd hpo hp
      · intro h
        rw [← h] at hp
        exact absurd rfl hp
    · rw [if_neg hk]

theorem Delete_frame (r : PluginStorageRepository) (id q : Nat)
    (hq : ∀ e', r.entries.get id = some e' → e'.PluginID = q) :
    ∀ k e, e.PluginID ≠ q →
      (r.entries.get k = some e ↔ (Delete r id).entries.get k = some e) := by
  intro k e hp
  rw [Delete_entries]
  by_cases hk : id = k
  · subst hk
    simp only [if_true]
    constructor
    · intro h
      exact absurd (hq e h) hp
    · intro h; cases h
  · simp [hk]

/-- The `Find` of `Get` and `Delete` in the storage service returns at most the first
matching entry, which is a stored entry of the service's plugin. -/
theorem Find_first_of_plugin (DefaultLimit : Int) (r : PluginStorageRepository)
    (hs : Synced r) (q : Nat) (key : String) (et : Option ProtoEntityType)
    (eid : Option Nat) :
    ∃ l, Find DefaultLimit r (some (storageKeyFilter q key et eid)) []
        (some { Limit := 1, Offset := 0 }) = some l ∧
      ∀ e ∈ l, r.entries.get e.ID = some e ∧ e.PluginID = q := by
  unfold Find
  simp only [applyPagination_first]
  refine ⟨_, rfl, ?_⟩
  intro e he
  have h1 := List.mem_of_mem_take he
  simp only [sortEntries, List.length_nil, if_true] at h1
  have h2 := (List.perm_insertionSort _ _).subset h1
  obtain ⟨h3, h4⟩ := (mem_candidates r hs _ e).1 h2
  refine ⟨h3, ?_⟩
  have := h4.2.1
  simpa [storageKeyFilter] using this

/-- One call through the service of plugin `q` does not panic, keeps the indices in
step and the IDs issued, moves the counter by at most one, and leaves the entries of
every other plugin as they are. -/
theorem applyCall_keeps (DefaultLimit : Int) (q : Nat) (r : PluginStorageRepository)
    (call : StorageCall) (hs : Synced r) (hi : Issued r) (hroom : r.nextID + 1 < 2 ^ 64) :
    ∃ r', applyCall DefaultLimit q r call = some r' ∧ Synced r' ∧ Issued r' ∧
      r'.nextID ≤ r.nextID + 1 ∧
      ∀ k e, e.PluginID ≠ q → (r.entries.get k = some e ↔ r'.entries.get k = some e) := by
  cases call with
  | set req now =>
    refine ⟨_, rfl, ?_⟩
    simp only [StorageSet]
    obtain ⟨g1, g2, _, g4⟩ := Save_keeps r
      { ID := 0, PluginID := q, Key := req.Key
        EntityType := entityTypeFromProto req.EntityType
        EntityID := uintPtrFromUint64Ptr req.EntityId
        Payload := req.Payload, CreatedAt := none, UpdatedAt := none } now hs hi
      (Nat.zero_le _) hroom
    exact ⟨g1, g2, g4, Save_frame r
      { ID := 0, PluginID := q, Key := req.Key
        EntityType := entityTypeFromProto req.EntityType
        EntityID := uintPtrFromUint64Ptr req.EntityId
        Payload := req.Payload, CreatedAt := none, UpdatedAt := none } now hs hi rfl hroom⟩
  | delete req =>
    obtain ⟨l, hl, hmem⟩ := Find_first_of_plugin DefaultLimit r hs q req.Key req.EntityType
      req.EntityId
    simp only [applyCall, StorageDelete, hl]
    cases l with
    | nil =>
      exact ⟨r, rfl, hs, hi, Nat.le_succ _, fun _ _ _ => Iff.rfl⟩
    | cons entry rest =>
      refine ⟨Delete r entry.ID, rfl, Synced_Delete r _ hs, Issued_Delete r _ hi, ?_, ?_⟩
      · rw [Delete_nextID]; exact Nat.le_succ _
      · apply Delete_frame
        intro e' he'
        obtain ⟨h1, h2⟩ := hmem entry (List.mem_cons_self _ _)
        rw [h1] at he'
        cases he'
        exact h2

theorem runCalls_keeps (DefaultLimit : Int) (q : Nat) (calls : List StorageCall)
    (r : PluginStorageRepository) (hs : Synced r) (hi : Issued r)
    (hroom : r.nextID + calls.length < 2 ^ 64) :
    ∃ r', runCalls DefaultLimit q r calls = some r' ∧ Synced r' ∧
      ∀ k e, e.PluginID ≠ q → (r.entries.get k = some e ↔ r'.entries.get k = some e) := by
  induction calls generalizing r with
  | nil => exact ⟨r, rfl, hs, fun _ _ _ => Iff.rfl⟩
  | cons call calls ih =>
    simp only [List.length_cons] at hroom
    obtain ⟨r₁, h1, hs₁, hi₁, hn₁, hf₁⟩ :=
      applyCall_keeps DefaultLimit q r call hs hi (by omega)
    obtain ⟨r₂, h2, hs₂, hf₂⟩ := ih r₁ hs₁ hi₁ (by omega)
    refine ⟨r₂, ?_, hs₂, ?_⟩
    · simp only [runCalls, h1]
      exact h2
    · intro k e hp
      exact (hf₁ k e hp).trans (hf₂ k e hp)

/-- C7. Storage isolation: let the repository be in a state reached from empty by
`Save`s passed ID 0 or an issued ID, `Delete`s and `DeleteByPlugin`s, and let plugin
`q` make any sequence of `Set` and `Delete` calls through its service, the counter
having room for all these calls (fewer than `2 ^ 64` in total).  Then the calls of
`q` do not panic, and every `Get` and every `List` made through the service of
another plugin `p` answers after them exactly what it answered before them. -/
theorem storage_isolation (DefaultLimit : Int) (p q : Nat) (hpq : p ≠ q)
    (history : List RepoOp) (calls : List StorageCall)
    (hsat : savesSatisfy issuedOrZero NewPluginStorageRepository history)
    (hlen : history.length + calls.length < 2 ^ 64) :
    ∃ repo', runCalls DefaultLimit q (runOps NewPluginStorageRepository history) calls
        = some repo' ∧
      (∀ req, StorageGet DefaultLimit p repo' req
        = StorageGet DefaultLimit p (runOps NewPluginStorageRepository history) req) ∧
      (∀ req, StorageList DefaultLimit p repo' req
        = StorageList DefaultLimit p (runOps NewPluginStorageRepository history) req) := by
  obtain ⟨hs, hi, hn⟩ := runOps_keeps issuedOrZero (fun _ _ h => h) history
    NewPluginStorageRepository Synced_New Issued_New hsat
    (by
      have : NewPluginStorageRepository.nextID = 0 := rfl
      omega)
  have hn0 : (runOps NewPluginStorageRepository history).nextID ≤ history.length := by
    simpa [NewPluginStorageRepository] using hn
  obtain ⟨repo', hrun, hs', hframe⟩ := runCalls_keeps DefaultLimit q calls
    (runOps NewPluginStorageRepository history) hs hi (by omega)
  refine ⟨repo', hrun, ?_, ?_⟩
  · intro req
    unfold StorageGet
    rw [Find_congr DefaultLimit repo' (runOps NewPluginStorageRepository history) hs' hs]
    intro k e hm
    have hpe : e.PluginID = p := by
      have := hm.2.1
      simpa [storageKeyFilter] using this
    exact (hframe k e (by rw [hpe]; exact hpq)).symm
  · intro req
    unfold StorageList
    simp only []
    rw [Find_congr DefaultLimit repo' (runOps NewPluginStorageRepository history) hs' hs]
    intro k e hm
    have hpe : e.PluginID = p := by
      have := hm.2.1
      simpa using this
    exact (hframe k e (by rw [hpe]; exact hpq)).symm

/-- C7 at a concrete input: plugin 2 overwrites, adds and deletes keys on the sample
store; the answers to plugin 1 do not change. -/
theorem storage_isolation_witness :
    ∃ repo', runCalls 100 2 (runOps NewPluginStorageRepository sampleSaves) sampleCalls
        = some repo' ∧
      (∀ req, StorageGet 100 1 repo' req
        = StorageGet 100 1 (runOps NewPluginStorageRepository sampleSaves) req) ∧
      (∀ req, StorageList 100 1 repo' req
        = StorageList 100 1 (runOps NewPluginStorageRepository sampleSaves) req) :=
  storage_isolation 100 1 2 (by decide) sampleSaves sampleCalls
    ⟨Nat.zero_le _, Nat.zero_le _, Nat.zero_le _, trivial⟩ (by decide)

/-- While the indices are in step, `Find` without pagination returns, in some order,
exactly the stored entries that pass `filterMatches`, each once. -/
theorem Find_unpaginated (DefaultLimit : Int) (r : PluginStorageRepository) (hs : Synced r)
    (f : FindPluginStorage) (order : List Sorting) :
    ∃ l, Find DefaultLimit r (some f) order none = some l ∧ l.Nodup ∧
      ∀ e, e ∈ l ↔ r.entries.get e.ID = some e ∧ filterMatches f e := by
  unfold Find
  simp only [applyPagination]
  refine ⟨_, rfl, ?_, ?_⟩
  · unfold sortEntries
    split_ifs
    · exact (List.perm_insertionSort _ _).nodup_iff.2 (nodup_candidates r hs f)
    · exact (List.perm_insertionSort _ _).nodup_iff.2 (nodup_candidates r hs f)
  · intro e
    rw [← mem_candidates r hs f e]
    unfold sortEntries
    split_ifs
    · exact (List.perm_insertionSort _ _).mem_iff
    · exact (List.perm_insertionSort _ _).mem_iff

/-! ## Theorems: what a `Save` that updates leaves in place -/

/-- C11, as stated, fails for an update matched by explicit ID: the entry stored under
ID 1 belongs to plugin 1 with key `"a"` and no entity; after a `Save` of an entry
passed with ID 1, plugin 9, key `"zz"` and entity `("server", 4)`, the entry stored
under ID 1 carries the plugin, key and entity fields of the caller. -/
theorem save_by_id_replaces_stored_fields :
    twoEntries.entries.get 1 = some ⟨1, 1, "a", none, none, [1], some 10, some 10⟩ ∧
    (Save twoEntries ⟨1, 9, "zz", some "server", some 4, [7], some 10, none⟩ 20).1.entries.get 1
      = some ⟨1, 9, "zz", some "server", some 4, [7], some 10, some 20⟩ := by
  decide

/-- C11, amended. In every state reached from the empty repository by fewer than
`2 ^ 64` calls in which every `Save` is passed ID 0 or an issued ID, a `Save` that
updates a stored entry `old` (the entry stored under the ID the call reports) does the
following. Passed with ID 0, so that the entry is matched by its four-tuple, it leaves
ID, plugin, key, entity fields and `created_at` as stored, sets the payload to the new
payload and `updated_at` to the time of the call. Passed with a non-zero ID, it keeps
the ID, sets the payload to the new payload and `updated_at` to the time of the call,
and stores plugin, key and entity fields as the caller passes them. -/
theorem save_update_effect (ops : List RepoOp) (hlen : ops.length < 2 ^ 64)
    (hsat : savesSatisfy issuedOrZero NewPluginStorageRepository ops)
    (entry old : PluginStorageEntry) (now : Nat)
    (hold : (runOps NewPluginStorageRepository ops).entries.get
      (Save (runOps NewPluginStorageRepository ops) entry now).2.ID = some old) :
    (entry.ID = 0 →
      (Save (runOps NewPluginStorageRepository ops) entry now).1.entries.get
          (Save (runOps NewPluginStorageRepository ops) entry now).2.ID
        = some { old with Payload := entry.Payload, UpdatedAt := some now }) ∧
    (entry.ID ≠ 0 →
      ∃ new, (Save (runOps NewPluginStorageRepository ops) entry now).1.entries.get
          (Save (runOps NewPluginStorageRepository ops) entry now).2.ID = some new ∧
        new.ID = old.ID ∧ new.Payload = entry.Payload ∧ new.UpdatedAt = some now ∧
        new.PluginID = entry.PluginID ∧ new.Key = entry.Key ∧
        new.EntityType = entry.EntityType ∧ new.EntityID = entry.EntityID) := by
  obtain ⟨hs, hi, hn⟩ := runOps_keeps issuedOrZero (fun _ _ h => h) ops
    NewPluginStorageRepository Synced_New Issued_New hsat
    (by simpa [NewPluginStorageRepository] using hlen)
  have hn' : (runOps NewPluginStorageRepository ops).nextID < 2 ^ 64 := by
    have h0 : NewPluginStorageRepository.nextID = 0 := rfl
    omega
  generalize runOps NewPluginStorageRepository ops = r at hs hi hn' hold ⊢
  constructor
  · intro h0
    rcases findExistingEntry_found r hs entry.PluginID entry.Key entry.EntityType
        entry.EntityID with hx | ⟨e, he, hp, hk, ht, hid⟩
    · exfalso
      have hfree : r.entries.get ((r.nextID + 1) % 2 ^ 64) = none := by
        cases hg : r.entries.get ((r.nextID + 1) % 2 ^ 64) with
        | none => rfl
        | some e =>
          have := hi _ _ hg
          by_cases hlt : r.nextID + 1 < 2 ^ 64
          · rw [Nat.mod_eq_of_lt hlt] at this
            omega
          · have heq : r.nextID + 1 = 2 ^ 64 := by omega
            rw [heq, Nat.mod_self] at this
            omega
      rw [Save_fresh r entry now h0 hx hfree] at hold
      simp only [] at hold
      rw [hfree] at hold
      cases hold
    · by_cases hx : findExistingEntry r entry.PluginID entry.Key entry.EntityType
          entry.EntityID = 0
      · have := hi _ _ he
        omega
      · rw [Save_existing r entry e now h0 hx he] at hold ⊢
        simp only [] at hold ⊢
        rw [he] at hold
        cases hold
        rw [putEntry_entries]
        simp only [if_true]
        have hkey := hs.1 _ _ he
        rw [← hkey, hp, hk, ht, hid]
  · intro h0
    rw [Save_explicit r entry now h0] at hold ⊢
    simp only [] at hold ⊢
    rw [putEntry_entries]
    simp only [if_true]
    have hkey := hs.1 _ _ hold
    exact ⟨_, rfl, hkey.symm, rfl, rfl, rfl, rfl, rfl, rfl⟩

/-- C11, amended, at the repository of two entries: an update matched by the tuple of
the entry stored under ID 1, and an update of the entry stored under ID 2 by its ID. -/
theorem save_update_effect_witness :
    (Save (runOps NewPluginStorageRepository twoSaves)
        ⟨0, 1, "a", none, none, [7], none, none⟩ 20).1.entries.get
        (Save (runOps NewPluginStorageRepository twoSaves)
          ⟨0, 1, "a", none, none, [7], none, none⟩ 20).2.ID
      = some { (⟨1, 1, "a", none, none, [1], some 10, some 10⟩ : PluginStorageEntry) with
          Payload := [7], UpdatedAt := some 20 } ∧
    ∃ new, (Save (runOps NewPluginStorageRepository twoSaves)
        ⟨2, 1, "c", none, none, [8], none, none⟩ 21).1.entries.get
        (Save (runOps NewPluginStorageRepository twoSaves)
          ⟨2, 1, "c", none, none, [8], none, none⟩ 21).2.ID = some new ∧
      new.ID = (⟨2, 1, "b", none, none, [2], some 11, some 11⟩ : PluginStorageEntry).ID ∧
      new.Payload = (⟨2, 1, "c", none, none, [8], none, none⟩ : PluginStorageEntry).Payload ∧
      new.UpdatedAt = some 21 ∧
      new.PluginID = (⟨2, 1, "c", none, none, [8], none, none⟩ : PluginStorageEntry).PluginID ∧
      new.Key = (⟨2, 1, "c", none, none, [8], none, none⟩ : PluginStorageEntry).Key ∧
      new.EntityType
        = (⟨2, 1, "c", none, none, [8], none, none⟩ : PluginStorageEntry).EntityType ∧
      new.EntityID
        = (⟨2, 1, "c", none, none, [8], none, none⟩ : PluginStorageEntry).EntityID :=
  ⟨(save_update_effect twoSaves (by decide) ⟨Nat.zero_le _, Nat.zero_le _, trivial⟩
      ⟨0, 1, "a", none, none, [7], none, none⟩ ⟨1, 1, "a", none, none, [1], some 10, some 10⟩ 20
      (by decide)).1 rfl,
    (save_update_effect twoSaves (by decide) ⟨Nat.zero_le _, Nat.zero_le _, trivial⟩
      ⟨2, 1, "c", none, none, [8], none, none⟩ ⟨2, 1, "b", none, none, [2], some 11, some 11⟩ 21
      (by decide)).2 (by decide)⟩

/-! ## Theorems: subscriptions -/

theorem subscribe_events (p : LoadedPlugin) (t : EventType) (events : List EventType)
    (m : GoMap EventType (List LoadedPlugin)) :
    (GoMap.get (events.foldl
        (fun subs eventType =>
          GoMap.set subs eventType ((GoMap.get subs eventType).getD [] ++ [p])) m) t).getD []
      = (GoMap.get m t).getD [] ++ (events.filter (fun e => decide (e = t))).map (fun _ => p) := by
  induction events generalizing m with
  | nil => simp
  | cons e events ih =>
    simp only [List.foldl_cons]
    rw [ih, GoMap.get_set]
    by_cases h : e = t
    · subst h
      simp
    · simp [h]

/-- The subscriber sequence `RefreshSubscriptions` builds for an event type. -/
theorem subscribersOf_RefreshSubscriptions (d : Dispatcher) (plugins : List LoadedPlugin)
    (t : EventType) :
    subscribersOf (RefreshSubscriptions d plugins) t = subscriptionsFor plugins t := by
  have key : ∀ (m : GoMap EventType (List LoadedPlugin)),
      (GoMap.get (plugins.foldl
        (fun subs plugin =>
          if !plugin.Enabled then subs
          else
            match plugin.GetSubscribedEvents with
            | .error _ => subs
            | .ok events =>
              events.foldl
                (fun subs eventType =>
                  GoMap.set subs eventType ((GoMap.get subs eventType).getD [] ++ [plugin]))
                subs) m) t).getD []
        = (GoMap.get m t).getD [] ++ subscriptionsFor plugins t := by
    induction plugins with
    | nil => simp [subscriptionsFor]
    | cons p plugins ih =>
      intro m
      simp only [List.foldl_cons]
      rw [ih]
      cases hen : p.Enabled with
      | false => simp [subscriptionsFor, hen]
      | true =>
        cases hev : p.GetSubscribedEvents with
        | error err => simp [subscriptionsFor, hen, hev]
        | ok events =>
          simp only [Bool.not_true, Bool.false_eq_true, if_false]
          rw [subscribe_events]
          simp [subscriptionsFor, hen, hev]
  have := key []
  simpa [subscribersOf, RefreshSubscriptions, GoMap.get] using this

theorem dispatchLoop_invoked_prefix (c : Bool) (event : Event) (subs : List LoadedPlugin)
    (run : DispatchRun) :
    ∃ tr, (dispatchLoop c event subs run).invoked = run.invoked ++ tr := by
  obtain ⟨_, tr, _, _, h, _⟩ := dispatchLoop_frame c event subs run run
    ⟨rfl, rfl, rfl, rfl, rfl⟩
  exact ⟨tr, h⟩

/-- An enabled guest at the head of the loop is called. -/
theorem dispatchLoop_head_invoked (c : Bool) (event : Event) (p : LoadedPlugin)
    (post : List LoadedPlugin) (run : DispatchRun) (hen : p.Enabled = true) :
    ∃ tr, (dispatchLoop c event (p :: post) run).invoked = run.invoked ++ p :: tr := by
  have helper : ∀ X : DispatchRun, X.invoked = run.invoked ++ [p] →
      ∃ tr, (dispatchLoop c event post X).invoked = run.invoked ++ p :: tr := by
    intro X hX
    obtain ⟨tr, h⟩ := dispatchLoop_invoked_prefix c event post X
    exact ⟨tr, by rw [h, hX]; simp⟩
  simp only [dispatchLoop, hen, Bool.not_true, Bool.false_eq_true, if_false]
  cases hres : p.HandleEvent event with
  | error err => exact helper _ rfl
  | ok r =>
    simp only []
    by_cases hc : (c && r.ShouldCancel) = true
    · rw [if_pos hc]
      exact ⟨[], rfl⟩
    · rw [if_neg hc]
      exact helper _ rfl

/-- C12. After `RefreshSubscriptions` over the plugins of the manager, every enabled
plugin `p` whose `GetSubscribedEvents` succeeded is, for every event type `t` of the
list it returned, in the subscriber sequence for `t`; `HasSubscribers t` is true; and
a `Dispatch` of an event of type `t` in which no subscriber before `p` cancels calls
`HandleEvent` of `p`. A plugin whose `GetSubscribedEvents` failed changes no
subscriber sequence: each is what it would be without that plugin. -/
theorem refresh_subscribes (d : Dispatcher) (plugins : List LoadedPlugin) :
    (∀ p ∈ plugins, p.Enabled = true → ∀ events, p.GetSubscribedEvents = .ok events →
      ∀ t ∈ events,
        p ∈ subscribersOf (RefreshSubscriptions d plugins) t ∧
        HasSubscribers (RefreshSubscriptions d plugins) t = true ∧
        ∀ event : Event, event.Typ = t → ∀ pre post,
          subscribersOf (RefreshSubscriptions d plugins) t = pre ++ p :: post →
          (∀ q ∈ pre, q.Enabled = true → ∀ r, q.HandleEvent event = .ok r →
            (isCancellableEvent t && r.ShouldCancel) = false) →
          p ∈ (Dispatch (RefreshSubscriptions d plugins) event).invoked) ∧
    (∀ pre q post err, plugins = pre ++ q :: post → q.GetSubscribedEvents = .error err →
      ∀ t, subscribersOf (RefreshSubscriptions d plugins) t
        = subscribersOf (RefreshSubscriptions d (pre ++ post)) t) := by
  constructor
  · intro p hp hen events hev t ht
    have hmem : p ∈ subscribersOf (RefreshSubscriptions d plugins) t := by
      rw [subscribersOf_RefreshSubscriptions]
      simp only [subscriptionsFor, List.mem_flatMap]
      refine ⟨p, hp, ?_⟩
      simp only [hen, if_true, hev, List.mem_map, List.mem_filter, decide_eq_true_eq]
      exact ⟨t, ⟨ht, rfl⟩, trivial⟩
    refine ⟨hmem, ?_, ?_⟩
    · simp only [HasSubscribers, List.any_eq_true]
      exact ⟨p, hmem, hen⟩
    · intro event hty pre post hsplit hpre
      rw [Dispatch_eq_loop, hty, hsplit, dispatchLoop_append _ _ _ _ hpre]
      obtain ⟨tr, h⟩ := dispatchLoop_head_invoked (isCancellableEvent t) event p post
        (dispatchLoop (isCancellableEvent t) event pre { result := emptyResult, invoked := [] })
        hen
      rw [h]
      simp
  · intro pre q post err hsplit hq t
    rw [subscribersOf_RefreshSubscriptions, subscribersOf_RefreshSubscriptions, hsplit]
    simp [subscriptionsFor, hq]

/-- C12 at three plugins, the second of which fails to list its events: the third is
a subscriber of `SERVER_PRE_START` and is called after the first. -/
theorem refresh_subscribes_witness :
    guestSubscribed "C" [EventType.SERVER_PRE_START]
        ∈ subscribersOf (RefreshSubscriptions NewDispatcher
            [guestSubscribed "A" [EventType.SERVER_PRE_START], guestUnlisted "B" "boom",
             guestSubscribed "C" [EventType.SERVER_PRE_START]]) EventType.SERVER_PRE_START ∧
    HasSubscribers (RefreshSubscriptions NewDispatcher
        [guestSubscribed "A" [EventType.SERVER_PRE_START], guestUnlisted "B" "boom",
         guestSubscribed "C" [EventType.SERVER_PRE_START]]) EventType.SERVER_PRE_START = true ∧
    guestSubscribed "C" [EventType.SERVER_PRE_START]
        ∈ (Dispatch (RefreshSubscriptions NewDispatcher
            [guestSubscribed "A" [EventType.SERVER_PRE_START], guestUnlisted "B" "boom",
             guestSubscribed "C" [EventType.SERVER_PRE_START]])
            ⟨EventType.SERVER_PRE_START, 0⟩).invoked ∧
    subscribersOf (RefreshSubscriptions NewDispatcher
        [guestSubscribed "A" [EventType.SERVER_PRE_START], guestUnlisted "B" "boom",
         guestSubscribed "C" [EventType.SERVER_PRE_START]]) EventType.SERVER_PRE_START
      = subscribersOf (RefreshSubscriptions NewDispatcher
        ([guestSubscribed "A" [EventType.SERVER_PRE_START]] ++
         [guestSubscribed "C" [EventType.SERVER_PRE_START]])) EventType.SERVER_PRE_START :=
  have h := (refresh_subscribes NewDispatcher
    [guestSubscribed "A" [EventType.SERVER_PRE_START], guestUnlisted "B" "boom",
     guestSubscribed "C" [EventType.SERVER_PRE_START]]).1
    (guestSubscribed "C" [EventType.SERVER_PRE_START]) (by simp) rfl
    [EventType.SERVER_PRE_START] rfl EventType.SERVER_PRE_START (by simp)
  ⟨h.1, h.2.1, h.2.2 ⟨EventType.SERVER_PRE_START, 0⟩ rfl
    [guestSubscribed "A" [EventType.SERVER_PRE_START]] [] rfl
    (by
      intro q hq _ r hr
      simp only [List.mem_singleton] at hq
      subst hq
      simp only [guestSubscribed] at hr
      cases hr
      simp),
    (refresh_subscribes NewDispatcher
      [guestSubscribed "A" [EventType.SERVER_PRE_START], guestUnlisted "B" "boom",
       guestSubscribed "C" [EventType.SERVER_PRE_START]]).2
      [guestSubscribed "A" [EventType.SERVER_PRE_START]] (guestUnlisted "B" "boom")
      [guestSubscribed "C" [EventType.SERVER_PRE_START]] "boom" rfl rfl
      EventType.SERVER_PRE_START⟩

/-! ## Theorems: the merged data of a dispatch -/

theorem GoMap.get_eq_none_of_not_mem_keys {κ ν : Type} [DecidableEq κ] (m : GoMap κ ν) (k : κ)
    (h : k ∉ GoMap.keys m) : GoMap.get m k = none := by
  induction m with
  | nil => rfl
  | cons kv m ih =>
    obtain ⟨k₀, v₀⟩ := kv
    simp only [GoMap.keys, List.map_cons, List.mem_cons, not_or] at h
    have h1 : ¬ k₀ = k := fun e => h.1 e.symm
    simp only [GoMap.get, h1, if_false]
    exact ih h.2

/-- The call `maps.Copy(dst, src)` on a lookup, for a source that holds no key twice. -/
theorem get_mapsCopy {κ ν : Type} [DecidableEq κ] (dst src : GoMap κ ν) (k : κ)
    (hsrc : (GoMap.keys src).Nodup) :
    GoMap.get (mapsCopy dst src) k =
      match GoMap.get src k with
      | some v => some v
      | none => GoMap.get dst k := by
  induction src generalizing dst with
  | nil => simp [mapsCopy, GoMap.get]
  | cons kv src ih =>
    obtain ⟨k₀, v₀⟩ := kv
    simp only [GoMap.keys, List.map_cons, List.nodup_cons] at hsrc
    have ih2 := ih (GoMap.set dst k₀ v₀) hsrc.2
    simp only [mapsCopy, List.foldl_cons] at ih2 ⊢
    rw [ih2, GoMap.get_set]
    by_cases h : k₀ = k
    · subst h
      rw [GoMap.get_eq_none_of_not_mem_keys src k₀ hsrc.1]
      simp [GoMap.get]
    · simp [GoMap.get, h]

theorem lastWriterWins_foldl (maps : List (GoMap String String)) (k : String)
    (acc : Option String) :
    maps.foldl (fun acc m => match GoMap.get m k with
      | some v => some v
      | none => acc) acc =
      match lastWriterWins maps k with
      | some v => some v
      | none => acc := by
  unfold lastWriterWins
  induction maps generalizing acc with
  | nil => rfl
  | cons m maps ih =>
    simp only [List.foldl_cons]
    rw [ih, ih (match GoMap.get m k with
      | some v => some v
      | none => none)]
    cases List.foldl (fun acc m => match GoMap.get m k with
      | some v => some v
      | none => acc) none maps <;> cases GoMap.get m k <;> rfl

theorem lastWriterWins_cons (m : GoMap String String) (maps : List (GoMap String String))
    (k : String) :
    lastWriterWins (m :: maps) k =
      match lastWriterWins maps k with
      | some v => some v
      | none => GoMap.get m k := by
  have h := lastWriterWins_foldl maps k (match GoMap.get m k with
      | some v => some v
      | none => none)
  have h' : lastWriterWins (m :: maps) k = maps.foldl (fun acc m => match GoMap.get m k with
      | some v => some v
      | none => acc) (match GoMap.get m k with
      | some v => some v
      | none => none) := rfl
  rw [h', h]
  cases lastWriterWins maps k <;> cases GoMap.get m k <;> rfl

/-- The merged data after the loop: the calls it adds, and for every key the value of
the last of those calls that returned it without error and without cancelling, else
the value the record held before. -/
theorem dispatchLoop_ModifiedData (c : Bool) (event : Event) (subs : List LoadedPlugin)
    (hmaps : ∀ q ∈ subs, ∀ r, q.HandleEvent event = .ok r → (GoMap.keys r.ModifiedData).Nodup)
    (run : DispatchRun) :
    ∃ tr, (dispatchLoop c event subs run).invoked = run.invoked ++ tr ∧
      ∀ k, GoMap.get (dispatchLoop c event subs run).result.ModifiedData k =
        match lastWriterWins (tr.filterMap (mergedData c event)) k with
        | some v => some v
        | none => GoMap.get run.result.ModifiedData k := by
  induction subs generalizing run with
  | nil => exact ⟨[], by simp [dispatchLoop], by simp [dispatchLoop, lastWriterWins]⟩
  | cons q subs ih =>
    have ih2 := ih (fun q' hq' => hmaps q' (List.mem_cons_of_mem _ hq'))
    have hq := hmaps q (List.mem_cons_self _ _)
    simp only [dispatchLoop]
    cases hen : q.Enabled with
    | false => simpa using ih2 run
    | true =>
      simp only [Bool.not_true, Bool.false_eq_true, if_false]
      cases hres : q.HandleEvent event with
      | error err =>
        obtain ⟨tr, h1, h2⟩ := ih2
          { result :=
              { run.result with
                Errors := run.result.Errors ++ [wrapHandleError err q.InfoId] }
            invoked := run.invoked ++ [q] }
        refine ⟨q :: tr, by simpa using h1, ?_⟩
        intro k
        rw [h2 k]
        simp [List.filterMap_cons, mergedData, hres]
      | ok r =>
        simp only []
        by_cases hc : (c && r.ShouldCancel) = true
        · rw [if_pos hc]
          refine ⟨[q], rfl, ?_⟩
          intro k
          have hm : mergedData c event q = none := by
            simp only [mergedData, hres]
            rw [if_pos hc]
          simp only [List.filterMap_cons, hm, List.filterMap_nil, lastWriterWins, List.foldl_nil]
          split_ifs <;> rfl
        · rw [if_neg hc]
          obtain ⟨tr, h1, h2⟩ := ih2
            { result :=
                { (if r.Handled then
                      { run.result with HandledBy := run.result.HandledBy ++ [q.InfoId] }
                    else run.result) with
                  ModifiedData := mapsCopy
                    (if r.Handled then
                      { run.result with HandledBy := run.result.HandledBy ++ [q.InfoId] }
                    else run.result).ModifiedData r.ModifiedData }
              invoked := run.invoked ++ [q] }
          refine ⟨q :: tr, by simpa using h1, ?_⟩
          intro k
          rw [h2 k]
          have hm : mergedData c event q = some r.ModifiedData := by
            simp only [mergedData, hres]
            rw [if_neg hc]
          simp only [List.filterMap_cons, hm, lastWriterWins_cons]
          have hdata : (if r.Handled then
                      { run.result with HandledBy := run.result.HandledBy ++ [q.InfoId] }
                    else run.result).ModifiedData = run.result.ModifiedData := by
            split_ifs <;> rfl
          simp only [hdata]
          rw [get_mapsCopy _ _ _ (hq r hres)]
          cases lastWriterWins (List.filterMap (mergedData c event) tr) k <;>
            cases GoMap.get r.ModifiedData k <;> rfl

/-- C13, as stated, fails: of two subscribers of `SERVER_PRE_START`, the first returns
`k = 1` and the second returns `k = 2`, `j = 3` and asks to cancel. Both are called and
return a result without error, and the merge of their data holds `k = 2` and `j = 3`;
the merged data of the dispatch holds `k = 1` and no `j`. -/
theorem dispatch_data_of_cancelling_guest_dropped :
    (Dispatch (dispatcherOf EventType.SERVER_PRE_START
        [guestWrites "A" [("k", "1")], guestWritesAndVetoes "B" [("k", "2"), ("j", "3")]])
        ⟨EventType.SERVER_PRE_START, 0⟩).invoked.map (fun p => p.InfoId) = ["A", "B"] ∧
    GoMap.get (Dispatch (dispatcherOf EventType.SERVER_PRE_START
        [guestWrites "A" [("k", "1")], guestWritesAndVetoes "B" [("k", "2"), ("j", "3")]])
        ⟨EventType.SERVER_PRE_START, 0⟩).result.ModifiedData "k" = some "1" ∧
    lastWriterWins ((Dispatch (dispatcherOf EventType.SERVER_PRE_START
        [guestWrites "A" [("k", "1")], guestWritesAndVetoes "B" [("k", "2"), ("j", "3")]])
        ⟨EventType.SERVER_PRE_START, 0⟩).invoked.filterMap
          (returnedData ⟨EventType.SERVER_PRE_START, 0⟩)) "k" = some "2" ∧
    GoMap.get (Dispatch (dispatcherOf EventType.SERVER_PRE_START
        [guestWrites "A" [("k", "1")], guestWritesAndVetoes "B" [("k", "2"), ("j", "3")]])
        ⟨EventType.SERVER_PRE_START, 0⟩).result.ModifiedData "j" = none ∧
    lastWriterWins ((Dispatch (dispatcherOf EventType.SERVER_PRE_START
        [guestWrites "A" [("k", "1")], guestWritesAndVetoes "B" [("k", "2"), ("j", "3")]])
        ⟨EventType.SERVER_PRE_START, 0⟩).invoked.filterMap
          (returnedData ⟨EventType.SERVER_PRE_START, 0⟩)) "j" = some "3" := by
  decide

/-- C13, amended. The merged data of a `Dispatch` is the last-writer-wins merge, in
dispatch order, of the modified data of the guests that were called, returned a result
without error and did not cancel the dispatch: every key has the value of the last
such guest that returned it, and no other key is present. The maps of the guests are
Go maps, which hold no key twice. -/
theorem dispatch_modified_data (d : Dispatcher) (event : Event)
    (hmaps : ∀ q ∈ subscribersOf d event.Typ, ∀ r, q.HandleEvent event = .ok r →
      (GoMap.keys r.ModifiedData).Nodup) (k : String) :
    GoMap.get (Dispatch d event).result.ModifiedData k =
      lastWriterWins ((Dispatch d event).invoked.filterMap
        (mergedData (isCancellableEvent event.Typ) event)) k := by
  rw [Dispatch_eq_loop]
  obtain ⟨tr, h1, h2⟩ := dispatchLoop_ModifiedData (isCancellableEvent event.Typ) event
    (subscribersOf d event.Typ) hmaps { result := emptyResult, invoked := [] }
  rw [h2 k, h1]
  simp only [List.nil_append, emptyResult, GoMap.get]
  cases lastWriterWins (List.filterMap (mergedData (isCancellableEvent event.Typ) event) tr) k <;>
    rfl

/-- C13, amended, at the two subscribers above with a third one after them, for an
event that cannot be cancelled: all three are merged. -/
theorem dispatch_modified_data_witness :
    GoMap.get (Dispatch (dispatcherOf EventType.SERVER_POST_START
        [guestWrites "A" [("k", "1")], guestWritesAndVetoes "B" [("k", "2"), ("j", "3")],
         guestWrites "C" [("j", "4")]])
        ⟨EventType.SERVER_POST_START, 0⟩).result.ModifiedData "k" =
      lastWriterWins ((Dispatch (dispatcherOf EventType.SERVER_POST_START
        [guestWrites "A" [("k", "1")], guestWritesAndVetoes "B" [("k", "2"), ("j", "3")],
         guestWrites "C" [("j", "4")]])
        ⟨EventType.SERVER_POST_START, 0⟩).invoked.filterMap
        (mergedData (isCancellableEvent EventType.SERVER_POST_START)
          ⟨EventType.SERVER_POST_START, 0⟩)) "k" :=
  dispatch_modified_data (dispatcherOf EventType.SERVER_POST_START
      [guestWrites "A" [("k", "1")], guestWritesAndVetoes "B" [("k", "2"), ("j", "3")],
       guestWrites "C" [("j", "4")]]) ⟨EventType.SERVER_POST_START, 0⟩
    (by
      intro q hq r hr
      have hq' : q = guestWrites "A" [("k", "1")] ∨
          q = guestWritesAndVetoes "B" [("k", "2"), ("j", "3")] ∨
          q = guestWrites "C" [("j", "4")] := by
        simpa [subscribersOf, dispatcherOf, GoMap.get] using hq
      rcases hq' with h | h | h <;> subst h <;>
        simp only [guestWrites, guestWritesAndVetoes] at hr <;> cases hr <;>
        simp [GoMap.keys])
    "k"

/-! ## Theorems: the codec and its description -/

/-- The definitions in the words of the description give the published values: the
FNV-1a hashes of the empty string, of `a` and of `foobar`, and the base-32 test
vectors of RFC 4648 in the lower-case alphabet. -/
theorem spec_codec_vectors :
    fnv1a64 (stringBytes "") = 0xcbf29ce484222325 ∧
    fnv1a64 (stringBytes "a") = 0xaf63dc4c8601ec8c ∧
    fnv1a64 (stringBytes "foobar") = 0x85944171f73967e8 ∧
    base32Decoded "my" = some (stringBytes "f") ∧
    base32Decoded "mzxq" = some (stringBytes "fo") ∧
    base32Decoded "mzxw6" = some (stringBytes "foo") ∧
    base32Decoded "mzxw6yq" = some (stringBytes "foob") ∧
    base32Decoded "mzxw6ytb" = some (stringBytes "fooba") ∧
    base32Decoded "mzxw6ytboi" = some (stringBytes "foobar") ∧
    base32Decoded "MY" = none := by
  refine ⟨?_, ?_, ?_, ?_, ?_, ?_, ?_, ?_, ?_, ?_⟩ <;> decide

theorem putUint64_eq_bigEndian8 (n : Nat) : putUint64 n = bigEndian8 n := by
  simp [putUint64, bigEndian8, List.range_succ]

/-- The loop of `CompactPluginID` removes the leading zero bytes and keeps the last
byte when all bytes are zero. -/
theorem skipLeadingZeros_eq_strip (l : List Nat) :
    skipLeadingZeros l = stripLeadingZeroBytes l := by
  induction l with
  | nil => rfl
  | cons b l ih =>
    cases l with
    | nil =>
      by_cases hb : b = 0 <;> simp [skipLeadingZeros, stripLeadingZeroBytes, List.dropWhile, hb]
    | cons b' rest =>
      by_cases hb : b = 0
      · simp only [skipLeadingZeros, hb, if_true]
        rw [ih]
        simp only [stripLeadingZeroBytes, List.dropWhile_cons, decide_True, if_true,
          List.length_cons, Nat.add_sub_cancel]
        cases hd : List.dropWhile (fun b => decide (b = 0)) (b' :: rest) with
        | nil =>
          simp only [List.dropWhile_cons] at hd
          rw [hd]
          simp
        | cons x xs =>
          simp only [List.dropWhile_cons] at hd
          rw [hd]
      · simp [skipLeadingZeros, stripLeadingZeroBytes, List.dropWhile, hb]

/-- C15. For every ID, `CompactPluginID` is the unpadded base-32 encoding, alphabet
`a`-`z`, `2`-`7`, of the 8-byte big-endian representation of the ID without its
leading zero bytes, one byte being kept always: 0 gives `"aa"`, 1 gives `"ae"` and
`2^64 - 1` gives `"7777777777776"`. -/
theorem compact_plugin_id_form :
    (∀ n, CompactPluginID n = CompactPluginIDSpec n) ∧
    CompactPluginID 0 = "aa" ∧ CompactPluginID 1 = "ae" ∧
    CompactPluginID (2 ^ 64 - 1) = "7777777777776" := by
  refine ⟨fun n => ?_, by decide, by decide, by decide⟩
  unfold CompactPluginID CompactPluginIDSpec
  rw [skipLeadingZeros_eq_strip, putUint64_eq_bigEndian8]

/-! ## Theorems: pagination -/

/-- C16 fails at a limit of `math.MaxInt` with offset 1 on a repository of two
entries: without pagination `Find` returns the entries with IDs 1 and 2, so the slice
from offset 1 holds the entry with ID 2; with the pagination the sum `offset + limit`
wraps around to a negative number and the slice expression `entries[offset:end]`
panics. -/
theorem find_pagination_overflow_panics (DefaultLimit : Int) :
    (Find DefaultLimit twoEntries none [] none).map (fun l => l.map (fun e => e.ID))
      = some [1, 2] ∧
    Find DefaultLimit twoEntries none [] (some { Limit := maxInt64, Offset := 1 }) = none := by
  have hsorted : sortEntries
      ((getFilteredEntryIDs twoEntries
          (some { IDs := [], PluginIDs := [], Keys := [], EntityPairs := [] })).filterMap
        (fun entryID => twoEntries.entries.get entryID)) []
      = [⟨1, 1, "a", none, none, [1], some 10, some 10⟩,
         ⟨2, 1, "b", none, none, [2], some 11, some 11⟩] := by
    decide
  constructor
  · simp only [Find, hsorted, applyPagination]
    rfl
  · simp only [Find, hsorted, applyPagination, show ¬ (maxInt64 ≤ 0) from by decide, if_false]
    decide

/-- Where the sum of offset and limit does not overflow, `applyPagination` returns the
slice `[o, min (o + l) m)` of the `m` entries. -/
theorem applyPagination_slice (DefaultLimit : Int) (entries : List PluginStorageEntry)
    (p : Pagination) (hlim : 0 < pageLimit DefaultLimit p)
    (hsum : (pageOffset p : Int) + pageLimit DefaultLimit p < 2 ^ 63) :
    applyPagination DefaultLimit entries (some p)
      = some ((entries.drop (pageOffset p)).take (pageLimit DefaultLimit p).toNat) := by
  have ho : ((pageOffset p : Nat) : Int) = max p.Offset 0 := by
    unfold pageOffset
    exact Int.toNat_of_nonneg (le_max_right _ _)
  have hadd : addInt64 (max p.Offset 0) (pageLimit DefaultLimit p)
      = max p.Offset 0 + pageLimit DefaultLimit p := by
    unfold addInt64
    rw [← ho]
    have h0 : (0 : Int) ≤ (pageOffset p : Int) := Int.ofNat_nonneg _
    omega
  simp only [applyPagination]
  show (if max p.Offset 0 ≥ (entries.length : Int) then some []
    else if max p.Offset 0 ≤ min (addInt64 (max p.Offset 0) (pageLimit DefaultLimit p))
        (entries.length : Int) then
      some ((entries.drop (max p.Offset 0).toNat).take
        (min (addInt64 (max p.Offset 0) (pageLimit DefaultLimit p)) (entries.length : Int)
          - max p.Offset 0).toNat)
    else none) = _
  rw [hadd]
  by_cases hge : max p.Offset 0 ≥ (entries.length : Int)
  · rw [if_pos hge]
    have hdrop : entries.drop (pageOffset p) = [] := by
      apply List.drop_eq_nil_of_le
      have : (entries.length : Int) ≤ (pageOffset p : Int) := by rw [ho]; exact hge
      exact_mod_cast this
    rw [hdrop]
    simp
  · rw [if_neg hge]
    have hle : max p.Offset 0 ≤ min (max p.Offset 0 + pageLimit DefaultLimit p)
        (entries.length : Int) := by
      rw [le_min_iff]
      constructor <;> omega
    rw [if_pos hle]
    congr 1
    refine List.take_eq_take.2 ?_
    simp only [List.length_drop]
    have h1 : (max p.Offset 0).toNat = pageOffset p := rfl
    rw [h1]
    have h2 : (pageOffset p : Int) < (entries.length : Int) := by rw [ho]; omega
    rw [← ho]
    omega

/-- While the indices are in step and `offset + limit` does not overflow, `Find` with
no sort order returns the slice `[o, min (o + l) m)` of the `m` entries that pass the
filter, listed in strictly ascending order of their IDs. -/
theorem Find_paginated (DefaultLimit : Int) (r : PluginStorageRepository) (hs : Synced r)
    (f : FindPluginStorage) (p : Pagination) (hlim : 0 < pageLimit DefaultLimit p)
    (hsum : (pageOffset p : Int) + pageLimit DefaultLimit p < 2 ^ 63) :
    ∃ all, Find DefaultLimit r (some f) [] none = some all ∧
      all.Pairwise (fun a b => a.ID < b.ID) ∧
      (∀ e, e ∈ all ↔ r.entries.get e.ID = some e ∧ filterMatches f e) ∧
      Find DefaultLimit r (some f) [] (some p)
        = some ((all.drop (pageOffset p)).take (pageLimit DefaultLimit p).toNat) := by
  obtain ⟨all, hall, hnodup, hmem⟩ := Find_unpaginated DefaultLimit r hs f []
  refine ⟨all, hall, ?_, hmem, ?_⟩
  · have hsorted : all.Pairwise (fun a b => ¬ (b.ID < a.ID)) := by
      have h : all = sortEntries ((getFilteredEntryIDs r (some f)).filterMap
          (fun entryID => r.entries.get entryID)) [] := by
        have h' := hall
        simp only [Find, applyPagination, Option.some.injEq] at h'
        exact h'.symm
      rw [h]
      simp only [sortEntries, List.length_nil, if_true]
      haveI : IsTotal PluginStorageEntry (fun a b => ¬ (b.ID < a.ID)) :=
        ⟨fun a b => by
          simp only [not_lt]
          exact le_total a.ID b.ID⟩
      haveI : IsTrans PluginStorageEntry (fun a b => ¬ (b.ID < a.ID)) :=
        ⟨fun a b c hab hbc => by
          simp only [not_lt] at hab hbc ⊢
          exact le_trans hab hbc⟩
      exact List.sorted_insertionSort _ _
    have hboth := hsorted.and hnodup
    have hmem' : all.Pairwise (fun a b => a ∈ all ∧ b ∈ all) := by
      rw [List.pairwise_iff_forall_sublist]
      intro a b hab
      exact ⟨hab.subset (by simp), hab.subset (by simp)⟩
    refine (hboth.and hmem').imp ?_
    rintro a b ⟨⟨hle, hne⟩, ha, hb⟩
    have ha' := (hmem a).1 ha
    have hb' := (hmem b).1 hb
    rcases Nat.lt_or_ge a.ID b.ID with hlt | hge
    · exact hlt
    · exfalso
      have heq : a.ID = b.ID := by omega
      apply hne
      have h1 := ha'.1
      rw [heq, hb'.1] at h1
      cases h1
      rfl
  · have h' := hall
    simp only [Find] at h' ⊢
    simp only [applyPagination, Option.some.injEq] at h'
    rw [h', applyPagination_slice DefaultLimit all p hlim hsum]

/-! ## Theorems: `Delete` -/

theorem GoMap.delete_of_get_none {κ ν : Type} [DecidableEq κ] (m : GoMap κ ν) (k : κ)
    (h : GoMap.get m k = none) : GoMap.delete m k = m := by
  induction m with
  | nil => rfl
  | cons kv m ih =>
    obtain ⟨k₀, v₀⟩ := kv
    by_cases h0 : k₀ = k
    · simp [GoMap.get, h0] at h
    · simp only [GoMap.get, h0, if_false] at h
      have ih' := ih h
      simp only [GoMap.delete] at ih' ⊢
      rw [List.filter_cons, if_pos (by simpa using h0), ih']

/-- C17. `Delete` returns no error. Afterwards no entry is stored under the ID and
every entry stored under another ID is as before; and when no entry was stored under
the ID, the whole state, primary map and indices, is as before. -/
theorem delete_effect (r : PluginStorageRepository) (id : Nat) :
    (DeleteResult r id).2 = none ∧
    (DeleteResult r id).1.entries.get id = none ∧
    (∀ k, k ≠ id → (DeleteResult r id).1.entries.get k = r.entries.get k) ∧
    (r.entries.get id = none → (DeleteResult r id).1 = r) := by
  refine ⟨rfl, ?_, ?_, ?_⟩
  · show (Delete r id).entries.get id = none
    rw [Delete_entries]
    simp
  · intro k hk
    show (Delete r id).entries.get k = r.entries.get k
    rw [Delete_entries, if_neg (fun h => hk h.symm)]
  · intro h
    show Delete r id = r
    unfold Delete
    simp only [h]
    rw [GoMap.delete_of_get_none _ _ h]

/-- C17 at the repository of two entries: deleting ID 2 leaves the entry under ID 1,
and deleting ID 7, which is not stored, leaves the state as it is. -/
theorem delete_effect_witness :
    (DeleteResult twoEntries 2).1.entries.get 1 = twoEntries.entries.get 1 ∧
    (DeleteResult twoEntries 7).1 = twoEntries :=
  ⟨(delete_effect twoEntries 2).2.2.1 1 (by decide),
    (delete_effect twoEntries 7).2.2.2 (by decide)⟩

/-! ## Theorems: `HasSubscribers` and `Dispatch` -/

/-- The loop over subscribers none of which is enabled changes nothing. -/
theorem dispatchLoop_all_disabled (c : Bool) (event : Event) (subs : List LoadedPlugin)
    (run : DispatchRun) (h : ∀ q ∈ subs, q.Enabled = false) :
    dispatchLoop c event subs run = run := by
  induction subs with
  | nil => rfl
  | cons q subs ih =>
    simp only [dispatchLoop, h q (List.mem_cons_self _ _), Bool.not_false, if_true]
    exact ih (fun q' hq' => h q' (List.mem_cons_of_mem _ hq'))

/-- The loop that calls no guest has no enabled subscriber to go through. -/
theorem dispatchLoop_invoked_nil (c : Bool) (event : Event) (subs : List LoadedPlugin)
    (run : DispatchRun) (h : (dispatchLoop c event subs run).invoked = []) :
    ∀ q ∈ subs, q.Enabled = false := by
  induction subs with
  | nil => simp
  | cons q subs ih =>
    cases hen : q.Enabled with
    | true =>
      obtain ⟨tr, htr⟩ := dispatchLoop_head_invoked c event q subs run hen
      rw [htr] at h
      simp at h
    | false =>
      simp only [dispatchLoop, hen, Bool.not_false, if_true] at h
      intro q' hq'
      rcases List.mem_cons.1 hq' with rfl | hq''
      · exact hen
      · exact ih h q' hq''

/-- C18. `HasSubscribers` is false for the type of an event exactly when `Dispatch` of
the event calls no guest, and then `Dispatch` returns the empty result: not cancelled,
nothing handled, no data, no errors. -/
theorem has_subscribers_iff_dispatch_invokes (d : Dispatcher) (event : Event) :
    (HasSubscribers d event.Typ = false ↔ (Dispatch d event).invoked = []) ∧
    (HasSubscribers d event.Typ = false → (Dispatch d event).result = emptyResult) := by
  have hall : HasSubscribers d event.Typ = false ↔
      ∀ q ∈ subscribersOf d event.Typ, q.Enabled = false := by
    simp [HasSubscribers, List.any_eq_false]
  rw [Dispatch_eq_loop]
  refine ⟨⟨fun h => ?_, fun h => ?_⟩, fun h => ?_⟩
  · rw [dispatchLoop_all_disabled _ _ _ _ (hall.1 h)]
  · exact hall.2 (dispatchLoop_invoked_nil _ _ _ _ h)
  · rw [dispatchLoop_all_disabled _ _ _ _ (hall.1 h)]

/-- C18 at a dispatcher whose only subscriber is disabled. -/
theorem has_subscribers_iff_dispatch_invokes_witness :
    HasSubscribers
        (dispatcherOf EventType.SERVER_PRE_STOP [{ guestVetoes "A" "no" with Enabled := false }])
        EventType.SERVER_PRE_STOP = false ∧
    (Dispatch
        (dispatcherOf EventType.SERVER_PRE_STOP [{ guestVetoes "A" "no" with Enabled := false }])
        ⟨EventType.SERVER_PRE_STOP, 0⟩).invoked = [] ∧
    (Dispatch
        (dispatcherOf EventType.SERVER_PRE_STOP [{ guestVetoes "A" "no" with Enabled := false }])
        ⟨EventType.SERVER_PRE_STOP, 0⟩).result = emptyResult :=
  ⟨rfl,
    (has_subscribers_iff_dispatch_invokes
      (dispatcherOf EventType.SERVER_PRE_STOP [{ guestVetoes "A" "no" with Enabled := false }])
      ⟨EventType.SERVER_PRE_STOP, 0⟩).1.1 rfl,
    (has_subscribers_iff_dispatch_invokes
      (dispatcherOf EventType.SERVER_PRE_STOP [{ guestVetoes "A" "no" with Enabled := false }])
      ⟨EventType.SERVER_PRE_STOP, 0⟩).2 rfl⟩

/-! ## Theorems: the cache service -/

theorem String.append_right_cancel (a b k : String) (h : a ++ k = b ++ k) : a = b := by
  have h' := congrArg String.data h
  simp only [String.data_append] at h'
  exact String.ext (List.append_cancel_right h')

/-- The backend state after `Set` through the service is the backend state after the
`Set` of the backend at the prefixed key. -/
theorem CacheServiceImpl.Set_state {σ : Type} (s : CacheServiceImpl σ) (st : σ) (key : String)
    (value : List Nat) (ttlSeconds : Int) :
    (s.Set st key value ttlSeconds).1 =
      (s.cache.Set st (s.prefixedKey key) (CacheValue.bytes value)
        (if ttlSeconds > 0 then some (mulInt64 ttlSeconds 1000000000) else none)).1 := by
  unfold CacheServiceImpl.Set
  simp only []
  rcases s.cache.Set st (s.prefixedKey key) (CacheValue.bytes value)
    (if ttlSeconds > 0 then some (mulInt64 ttlSeconds 1000000000) else none) with ⟨st', _ | err⟩
  · rfl
  · rfl

/-- C19. Two cache services with distinct key prefixes, over one backend in which a
`Set` at one key leaves the `Get` at every other key as it was: for every guest key
the two backend keys differ, and a `Set` of the key through the first service does not
change what a `Get` of the key through the second returns. -/
theorem cache_prefix_isolation {σ : Type} (c : Cache σ) (p₁ p₂ : String) (hne : p₁ ≠ p₂)
    (hframe : ∀ st key value opts key', key' ≠ key →
      c.Get (c.Set st key value opts).1 key' = c.Get st key')
    (k : String) (st : σ) (value : List Nat) (ttlSeconds : Int) :
    (NewCacheService c p₁).prefixedKey k ≠ (NewCacheService c p₂).prefixedKey k ∧
    (NewCacheService c p₂).Get ((NewCacheService c p₁).Set st k value ttlSeconds).1 k
      = (NewCacheService c p₂).Get st k := by
  have hkeys : (NewCacheService c p₂).prefixedKey k ≠ (NewCacheService c p₁).prefixedKey k := by
    intro h
    exact hne (String.append_right_cancel p₂ p₁ k h).symm
  refine ⟨fun h => hkeys h.symm, ?_⟩
  rw [CacheServiceImpl.Set_state]
  unfold CacheServiceImpl.Get
  have hc : (NewCacheService c p₁).cache = c := rfl
  have hc' : (NewCacheService c p₂).cache = c := rfl
  rw [hc, hc', hframe _ _ _ _ _ hkeys]

/-- C19 at the map backend with the prefixes `"p1:"` and `"p2:"`: after the second
service has set `k`, a `Set` of `k` through the first leaves its value in place. -/
theorem cache_prefix_isolation_witness :
    (NewCacheService mapCache "p1:").prefixedKey "k"
      ≠ (NewCacheService mapCache "p2:").prefixedKey "k" ∧
    (NewCacheService mapCache "p2:").Get
        ((NewCacheService mapCache "p1:").Set
          ((NewCacheService mapCache "p2:").Set [] "k" [2] 0).1 "k" [1] 60).1 "k"
      = (NewCacheService mapCache "p2:").Get
          ((NewCacheService mapCache "p2:").Set [] "k" [2] 0).1 "k" :=
  cache_prefix_isolation mapCache "p1:" "p2:" (by decide)
    (by
      intro st key value opts key' hk
      simp only [mapCache]
      rw [GoMap.get_set, if_neg (fun h => hk h.symm)])
    "k" ((NewCacheService mapCache "p2:").Set [] "k" [2] 0).1 [1] 60

/-! ## Theorems: reading a guest string -/

/-- C20 fails at a length field of 1: on every memory that starts with the bytes
`01 00 00 00 41` and the pointer 4, the header and the one byte of data are read
within the memory, and the decoding loop indexes `data[1]` of a one-byte slice, which
panics. -/
theorem read_string_odd_length_panics (rest : List Nat) :
    memRead (1 :: 0 :: 0 :: 0 :: 65 :: rest) ((4 + 2 ^ 32 - 4) % 2 ^ 32) 4 = some [1, 0, 0, 0] ∧
    memRead (1 :: 0 :: 0 :: 0 :: 65 :: rest) 4 1 = some [65] ∧
    readAssemblyScriptString (some (1 :: 0 :: 0 :: 0 :: 65 :: rest)) 4 = none := by
  have h1 : memRead (1 :: 0 :: 0 :: 0 :: 65 :: rest) ((4 + 2 ^ 32 - 4) % 2 ^ 32) 4
      = some [1, 0, 0, 0] := by
    simp [memRead]
  have h2 : memRead (1 :: 0 :: 0 :: 0 :: 65 :: rest) 4 1 = some [65] := by
    simp [memRead]
  refine ⟨h1, h2, ?_⟩
  unfold readAssemblyScriptString
  rw [if_neg (by decide)]
  dsimp only
  rw [h1]
  dsimp only
  have hlen : ([1, 0, 0, 0] : List Nat).getD 0 0 ||| (([1, 0, 0, 0] : List Nat).getD 1 0 <<< 8) |||
      (([1, 0, 0, 0] : List Nat).getD 2 0 <<< 16) ||| (([1, 0, 0, 0] : List Nat).getD 3 0 <<< 24)
      = 1 := by decide
  rw [hlen, if_neg (by decide), h2]
  rfl

theorem utf16LEToStringLoop_none (n : Nat) :
    ∀ data : List Nat, data.length ≤ n →
      (utf16LEToStringLoop data = none ↔ data.length % 2 = 1) := by
  induction n with
  | zero =>
    intro data h
    have : data = [] := List.length_eq_zero.mp (Nat.le_zero.mp h)
    subst this
    simp [utf16LEToStringLoop]
  | succ n ih =>
    intro data h
    rcases data with _ | ⟨low, _ | ⟨high, rest⟩⟩
    · simp [utf16LEToStringLoop]
    · simp [utf16LEToStringLoop]
    · simp only [List.length_cons] at h
      have ih' := ih rest (by omega)
      simp only [utf16LEToStringLoop, List.length_cons]
      cases hrest : utf16LEToStringLoop rest with
      | none =>
        have hodd : rest.length % 2 = 1 := ih'.1 hrest
        constructor
        · intro _
          omega
        · intro _
          rfl
      | some tail =>
        have hne : ¬ rest.length % 2 = 1 := fun h1 => by
          have := ih'.2 h1
          rw [hrest] at this
          cases this
        constructor
        · intro h1
          cases h1
        · intro h1
          omega

/-- The function `utf16LEToString` panics exactly on data of odd length. -/
theorem utf16LEToString_none (data : List Nat) :
    utf16LEToString data = none ↔ data.length % 2 = 1 := by
  unfold utf16LEToString
  by_cases h : data.length = 0
  · simp [h]
  · rw [if_neg h]
    exact utf16LEToStringLoop_none data.length data le_rfl

/-- The function `readAssemblyScriptString` panics only in the decoding loop, on data
of odd length that was read within the memory. -/
theorem readAssemblyScriptString_none (mem : Option (List Nat)) (ptr : Nat)
    (h : readAssemblyScriptString mem ptr = none) :
    ∃ m data byteLength, mem = some m ∧ memRead m ptr byteLength = some data ∧
      byteLength ≤ 1024 * 1024 ∧ data.length % 2 = 1 := by
  unfold readAssemblyScriptString at h
  by_cases h0 : ptr = 0
  · rw [if_pos h0] at h
    cases h
  · rw [if_neg h0] at h
    cases mem with
    | none => cases h
    | some m =>
      dsimp only at h
      cases hhdr : memRead m ((ptr + 2 ^ 32 - 4) % 2 ^ 32) 4 with
      | none =>
        rw [hhdr] at h
        cases h
      | some hdr =>
        rw [hhdr] at h
        dsimp only at h
        by_cases hbig : hdr.getD 0 0 ||| (hdr.getD 1 0 <<< 8) |||
            (hdr.getD 2 0 <<< 16) ||| (hdr.getD 3 0 <<< 24) > 1024 * 1024
        · rw [if_pos hbig] at h
          cases h
        · rw [if_neg hbig] at h
          cases hdata : memRead m ptr (hdr.getD 0 0 ||| (hdr.getD 1 0 <<< 8) |||
              (hdr.getD 2 0 <<< 16) ||| (hdr.getD 3 0 <<< 24)) with
          | none =>
            rw [hdata] at h
            cases h
          | some data =>
            rw [hdata] at h
            exact ⟨m, data, _, rfl, hdata, Nat.le_of_not_gt hbig,
              (utf16LEToString_none data).1 h⟩

/-! ## Theorems: the server mappers -/

theorem toInt32_of_fits (x : Int) (h1 : -2 ^ 31 ≤ x) (h2 : x < 2 ^ 31) : toInt32 x = x := by
  unfold toInt32
  omega

/-- C21, as stated, fails: a server port of `2^32 + 27015` and a query port of `2^31`
do not fit the signed 32-bit wire fields, and both mappers return a wire server, with
the port 27015 and the query port `-2^31`; neither has an error result. -/
theorem server_ports_wrap_silently :
    (convertServerToProto (sampleServer (2 ^ 32 + 27015) (some (2 ^ 31)) none)).ServerPort
      = 27015 ∧
    (convertServerToProto (sampleServer (2 ^ 32 + 27015) (some (2 ^ 31)) none)).QueryPort
      = some (-2 ^ 31) ∧
    (domainServerToProto (some (sampleServer (2 ^ 32 + 27015) (some (2 ^ 31)) none))).map
      (fun w => (w.ServerPort, w.QueryPort)) = some (27015, some (-2 ^ 31)) := by
  decide

/-- C21, amended. For every domain server both mappers return a wire server, and
return the same one. Each of `ServerPort`, `QueryPort` and `RconPort` is carried as the
Go conversion `int32` gives it: unchanged when it fits the signed 32-bit wire field,
reduced modulo `2^32` into that range otherwise; an absent port stays absent. -/
theorem server_ports_converted (s : Server) :
    domainServerToProto (some s) = some (convertServerToProto s) ∧
    (convertServerToProto s).ServerPort = toInt32 s.ServerPort ∧
    (convertServerToProto s).QueryPort = s.QueryPort.map toInt32 ∧
    (convertServerToProto s).RconPort = s.RconPort.map toInt32 ∧
    (-2 ^ 31 ≤ s.ServerPort ∧ s.ServerPort < 2 ^ 31 →
      (convertServerToProto s).ServerPort = s.ServerPort) ∧
    ((∀ p, s.QueryPort = some p → -2 ^ 31 ≤ p ∧ p < 2 ^ 31) →
      (convertServerToProto s).QueryPort = s.QueryPort) ∧
    ((∀ p, s.RconPort = some p → -2 ^ 31 ≤ p ∧ p < 2 ^ 31) →
      (convertServerToProto s).RconPort = s.RconPort) := by
  have hq : (convertServerToProto s).QueryPort = s.QueryPort.map toInt32 := by
    unfold convertServerToProto
    cases s.QueryPort <;> rfl
  have hr : (convertServerToProto s).RconPort = s.RconPort.map toInt32 := by
    unfold convertServerToProto
    cases s.RconPort <;> rfl
  refine ⟨rfl, rfl, hq, hr, fun h => toInt32_of_fits _ h.1 h.2, ?_, ?_⟩
  · intro h
    rw [hq]
    cases hp : s.QueryPort with
    | none => rfl
    | some p =>
      have := h p hp
      simp only [Option.map_some']
      rw [toInt32_of_fits p this.1 this.2]
  · intro h
    rw [hr]
    cases hp : s.RconPort with
    | none => rfl
    | some p =>
      have := h p hp
      simp only [Option.map_some']
      rw [toInt32_of_fits p this.1 this.2]

/-- C21, amended, at a server with port 27015, query port 27016 and no RCON port. -/
theorem server_ports_converted_witness :
    (convertServerToProto (sampleServer 27015 (some 27016) none)).ServerPort = 27015 ∧
    (convertServerToProto (sampleServer 27015 (some 27016) none)).QueryPort = some 27016 ∧
    (convertServerToProto (sampleServer 27015 (some 27016) none)).RconPort = none :=
  ⟨(server_ports_converted (sampleServer 27015 (some 27016) none)).2.2.2.2.1
      ⟨by decide, by decide⟩,
    (server_ports_converted (sampleServer 27015 (some 27016) none)).2.2.2.2.2.1
      (by
        intro p hp
        have : p = 27016 := by
          have h : (sampleServer 27015 (some 27016) none).QueryPort = some 27016 := rfl
          rw [h] at hp
          exact (Option.some.inj hp).symm
        subst this
        exact ⟨by decide, by decide⟩),
    (server_ports_converted (sampleServer 27015 (some 27016) none)).2.2.2.2.2.2
      (by
        intro p hp
        have h : (sampleServer 27015 (some 27016) none).RconPort = none := rfl
        rw [h] at hp
        cases hp)⟩

/-! ## Theorems: the entity-type mappers -/

/-- C22, as stated, fails at the empty domain string: it is none of the seven entity
types, and `entityTypeToProtoPtr` maps it to the wire value `UNSPECIFIED`, which is
present, not to the absent value. -/
theorem empty_entity_type_maps_to_unspecified :
    "" ∉ namedEntityTypes ∧
    entityTypeToProtoPtr (some "") = some ProtoEntityType.ENTITY_TYPE_UNSPECIFIED := by
  decide

theorem entityTypeToProto_none_of_not_named (s : String) (h0 : s ≠ "")
    (h : s ∉ namedEntityTypes) : entityTypeToProto s = none := by
  simp only [namedEntityTypes, List.mem_cons, List.mem_singleton, List.not_mem_nil, or_false,
    not_or] at h
  obtain ⟨h1, h2, h3, h4, h5, h6, h7⟩ := h
  unfold entityTypeToProto
  rw [if_neg h0, if_neg h1, if_neg h2, if_neg h3, if_neg h4, if_neg h5, if_neg h6, if_neg h7]

/-- C22, amended. On the seven wire types and the seven domain strings that name an
entity the two mappers are mutually inverse. An absent, `UNSPECIFIED` or unknown wire
value maps to an absent domain string. An absent domain string, and every domain
string that is neither empty nor one of the seven, maps to an absent wire value; the
empty domain string maps to the wire value `UNSPECIFIED`. -/
theorem entity_type_mappers :
    (∀ t ∈ namedWireTypes, entityTypeToProtoPtr (entityTypeFromProto (some t)) = some t) ∧
    (∀ s ∈ namedEntityTypes, entityTypeFromProto (entityTypeToProtoPtr (some s)) = some s) ∧
    entityTypeFromProto none = none ∧
    entityTypeFromProto (some ProtoEntityType.ENTITY_TYPE_UNSPECIFIED) = none ∧
    (∀ code, entityTypeFromProto (some (ProtoEntityType.OTHER code)) = none) ∧
    entityTypeToProtoPtr none = none ∧
    (∀ s, s ≠ "" → s ∉ namedEntityTypes → entityTypeToProtoPtr (some s) = none) ∧
    entityTypeToProtoPtr (some "") = some ProtoEntityType.ENTITY_TYPE_UNSPECIFIED := by
  refine ⟨by decide, by decide, rfl, by decide, fun _ => rfl, rfl, ?_, by decide⟩
  intro s h0 h
  exact entityTypeToProto_none_of_not_named s h0 h

/-- C22, amended, at a domain string outside the enumeration. -/
theorem entity_type_mappers_witness :
    entityTypeToProtoPtr (some "Gameap\\Models\\Task") = none :=
  entity_type_mappers.2.2.2.2.2.2.1 "Gameap\\Models\\Task" (by decide) (by decide)

/-! ## Theorems: base 64 and `DecodePossibleBase64` -/

theorem base64DecodeMap_base64Alphabet (v : Nat) (hv : v < 64) :
    base64DecodeMap (base64Alphabet v) = some v := by
  interval_cases v <;> rfl

/-- Four characters of the alphabet at the start of a quantum are written out as three
bytes. -/
theorem base64DecodeFrom_quantum (v0 v1 v2 v3 : Nat) (h0 : v0 < 64) (h1 : v1 < 64)
    (h2 : v2 < 64) (h3 : v3 < 64) (tail : List Nat) :
    base64DecodeFrom []
        (base64Alphabet v0 :: base64Alphabet v1 :: base64Alphabet v2 :: base64Alphabet v3 :: tail)
      = (base64DecodeFrom [] tail).map (fun t => base64Quantum [v0, v1, v2, v3] ++ t) := by
  simp only [base64DecodeFrom, base64DecodeMap_base64Alphabet _ h0,
    base64DecodeMap_base64Alphabet _ h1, base64DecodeMap_base64Alphabet _ h2,
    base64DecodeMap_base64Alphabet _ h3, List.length_nil, List.nil_append, List.length_cons,
    List.cons_append, List.length_singleton]
  cases base64DecodeFrom [] tail <;> simp

theorem base64_roundtrip_aux (n : Nat) :
    ∀ bs : List Nat, bs.length ≤ n → (∀ b ∈ bs, b < 256) →
      base64Decode (base64Encode bs) = some bs := by
  induction n with
  | zero =>
    intro bs h _
    have : bs = [] := List.length_eq_zero.mp (Nat.le_zero.mp h)
    subst this
    rfl
  | succ n ih =>
    intro bs h hb
    rcases bs with _ | ⟨b0, _ | ⟨b1, _ | ⟨b2, rest⟩⟩⟩
    · rfl
    · have h0 := hb b0 (by simp)
      have e0 : b0 / 4 < 64 := by omega
      have e1 : b0 % 4 * 16 < 64 := by omega
      simp only [base64Decode, base64Encode, base64DecodeFrom, base64DecodeMap_base64Alphabet _ e0,
        base64DecodeMap_base64Alphabet _ e1, List.length_nil, List.nil_append, List.length_cons,
        List.cons_append, List.length_singleton]
      simp [base64DecodeMap, skipNewlines, base64Quantum]
      omega
    · have h0 := hb b0 (by simp)
      have h1 := hb b1 (by simp)
      have e0 : b0 / 4 < 64 := by omega
      have e1 : b0 % 4 * 16 + b1 / 16 < 64 := by omega
      have e2 : b1 % 16 * 4 < 64 := by omega
      simp only [base64Decode, base64Encode, base64DecodeFrom, base64DecodeMap_base64Alphabet _ e0,
        base64DecodeMap_base64Alphabet _ e1, base64DecodeMap_base64Alphabet _ e2,
        List.length_nil, List.nil_append, List.length_cons,
        List.cons_append, List.length_singleton]
      simp [base64DecodeMap, skipNewlines, base64Quantum]
      omega
    · have h0 := hb b0 (by simp)
      have h1 := hb b1 (by simp)
      have h2 := hb b2 (by simp)
      have e0 : b0 / 4 < 64 := by omega
      have e1 : b0 % 4 * 16 + b1 / 16 < 64 := by omega
      have e2 : b1 % 16 * 4 + b2 / 64 < 64 := by omega
      have e3 : b2 % 64 < 64 := by omega
      simp only [List.length_cons] at h
      have ih' := ih rest (by omega) (fun b hb' => hb b (by simp [hb']))
      simp only [base64Decode] at ih' ⊢
      simp only [base64Encode, List.cons_append, List.nil_append]
      rw [base64DecodeFrom_quantum _ _ _ _ e0 e1 e2 e3, ih']
      simp only [Option.map_some', base64Quantum, List.cons_append, List.nil_append,
        Option.some.injEq, List.cons.injEq, and_true]
      omega

/-- Decoding undoes encoding. -/
theorem base64_roundtrip (bs : List Nat) (hb : ∀ b ∈ bs, b < 256) :
    base64Decode (base64Encode bs) = some bs :=
  base64_roundtrip_aux bs.length bs le_rfl hb

theorem mem_skipNewlines (l : List Nat) (b : Nat) (hb : b ∈ l) (h10 : b ≠ 10) (h13 : b ≠ 13) :
    b ∈ skipNewlines l := by
  induction l with
  | nil => simp at hb
  | cons c l ih =>
    simp only [skipNewlines]
    split_ifs with hc
    · rcases List.mem_cons.1 hb with rfl | hm
      · rcases hc with hc | hc
        · exact absurd hc h10
        · exact absurd hc h13
      · exact ih hm
    · exact hb

/-- A byte that is no character of the alphabet, no line break and no padding makes
the decoder fail, wherever it stands. -/
theorem base64DecodeFrom_invalid (b : Nat) (hmap : base64DecodeMap b = none) (h10 : b ≠ 10)
    (h13 : b ≠ 13) (h61 : b ≠ 61) (src : List Nat) (hb : b ∈ src) :
    ∀ dbuf, base64DecodeFrom dbuf src = none := by
  induction src with
  | nil => simp at hb
  | cons c rest ih =>
    intro dbuf
    by_cases hcb : c = b
    · subst hcb
      simp only [base64DecodeFrom, hmap]
      rw [if_neg (by simp [h10, h13]), if_pos h61]
    · have hrest : b ∈ rest := by
        rcases List.mem_cons.1 hb with h | h
        · exact absurd h.symm hcb
        · exact h
      have ih' := ih hrest
      simp only [base64DecodeFrom]
      cases hc : base64DecodeMap c with
      | some v =>
        simp only []
        split_ifs
        · rw [ih' []]
        · exact ih' _
      | none =>
        simp only []
        by_cases hnl : c = 10 ∨ c = 13
        · rw [if_pos hnl]
          exact ih' _
        · rw [if_neg hnl]
          by_cases hp : c ≠ 61
          · rw [if_pos hp]
          · rw [if_neg hp]
            by_cases hl : dbuf.length < 2
            · rw [if_pos hl]
            · rw [if_neg hl]
              have hne : skipNewlines rest ≠ [] :=
                List.ne_nil_of_mem (mem_skipNewlines rest b hrest h10 h13)
              by_cases hl2 : dbuf.length = 2
              · rw [if_pos hl2]
                cases hs : skipNewlines rest with
                | nil => rfl
                | cons c' rest' =>
                  simp only []
                  by_cases hc' : c' ≠ 61
                  · rw [if_pos hc']
                  · rw [if_neg hc']
                    have hmem : b ∈ c' :: rest' := by
                      rw [← hs]
                      exact mem_skipNewlines rest b hrest h10 h13
                    have hmem' : b ∈ rest' := by
                      rcases List.mem_cons.1 hmem with h | h
                      · exact absurd (h.trans (not_not.1 hc')) h61
                      · exact h
                    rw [if_neg (List.ne_nil_of_mem (mem_skipNewlines rest' b hmem' h10 h13))]
              · rw [if_neg hl2, if_neg hne]

theorem bytesContain_iff (s sub : List Nat) : bytesContain s sub = true ↔ sub <:+: s := by
  simp only [bytesContain, List.any_eq_true, List.mem_tails, List.isPrefixOf_iff_prefix]
  constructor
  · rintro ⟨t, ht, hp⟩
    exact hp.isInfix.trans ht.isInfix
  · rintro ⟨a, b, rfl⟩
    exact ⟨sub ++ b, ⟨a, by simp⟩, List.prefix_append _ _⟩

/-- Content that `IsPEMContent` accepts holds a hyphen. -/
theorem mem_hyphen_of_IsPEMContent (data : List Nat) (h : IsPEMContent data = true) :
    45 ∈ data := by
  simp only [IsPEMContent, Bool.and_eq_true, Bool.or_eq_true, decide_eq_true_eq,
    beq_iff_eq] at h
  rcases h.2 with hc | hh
  · have := (bytesContain_iff data pemMarker).1 hc
    exact this.subset (by simp [pemMarker])
  · cases data with
    | nil => simp at hh
    | cons c data =>
      simp only [List.head?_cons, Option.some.injEq] at hh
      simp [hh]

/-- On input with a hyphen the decoder fails and the input is returned as it is. -/
theorem DecodePossibleBase64_of_hyphen (s : List Nat) (h : 45 ∈ s) :
    DecodePossibleBase64 s = s := by
  unfold DecodePossibleBase64 base64Decode
  rw [base64DecodeFrom_invalid 45 (by decide) (by decide) (by decide) (by decide) s h []]

/-- C23, as stated, fails in two ways. The input `LXg=` is valid base 64 for `-x`,
which does not begin with `-----BEGIN`, and `DecodePossibleBase64` returns `-x`, not
the input. The input `eC0tLS0tQkVHSU4=` is valid base 64 for `x-----BEGIN`, which
holds the marker but not at its start, and is returned decoded as well. -/
theorem decode_accepts_hyphen_and_inner_marker :
    (base64Decode [76, 88, 103, 61] = some [45, 120] ∧
      pemMarker.isPrefixOf [45, 120] = false ∧
      DecodePossibleBase64 [76, 88, 103, 61] = [45, 120]) ∧
    (base64Decode [101, 67, 48, 116, 76, 83, 48, 116, 81, 107, 86, 72, 83, 85, 52, 61]
        = some [120, 45, 45, 45, 45, 45, 66, 69, 71, 73, 78] ∧
      pemMarker.isPrefixOf [120, 45, 45, 45, 45, 45, 66, 69, 71, 73, 78] = false ∧
      DecodePossibleBase64 [101, 67, 48, 116, 76, 83, 48, 116, 81, 107, 86, 72, 83, 85, 52, 61]
        = [120, 45, 45, 45, 45, 45, 66, 69, 71, 73, 78]) := by
  decide

/-- C23, amended. `DecodePossibleBase64` returns the standard base-64 decoding of its
input when the input is valid base 64 and the decoded bytes are not empty and hold the
marker `-----BEGIN` anywhere or begin with a hyphen, and the input unchanged in every
other case. In particular, for every PEM text `p` beginning with `-----BEGIN`, the
base-64 encoding of `p` gives `p`, and `p` gives `p`. -/
theorem decode_possible_base64_cases :
    (∀ s decoded, base64Decode s = some decoded → decoded ≠ [] →
      (pemMarker <:+: decoded ∨ decoded.head? = some 45) → DecodePossibleBase64 s = decoded) ∧
    (∀ s, (∀ decoded, base64Decode s = some decoded →
        decoded = [] ∨ (¬ pemMarker <:+: decoded ∧ decoded.head? ≠ some 45)) →
      DecodePossibleBase64 s = s) ∧
    (∀ p, (∀ b ∈ p, b < 256) → pemMarker <+: p →
      DecodePossibleBase64 (base64Encode p) = p ∧ DecodePossibleBase64 p = p) := by
  refine ⟨?_, ?_, ?_⟩
  · intro s decoded hdec hne hpem
    have hlen : decoded.length > 0 := List.length_pos.2 hne
    have hp : IsPEMContent decoded = true := by
      simp only [IsPEMContent, Bool.and_eq_true, Bool.or_eq_true, decide_eq_true_eq,
        beq_iff_eq]
      refine ⟨hlen, ?_⟩
      rcases hpem with h | h
      · exact Or.inl ((bytesContain_iff _ _).2 h)
      · exact Or.inr h
    unfold DecodePossibleBase64
    rw [hdec]
    simp only []
    rw [if_pos ⟨hlen, hp⟩]
  · intro s h
    unfold DecodePossibleBase64
    cases hdec : base64Decode s with
    | none => rfl
    | some decoded =>
      simp only []
      rw [if_neg]
      rintro ⟨hlen, hp⟩
      simp only [IsPEMContent, Bool.and_eq_true, Bool.or_eq_true, decide_eq_true_eq,
        beq_iff_eq] at hp
      rcases h decoded hdec with h0 | ⟨h1, h2⟩
      · rw [h0] at hlen
        simp at hlen
      · rcases hp.2 with hc | hh
        · exact h1 ((bytesContain_iff _ _).1 hc)
        · exact h2 hh
  · intro p hb hpre
    have hmem : 45 ∈ p := hpre.subset (by simp [pemMarker])
    have hne : p ≠ [] := List.ne_nil_of_mem hmem
    have hlen : p.length > 0 := List.length_pos.2 hne
    have hp : IsPEMContent p = true := by
      simp only [IsPEMContent, Bool.and_eq_true, Bool.or_eq_true, decide_eq_true_eq,
        beq_iff_eq]
      exact ⟨hlen, Or.inl ((bytesContain_iff _ _).2 hpre.isInfix)⟩
    refine ⟨?_, DecodePossibleBase64_of_hyphen p hmem⟩
    unfold DecodePossibleBase64
    rw [base64_roundtrip p hb]
    simp only []
    rw [if_pos ⟨hlen, hp⟩]

/-- C23, amended, at the text `-----BEGIN X`. -/
theorem decode_possible_base64_cases_witness :
    DecodePossibleBase64 (base64Encode (pemMarker ++ [32, 88])) = pemMarker ++ [32, 88] ∧
    DecodePossibleBase64 (pemMarker ++ [32, 88]) = pemMarker ++ [32, 88] :=
  decode_possible_base64_cases.2.2 (pemMarker ++ [32, 88]) (by decide)
    (List.prefix_append _ _)

/-- C29. `DecodePossibleBase64` is idempotent: applied to its own result, read back as
a string, it returns that result. -/
theorem decode_possible_base64_idempotent (s : List Nat) :
    DecodePossibleBase64 (DecodePossibleBase64 s) = DecodePossibleBase64 s := by
  cases hdec : base64Decode s with
  | none =>
    have h : DecodePossibleBase64 s = s := by
      unfold DecodePossibleBase64
      rw [hdec]
    rw [h, h]
  | some decoded =>
    by_cases hc : decoded.length > 0 ∧ IsPEMContent decoded = true
    · have h : DecodePossibleBase64 s = decoded := by
        unfold DecodePossibleBase64
        rw [hdec]
        simp only []
        rw [if_pos hc]
      rw [h]
      exact DecodePossibleBase64_of_hyphen decoded (mem_hyphen_of_IsPEMContent decoded hc.2)
    · have h : DecodePossibleBase64 s = s := by
        unfold DecodePossibleBase64
        rw [hdec]
        simp only []
        rw [if_neg hc]
      rw [h, h]

/-! ## Theorems: the HTTPS redirect -/

/-- C24 fails at a bracketed IPv6 literal without port: for the `Host` header `[::1]`,
the request URI `/` and the HTTPS port 443 the middleware cuts the host at its last
colon and answers 301 with `Location: https://[:/`, where the claim has
`https://[::1]/`; with the port 8443 it answers `https://[::8443/`. -/
theorem https_redirect_cuts_ipv6_literal :
    HTTPSRedirectMiddleware 443 ⟨false, "[::1]", "/"⟩
      = Response.redirect 301 "https://[:/" ∧
    HTTPSRedirectMiddleware 8443 ⟨false, "[::1]", "/"⟩
      = Response.redirect 301 "https://[::8443/" := by
  decide

theorem lastIndexColon_none (l : List Char) (h : ':' ∉ l) : lastIndexColon l = none := by
  induction l with
  | nil => rfl
  | cons c l ih =>
    simp only [List.mem_cons, not_or] at h
    simp only [lastIndexColon, ih h.2]
    rw [if_neg (fun e => h.1 e.symm)]

theorem lastIndexColon_append (a p : List Char) (h : ':' ∉ p) :
    lastIndexColon (a ++ ':' :: p) = some a.length := by
  induction a with
  | nil => simp [lastIndexColon, lastIndexColon_none p h]
  | cons c a ih => simp [lastIndexColon, ih]

/-- Where the `Host` header holds no colon, or one colon followed by the port, the
redirect goes to the host without its port on the HTTPS port, the port being left out
when it is 443; a request with TLS goes to the next handler. -/
theorem https_redirect_plain_host (httpsPort : Nat) (host port uri : String)
    (hhost : ':' ∉ host.toList) (hport : ':' ∉ port.toList) :
    HTTPSRedirectMiddleware httpsPort ⟨false, host, uri⟩
      = Response.redirect 301 (hexEscapeNonASCII
          ("https://" ++ host ++ (if httpsPort ≠ 443 then ":" ++ toString httpsPort else "")
            ++ uri)) ∧
    HTTPSRedirectMiddleware httpsPort ⟨false, host ++ ":" ++ port, uri⟩
      = Response.redirect 301 (hexEscapeNonASCII
          ("https://" ++ host ++ (if httpsPort ≠ 443 then ":" ++ toString httpsPort else "")
            ++ uri)) ∧
    HTTPSRedirectMiddleware httpsPort ⟨true, host, uri⟩ = Response.next := by
  refine ⟨?_, ?_, rfl⟩
  · simp only [HTTPSRedirectMiddleware, lastIndexColon_none _ hhost, if_true]
    by_cases h : httpsPort = 443
    · simp [h]
    · simp [h, String.append_assoc]
  · have hl : (host ++ ":" ++ port).toList = host.toList ++ ':' :: port.toList := by
      simp [String.toList, String.data_append]
    simp only [HTTPSRedirectMiddleware, hl, lastIndexColon_append _ _ hport, if_true,
      List.take_left']
    by_cases h : httpsPort = 443
    · simp [h]
    · simp [h, String.append_assoc]

/-! ## Theorems: `Set` and `Get` of the storage service -/

/-- C25 fails when a plugin uses one key with entity ID 0 and with no entity at all.
After `Set("k", no type, entity ID 0, "A")` and `Set("k", no type, no ID, "B")` two
entries are stored, and `Get("k", no type, no ID)` returns `"A"`; in the other order,
`Get("k", no type, entity ID 0)` after the two `Set`s returns the payload of the entry
without entity. -/
theorem storage_get_returns_other_scope (DefaultLimit : Int) :
    (StorageSet 1 (StorageSet 1 NewPluginStorageRepository ⟨"k", none, some 0, [65]⟩ 10).1
        ⟨"k", none, none, [66]⟩ 11).2 = true ∧
    StorageGet DefaultLimit 1
        (StorageSet 1 (StorageSet 1 NewPluginStorageRepository ⟨"k", none, some 0, [65]⟩ 10).1
          ⟨"k", none, none, [66]⟩ 11).1 ⟨"k", none, none⟩
      = some { Payload := [65], Found := true } ∧
    StorageGet DefaultLimit 1
        (StorageSet 1 (StorageSet 1 NewPluginStorageRepository ⟨"k", none, none, [65]⟩ 10).1
          ⟨"k", none, some 0, [66]⟩ 11).1 ⟨"k", none, some 0⟩
      = some { Payload := [65], Found := true } := by
  refine ⟨rfl, ?_, ?_⟩
  · unfold StorageGet Find
    simp only [applyPagination_first]
    have h : sortEntries
        ((getFilteredEntryIDs
            (StorageSet 1
              (StorageSet 1 NewPluginStorageRepository ⟨"k", none, some 0, [65]⟩ 10).1
              ⟨"k", none, none, [66]⟩ 11).1
            (some (storageKeyFilter 1 "k" none none))).filterMap
          (fun entryID =>
            (StorageSet 1
              (StorageSet 1 NewPluginStorageRepository ⟨"k", none, some 0, [65]⟩ 10).1
              ⟨"k", none, none, [66]⟩ 11).1.entries.get entryID)) []
        = [⟨1, 1, "k", none, some 0, [65], some 10, some 10⟩,
           ⟨2, 1, "k", none, none, [66], some 11, some 11⟩] := by
      decide
    rw [h]
    rfl
  · unfold StorageGet Find
    simp only [applyPagination_first]
    have h : sortEntries
        ((getFilteredEntryIDs
            (StorageSet 1
              (StorageSet 1 NewPluginStorageRepository ⟨"k", none, none, [65]⟩ 10).1
              ⟨"k", none, some 0, [66]⟩ 11).1
            (some (storageKeyFilter 1 "k" none (some 0)))).filterMap
          (fun entryID =>
            (StorageSet 1
              (StorageSet 1 NewPluginStorageRepository ⟨"k", none, none, [65]⟩ 10).1
              ⟨"k", none, some 0, [66]⟩ 11).1.entries.get entryID)) []
        = [⟨1, 1, "k", none, none, [65], some 10, some 10⟩,
           ⟨2, 1, "k", none, some 0, [66], some 11, some 11⟩] := by
      decide
    rw [h]
    rfl

/-! ## Theorems: the repository under the calls of the storage host library -/

theorem savesSatisfy_mono (ok ok' : PluginStorageRepository → PluginStorageEntry → Prop)
    (h : ∀ r e, ok r e → ok' r e) (ops : List RepoOp) :
    ∀ r, savesSatisfy ok r ops → savesSatisfy ok' r ops := by
  induction ops with
  | nil => intro _ _; trivial
  | cons op ops ih =>
    intro r hsat
    refine ⟨?_, ih _ hsat.2⟩
    have h1 := hsat.1
    cases op with
    | save entry now => exact h r entry h1
    | delete id => trivial
    | deleteByPlugin p => trivial

/-- C26. In every state reached from the empty repository by fewer than `2 ^ 64` calls
of `Save` with an entry passed with ID 0, `Delete` and `DeleteByPlugin`, no two stored
entries have the same `(plugin_id, key, entity_type, entity_id)`, the ID of every
stored entry is at most the ID counter, and each of the three secondary indices lists
under a plugin ID, a key or an entity key exactly the IDs of the stored entries that
carry it. -/
theorem storage_invariants_zero_id (ops : List RepoOp) (hlen : ops.length < 2 ^ 64)
    (hsat : savesSatisfy passedWithZeroID NewPluginStorageRepository ops) :
    UniqueTuples (runOps NewPluginStorageRepository ops) ∧
    (∀ k e, (runOps NewPluginStorageRepository ops).entries.get k = some e →
      e.ID ≤ (runOps NewPluginStorageRepository ops).nextID) ∧
    (∀ p id, indexHas (runOps NewPluginStorageRepository ops).pluginIDIndex p id ↔
      ∃ e, (runOps NewPluginStorageRepository ops).entries.get id = some e ∧
        e.ID = id ∧ e.PluginID = p) ∧
    (∀ k id, indexHas (runOps NewPluginStorageRepository ops).keyIndex k id ↔
      ∃ e, (runOps NewPluginStorageRepository ops).entries.get id = some e ∧
        e.ID = id ∧ e.Key = k) ∧
    (∀ ek id, indexHas (runOps NewPluginStorageRepository ops).entityIndex ek id ↔
      ∃ e, (runOps NewPluginStorageRepository ops).entries.get id = some e ∧
        e.ID = id ∧ makeEntityKey e.EntityType e.EntityID = ek) := by
  have hroom : NewPluginStorageRepository.nextID + ops.length < 2 ^ 64 := by
    simpa [NewPluginStorageRepository] using hlen
  have hu := runOps_keeps_unique ops NewPluginStorageRepository Synced_New Issued_New
    UniqueTuples_New
    (savesSatisfy_mono passedWithZeroID keepsTupleUnique (fun _ _ h => Or.inl h) ops _ hsat)
    hroom
  obtain ⟨⟨hkeys, hp, hk, he⟩, hi, _⟩ :=
    runOps_keeps passedWithZeroID
      (fun r e h => by
        unfold passedWithZeroID at h
        unfold issuedOrZero
        omega)
      ops NewPluginStorageRepository Synced_New Issued_New hsat hroom
  refine ⟨hu, ?_, ?_, ?_, ?_⟩
  · intro k e hget
    rw [hkeys k e hget]
    exact (hi k e hget).2
  · intro p id
    rw [hp]
    exact ⟨fun ⟨e, h1, h2⟩ => ⟨e, h1, hkeys _ _ h1, h2⟩, fun ⟨e, h1, _, h2⟩ => ⟨e, h1, h2⟩⟩
  · intro k id
    rw [hk]
    exact ⟨fun ⟨e, h1, h2⟩ => ⟨e, h1, hkeys _ _ h1, h2⟩, fun ⟨e, h1, _, h2⟩ => ⟨e, h1, h2⟩⟩
  · intro ek id
    rw [he]
    exact ⟨fun ⟨e, h1, h2⟩ => ⟨e, h1, hkeys _ _ h1, h2⟩, fun ⟨e, h1, _, h2⟩ => ⟨e, h1, h2⟩⟩

/-- C26 at a history of four saves, a `Delete` and a `DeleteByPlugin`. -/
theorem storage_invariants_zero_id_witness :
    UniqueTuples (runOps NewPluginStorageRepository zeroIDHistory) ∧
    (∀ k e, (runOps NewPluginStorageRepository zeroIDHistory).entries.get k = some e →
      e.ID ≤ (runOps NewPluginStorageRepository zeroIDHistory).nextID) ∧
    (∀ p id, indexHas (runOps NewPluginStorageRepository zeroIDHistory).pluginIDIndex p id ↔
      ∃ e, (runOps NewPluginStorageRepository zeroIDHistory).entries.get id = some e ∧
        e.ID = id ∧ e.PluginID = p) ∧
    (∀ k id, indexHas (runOps NewPluginStorageRepository zeroIDHistory).keyIndex k id ↔
      ∃ e, (runOps NewPluginStorageRepository zeroIDHistory).entries.get id = some e ∧
        e.ID = id ∧ e.Key = k) ∧
    (∀ ek id, indexHas (runOps NewPluginStorageRepository zeroIDHistory).entityIndex ek id ↔
      ∃ e, (runOps NewPluginStorageRepository zeroIDHistory).entries.get id = some e ∧
        e.ID = id ∧ makeEntityKey e.EntityType e.EntityID = ek) :=
  storage_invariants_zero_id zeroIDHistory (by decide)
    ⟨rfl, rfl, rfl, rfl, trivial, trivial, trivial⟩

/-! ## Theorems: a plugin listed twice -/

/-- C27 fails when a plugin names an event type twice: after `RefreshSubscriptions`
over one plugin whose list is `[SERVER_POST_START, SERVER_POST_START]`, the plugin is
twice in the subscriber sequence, and one `Dispatch` of a `SERVER_POST_START` event
calls its `HandleEvent` twice and lists its ID twice in `HandledBy`. -/
theorem dispatch_invokes_twice_listed_plugin_twice :
    (subscribersOf (RefreshSubscriptions NewDispatcher
        [guestSubscribed "A" [EventType.SERVER_POST_START, EventType.SERVER_POST_START]])
        EventType.SERVER_POST_START).map (fun p => p.InfoId) = ["A", "A"] ∧
    (Dispatch (RefreshSubscriptions NewDispatcher
        [guestSubscribed "A" [EventType.SERVER_POST_START, EventType.SERVER_POST_START]])
        ⟨EventType.SERVER_POST_START, 0⟩).invoked.map (fun p => p.InfoId) = ["A", "A"] ∧
    (Dispatch (RefreshSubscriptions NewDispatcher
        [guestSubscribed "A" [EventType.SERVER_POST_START, EventType.SERVER_POST_START]])
        ⟨EventType.SERVER_POST_START, 0⟩).result.HandledBy = ["A", "A"] := by
  decide

/-! ## Theorems: the plugin registry -/

/-- C28 fails after a `Save` with an explicit ID the counter has yet to reach: a plugin
saved with ID 1 is stored under ID 1 and leaves the counter at 0; the `Save` of a
second plugin passed with ID 0 takes ID 1 from the counter and replaces the first row,
so that one row is stored as before, and it is the second plugin. -/
theorem plugin_save_reuses_stored_id :
    (GoMap.get (PluginRepository.Save NewPluginRepository (samplePlugin 1 "a") 5).1.plugins 1).map
      (fun p => p.Name) = some "a" ∧
    (PluginRepository.Save
      (PluginRepository.Save NewPluginRepository (samplePlugin 1 "a") 5).1
      (samplePlugin 0 "b") 6).2.ID = 1 ∧
    (PluginRepository.Save
      (PluginRepository.Save NewPluginRepository (samplePlugin 1 "a") 5).1
      (samplePlugin 0 "b") 6).1.plugins.map (fun kv => (kv.1, kv.2.Name)) = [(1, "b")] := by
  decide

/-! ## Theorems: the PostgreSQL array codec -/

/-- C30 fails on a list whose last string is empty: the list with the one empty string
is written as `{""}` and read back as the empty list, and `["a", ""]` is written as
`{a,""}` and read back as `["a"]`. -/
theorem postgres_array_drops_last_empty_string :
    stringsToPostgresArray [""] = some "\x7b\"\"\x7d" ∧
    parsePostgresArrayToStrings (stringsToPostgresArray [""]) = [] ∧
    stringsToPostgresArray ["a", ""] = some "\x7ba,\"\"\x7d" ∧
    parsePostgresArrayToStrings (stringsToPostgresArray ["a", ""]) = ["a"] := by
  decide

/-! ## Theorems: what `Dispatch` and the registry do keep -/

/-- The calls the loop adds are a prefix of the enabled subscribers, and the IDs it
adds to `HandledBy` are among the IDs of those calls, in their order. -/
theorem dispatchLoop_calls (c : Bool) (event : Event) (subs : List LoadedPlugin)
    (run : DispatchRun) :
    ∃ tr hs, (dispatchLoop c event subs run).invoked = run.invoked ++ tr ∧
      (dispatchLoop c event subs run).result.HandledBy = run.result.HandledBy ++ hs ∧
      tr <+: subs.filter (fun q => q.Enabled) ∧
      hs.Sublist (tr.map (fun q => q.InfoId)) := by
  induction subs generalizing run with
  | nil => exact ⟨[], [], by simp [dispatchLoop], by simp [dispatchLoop], by simp, by simp⟩
  | cons q subs ih =>
    simp only [dispatchLoop]
    cases hen : q.Enabled with
    | false =>
      obtain ⟨tr, hs, h1, h2, h3, h4⟩ := ih run
      exact ⟨tr, hs, by simpa using h1, by simpa using h2, by simpa [hen] using h3, h4⟩
    | true =>
      simp only [Bool.not_true, Bool.false_eq_true, if_false]
      cases hres : q.HandleEvent event with
      | error err =>
        obtain ⟨tr, hs, h1, h2, h3, h4⟩ := ih
          { result :=
              { run.result with
                Errors := run.result.Errors ++ [wrapHandleError err q.InfoId] }
            invoked := run.invoked ++ [q] }
        refine ⟨q :: tr, hs, by simpa using h1, by simpa using h2, ?_, ?_⟩
        · simpa [hen] using h3
        · simpa using h4.cons q.InfoId
      | ok r =>
        simp only []
        have hhandled : ∃ h0, h0.Sublist [q.InfoId] ∧
            (if r.Handled then
              { run.result with HandledBy := run.result.HandledBy ++ [q.InfoId] }
            else run.result).HandledBy = run.result.HandledBy ++ h0 := by
          cases r.Handled
          · exact ⟨[], by simp, by simp⟩
          · exact ⟨[q.InfoId], by simp, by simp⟩
        obtain ⟨h0, hsub0, hh0⟩ := hhandled
        by_cases hc : (c && r.ShouldCancel) = true
        · rw [if_pos hc]
          refine ⟨[q], h0, rfl, ?_, ?_, ?_⟩
          · simpa using hh0
          · simp [hen]
          · simpa using hsub0
        · rw [if_neg hc]
          obtain ⟨tr, hs, h1, h2, h3, h4⟩ := ih
            { result :=
                { (if r.Handled then
                      { run.result with HandledBy := run.result.HandledBy ++ [q.InfoId] }
                    else run.result) with
                  ModifiedData := mapsCopy
                    (if r.Handled then
                      { run.result with HandledBy := run.result.HandledBy ++ [q.InfoId] }
                    else run.result).ModifiedData r.ModifiedData }
              invoked := run.invoked ++ [q] }
          refine ⟨q :: tr, h0 ++ hs, by simpa using h1, ?_, ?_, ?_⟩
          · rw [h2]
            simp only []
            rw [hh0, List.append_assoc]
          · simpa [hen] using h3
          · have := hsub0.append h4
            simpa using this

/-- While no plugin ID stands twice in the subscriber sequence of the event type, a
`Dispatch` calls each plugin at most once and lists each plugin ID at most once in
`HandledBy`. -/
theorem dispatch_once_of_nodup (d : Dispatcher) (event : Event)
    (hnodup : ((subscribersOf d event.Typ).map (fun q => q.InfoId)).Nodup) :
    ((Dispatch d event).invoked.map (fun q => q.InfoId)).Nodup ∧
    (Dispatch d event).result.HandledBy.Nodup := by
  rw [Dispatch_eq_loop]
  obtain ⟨tr, hs, h1, h2, h3, h4⟩ := dispatchLoop_calls (isCancellableEvent event.Typ) event
    (subscribersOf d event.Typ) { result := emptyResult, invoked := [] }
  have htr : (tr.map (fun q => q.InfoId)).Nodup := by
    have hsub : tr.Sublist (subscribersOf d event.Typ) :=
      h3.sublist.trans (List.filter_sublist _)
    exact hnodup.sublist (hsub.map _)
  rw [h1, h2]
  simp only [List.nil_append, emptyResult]
  exact ⟨htr, htr.sublist h4⟩

/-- A `Save` of a plugin passed with ID 0, while no row is stored under ID 0 or under
the next value of the counter, assigns that value and leaves every stored row as it
is. -/
theorem PluginRepository.Save_assigns_free_id (r : PluginRepository) (plugin : Plugin) (now : Nat)
    (h0 : plugin.ID = 0) (hzero : GoMap.get r.plugins 0 = none)
    (hfree : GoMap.get r.plugins ((r.nextID + 1) % 2 ^ 32) = none) :
    (PluginRepository.Save r plugin now).2.ID = (r.nextID + 1) % 2 ^ 32 ∧
    GoMap.get (PluginRepository.Save r plugin now).1.plugins ((r.nextID + 1) % 2 ^ 32)
      = some (PluginRepository.Save r plugin now).2 ∧
    ∀ k row, GoMap.get r.plugins k = some row →
      GoMap.get (PluginRepository.Save r plugin now).1.plugins k = some row := by
  have hid : (PluginRepository.Save r plugin now).2.ID = (r.nextID + 1) % 2 ^ 32 := by
    unfold PluginRepository.Save
    simp only [h0, hzero, Option.isSome_none, Bool.not_false, if_true]
    cases plugin.CreatedAt with
    | none => rfl
    | some t =>
      simp only []
      split_ifs <;> rfl
  have hplugins : (PluginRepository.Save r plugin now).1.plugins
      = GoMap.set r.plugins (PluginRepository.Save r plugin now).2.ID
          (PluginRepository.Save r plugin now).2 := by
    unfold PluginRepository.Save
    simp only [h0, hzero, Option.isSome_none, Bool.not_false, if_true]
    cases plugin.CreatedAt with
    | none => rfl
    | some t =>
      simp only []
      split_ifs <;> rfl
  refine ⟨hid, ?_, ?_⟩
  · rw [hplugins, GoMap.get_set, hid, if_pos rfl]
  · intro k row hk
    rw [hplugins, GoMap.get_set, hid, if_neg, hk]
    intro hkk
    rw [← hkk, hfree] at hk
    cases hk

/-! ## Theorems: where the PostgreSQL array codec does round-trip -/

theorem arrayScan_plain (l : List Char) (st : ArrayScan) (hesc : st.escaped = false)
    (hl : ∀ c ∈ l, c ≠ '\\' ∧ c ≠ '"' ∧ (c ≠ ',' ∨ st.inQuotes = true)) :
    l.foldl arrayScanStep st = { st with current := st.current ++ l } := by
  induction l generalizing st with
  | nil => simp
  | cons c l ih =>
    obtain ⟨h1, h2, h3⟩ := hl c (List.mem_cons_self _ _)
    have hstep : arrayScanStep st c = { st with current := st.current ++ [c] } := by
      unfold arrayScanStep
      rw [if_neg (by simp [hesc]), if_neg h1, if_neg h2, if_neg]
      rintro ⟨hc, hq⟩
      rcases h3 with h3 | h3
      · exact h3 hc
      · rw [hq] at h3
        cases h3
    rw [List.foldl_cons, hstep,
      ih { st with current := st.current ++ [c] } hesc
        (fun c' hc' => hl c' (List.mem_cons_of_mem _ hc'))]
    simp

/-- Inside quotes the loop reads an escaped text back as the text. -/
theorem arrayScan_escaped (l : List Char) (st : ArrayScan) (hesc : st.escaped = false)
    (hq : st.inQuotes = true) :
    (replaceAllChar (replaceAllChar l '\\' ['\\', '\\']) '"' ['\\', '"']).foldl arrayScanStep st
      = { st with current := st.current ++ l } := by
  induction l generalizing st with
  | nil => simp [replaceAllChar]
  | cons c l ih =>
    have hsplit : replaceAllChar (replaceAllChar (c :: l) '\\' ['\\', '\\']) '"' ['\\', '"']
        = replaceAllChar (if c = '\\' then ['\\', '\\'] else [c]) '"' ['\\', '"']
          ++ replaceAllChar (replaceAllChar l '\\' ['\\', '\\']) '"' ['\\', '"'] := by
      simp [replaceAllChar, List.flatMap_append]
    rw [hsplit, List.foldl_append]
    by_cases hb : c = '\\'
    · subst hb
      have h1 : replaceAllChar (if '\\' = '\\' then ['\\', '\\'] else ['\\']) '"' ['\\', '"']
          = ['\\', '\\'] := by decide
      rw [h1]
      have h2 : List.foldl arrayScanStep st ['\\', '\\']
          = { st with current := st.current ++ ['\\'] } := by
        simp [arrayScanStep, hesc]
      rw [h2, ih { st with current := st.current ++ ['\\'] } hesc hq]
      simp
    · by_cases hd : c = '"'
      · subst hd
        have h1 : replaceAllChar (if '"' = '\\' then ['\\', '\\'] else ['"']) '"' ['\\', '"']
            = ['\\', '"'] := by decide
        rw [h1]
        have h2 : List.foldl arrayScanStep st ['\\', '"']
            = { st with current := st.current ++ ['"'] } := by
          simp [arrayScanStep, hesc]
        rw [h2, ih { st with current := st.current ++ ['"'] } hesc hq]
        simp
      · have h1 : replaceAllChar (if c = '\\' then ['\\', '\\'] else [c]) '"' ['\\', '"']
            = [c] := by
          simp [replaceAllChar, hb, hd]
        rw [h1]
        have h2 : List.foldl arrayScanStep st [c]
            = { st with current := st.current ++ [c] } := by
          simp [arrayScanStep, hesc, hb, hd, hq]
        rw [h2, ih { st with current := st.current ++ [c] } hesc hq]
        simp

/-- Outside quotes the loop reads an escaped element back as the string. -/
theorem arrayScan_element (s : String) (st : ArrayScan) (hesc : st.escaped = false)
    (hq : st.inQuotes = false) :
    (escapePostgresArrayElement s).toList.foldl arrayScanStep st
      = { st with current := st.current ++ s.toList } := by
  unfold escapePostgresArrayElement
  by_cases h0 : s = ""
  · subst h0
    simp [arrayScanStep, hesc, hq]
  · rw [if_neg h0]
    simp only []
    by_cases hn : (s.toList.any
        (fun c => c = '"' || c = ',' || c = '{' || c = '}' || c = '\\')) = true
    · rw [hn]
      simp only [Bool.not_true, Bool.false_eq_true, if_false]
      show List.foldl arrayScanStep st
        (['"'] ++ replaceAllChar (replaceAllChar s.toList '\\' ['\\', '\\']) '"' ['\\', '"']
          ++ ['"']) = _
      rw [List.foldl_append, List.foldl_append]
      have h1 : List.foldl arrayScanStep st ['"'] = { st with inQuotes := true } := by
        simp [arrayScanStep, hesc, hq]
      rw [h1, arrayScan_escaped s.toList { st with inQuotes := true } hesc rfl]
      simp [arrayScanStep, hesc, hq]
    · have hn' : (s.toList.any
          (fun c => c = '"' || c = ',' || c = '{' || c = '}' || c = '\\')) = false := by
        simpa using hn
      rw [hn']
      simp only [Bool.not_false, if_true]
      apply arrayScan_plain _ _ hesc
      intro c hc
      have := List.any_eq_false.1 hn' c hc
      simp only [Bool.or_eq_true, decide_eq_true_eq, not_or] at this
      exact ⟨this.2, this.1.1.1.1, Or.inl this.1.1.1.2⟩

/-- The loop over the joined elements: every string but the last is appended to the
result, the last one is left in the builder. -/
theorem arrayScan_join (xs : List String) (x : String) (st : ArrayScan)
    (hesc : st.escaped = false) (hq : st.inQuotes = false) (hcur : st.current = []) :
    (joinWithComma ((xs ++ [x]).map (fun s => (escapePostgresArrayElement s).toList))).foldl
        arrayScanStep st
      = { st with result := st.result ++ xs, current := x.toList } := by
  induction xs generalizing st with
  | nil =>
    simp only [List.nil_append, List.map_cons, List.map_nil, joinWithComma]
    rw [arrayScan_element x st hesc hq, hcur]
    simp
  | cons y xs ih =>
    have hj : joinWithComma (((y :: xs) ++ [x]).map
          (fun s => (escapePostgresArrayElement s).toList))
        = (escapePostgresArrayElement y).toList ++ ',' ::
            joinWithComma ((xs ++ [x]).map (fun s => (escapePostgresArrayElement s).toList)) := by
      cases xs <;> simp [joinWithComma]
    rw [hj, List.foldl_append, List.foldl_cons, arrayScan_element y st hesc hq, hcur]
    have hstep : arrayScanStep { st with current := [] ++ y.toList } ','
        = { st with result := st.result ++ [y], current := [] } := by
      simp [arrayScanStep, hesc, hq]
    rw [hstep, ih { st with result := st.result ++ [y], current := [] } hesc hq rfl]
    simp

theorem escapePostgresArrayElement_ne_nil (s : String) :
    (escapePostgresArrayElement s).toList ≠ [] := by
  unfold escapePostgresArrayElement
  by_cases h0 : s = ""
  · subst h0
    decide
  · rw [if_neg h0]
    simp only []
    split_ifs
    · intro h
      apply h0
      exact String.ext h
    · simp

theorem joinWithComma_ne_nil (ls : List (List Char)) (x : List Char) (hx : x ≠ []) :
    joinWithComma (ls ++ [x]) ≠ [] := by
  cases ls with
  | nil => simpa [joinWithComma] using hx
  | cons y ls =>
    cases ls <;> simp [joinWithComma]

theorem trimBraces (body : List Char) :
    trimPrefixBrace (trimSuffixBrace (['{'] ++ body ++ ['}'])) = body := by
  have h1 : trimSuffixBrace (['{'] ++ body ++ ['}']) = '{' :: body := by
    have e : ['{'] ++ body ++ ['}'] = ('{' :: body) ++ ['}'] := by simp
    unfold trimSuffixBrace
    rw [e, List.getLast?_concat]
    simp only [if_true]
    rw [List.dropLast_concat]
  rw [h1]
  simp [trimPrefixBrace]

/-- The round trip of the PostgreSQL array codec on a list `xs ++ [x]`: the list is
read back as written when its last string is not empty, and without its last string
when that is empty. -/
theorem postgres_array_roundtrip (xs : List String) (x : String) :
    parsePostgresArrayToStrings (stringsToPostgresArray (xs ++ [x]))
      = if x = "" then xs else xs ++ [x] := by
  have hbody := joinWithComma_ne_nil (xs.map (fun s => (escapePostgresArrayElement s).toList))
    (escapePostgresArrayElement x).toList (escapePostgresArrayElement_ne_nil x)
  have hmap : (xs ++ [x]).map (fun s => (escapePostgresArrayElement s).toList)
      = xs.map (fun s => (escapePostgresArrayElement s).toList)
        ++ [(escapePostgresArrayElement x).toList] := by simp
  rw [← hmap] at hbody
  unfold stringsToPostgresArray
  rw [if_neg (by simp)]
  unfold parsePostgresArrayToStrings
  simp only []
  have hne1 : String.mk (['{'] ++ joinWithComma
      ((xs ++ [x]).map (fun s => (escapePostgresArrayElement s).toList)) ++ ['}']) ≠ "" := by
    intro h
    have := congrArg String.toList h
    simp at this
  have hne2 : String.mk (['{'] ++ joinWithComma
      ((xs ++ [x]).map (fun s => (escapePostgresArrayElement s).toList)) ++ ['}'])
        ≠ "\x7b\x7d" := by
    intro h
    have h2 : ['{'] ++ joinWithComma
        ((xs ++ [x]).map (fun s => (escapePostgresArrayElement s).toList)) ++ ['}']
        = ['{', '}'] := congrArg String.toList h
    have h3 := congrArg List.length h2
    simp only [List.length_append, List.length_singleton, List.length_cons, List.length_nil] at h3
    have h4 : (joinWithComma
      ((xs ++ [x]).map (fun s => (escapePostgresArrayElement s).toList))).length = 0 := by omega
    exact hbody (List.length_eq_zero.mp h4)
  rw [if_neg (by rintro (h | h); exact hne1 h; exact hne2 h)]
  have htl : (String.mk (['{'] ++ joinWithComma
      ((xs ++ [x]).map (fun s => (escapePostgresArrayElement s).toList)) ++ ['}'])).toList
      = ['{'] ++ joinWithComma
      ((xs ++ [x]).map (fun s => (escapePostgresArrayElement s).toList)) ++ ['}'] := rfl
  rw [htl, trimBraces, if_neg hbody,
    arrayScan_join xs x { result := [], current := [], inQuotes := false, escaped := false }
      rfl rfl rfl]
  simp only [List.nil_append]
  by_cases hx : x = ""
  · subst hx
    simp
  · have hlen : x.toList.length > 0 := by
      apply List.length_pos.2
      intro h
      exact hx (String.ext h)
    rw [if_pos hlen, if_neg hx]
    simp

/-! ## Theorems: where `Get` does return what `Set` stored -/

theorem eq_singleton_of_nodup {α : Type} (l : List α) (x : α) (hn : l.Nodup)
    (hm : ∀ a, a ∈ l ↔ a = x) : l = [x] := by
  cases l with
  | nil => exact absurd ((hm x).2 rfl) (by simp)
  | cons a l =>
    have ha : a = x := (hm a).1 (List.mem_cons_self _ _)
    subst ha
    cases l with
    | nil => rfl
    | cons b l =>
      have hb : b = a := (hm b).1 (by simp)
      subst hb
      simp at hn

/-- What a `Save` of an entry passed with ID 0 stores, while the indices are in step,
the IDs issued, the tuples unique and the counter has room: the entry is stored under
the ID the call reports, with the tuple and the payload of the caller, and every entry
stored under another ID was stored before and carries another tuple. -/
theorem Save_zero_stores (r : PluginStorageRepository) (entry : PluginStorageEntry) (now : Nat)
    (hs : Synced r) (hi : Issued r) (hu : UniqueTuples r) (h0 : entry.ID = 0)
    (hroom : r.nextID + 1 < 2 ^ 64) :
    (Save r entry now).1.entries.get (Save r entry now).2.ID = some (Save r entry now).2 ∧
    sameTuple (Save r entry now).2 entry ∧
    (Save r entry now).2.Payload = entry.Payload ∧
    ∀ k e, (Save r entry now).1.entries.get k = some e → k ≠ (Save r entry now).2.ID →
      r.entries.get k = some e ∧ ¬ sameTuple e entry := by
  rcases findExistingEntry_found r hs entry.PluginID entry.Key entry.EntityType
      entry.EntityID with hx | ⟨old, hold, hp, hk, ht, hid⟩
  · have hmod : (r.nextID + 1) % 2 ^ 64 = r.nextID + 1 := Nat.mod_eq_of_lt hroom
    have hfree : r.entries.get ((r.nextID + 1) % 2 ^ 64) = none := by
      rw [hmod]
      cases hg : r.entries.get (r.nextID + 1) with
      | none => rfl
      | some e =>
        have := (hi _ e hg).2
        omega
    rw [Save_fresh r entry now h0 hx hfree]
    refine ⟨?_, ⟨rfl, rfl, rfl, rfl⟩, rfl, ?_⟩
    · rw [putEntry_entries]
      simp
    · intro k e hget hne
      rw [putEntry_entries, if_neg (fun h => hne h.symm)] at hget
      refine ⟨hget, ?_⟩
      intro hst
      exact findExistingEntry_zero r hs hi _ _ _ _ hx k e hget hst
  · have hx : findExistingEntry r entry.PluginID entry.Key entry.EntityType entry.EntityID ≠ 0 := by
      intro h
      have := (hi _ _ hold).1
      omega
    rw [Save_existing r entry old now h0 hx hold]
    refine ⟨?_, ⟨rfl, rfl, rfl, rfl⟩, rfl, ?_⟩
    · rw [putEntry_entries]
      simp
    · intro k e hget hne
      rw [putEntry_entries, if_neg (fun h => hne h.symm)] at hget
      refine ⟨hget, ?_⟩
      intro hst
      apply hne
      exact hu k _ e old hget hold
        ⟨hst.1.trans hp.symm, hst.2.1.trans hk.symm, hst.2.2.1.trans ht.symm,
          hst.2.2.2.trans hid.symm⟩

/-- After a `Set`, the `Get` with the same key, entity type and entity ID returns the
payload, provided no entry the plugin has stored under the key has entity fields that
differ from those of the request only in being absent where the request has the zero
value, or the other way round. -/
theorem storage_set_then_get (DefaultLimit : Int) (p : Nat) (r : PluginStorageRepository)
    (hs : Synced r) (hi : Issued r) (hu : UniqueTuples r) (hroom : r.nextID + 1 < 2 ^ 64)
    (req : StorageSetRequest) (now : Nat)
    (hscope : ∀ k e, r.entries.get k = some e → e.PluginID = p → e.Key = req.Key →
      makeEntityKey e.EntityType e.EntityID
        = makeEntityKey (entityTypeFromProto req.EntityType)
            (uintPtrFromUint64Ptr req.EntityId) →
      e.EntityType = entityTypeFromProto req.EntityType ∧
        e.EntityID = uintPtrFromUint64Ptr req.EntityId) :
    StorageGet DefaultLimit p (StorageSet p r req now).1 ⟨req.Key, req.EntityType, req.EntityId⟩
      = some { Payload := req.Payload, Found := true } := by
  unfold StorageSet
  simp only []
  generalize hentry : (⟨0, p, req.Key, entityTypeFromProto req.EntityType,
      uintPtrFromUint64Ptr req.EntityId, req.Payload, none, none⟩ : PluginStorageEntry)
    = entry
  have h0 : entry.ID = 0 := by rw [← hentry]
  have hep : entry.PluginID = p := by rw [← hentry]
  have hek : entry.Key = req.Key := by rw [← hentry]
  have het : entry.EntityType = entityTypeFromProto req.EntityType := by rw [← hentry]
  have hei : entry.EntityID = uintPtrFromUint64Ptr req.EntityId := by rw [← hentry]
  have hpay : entry.Payload = req.Payload := by rw [← hentry]
  obtain ⟨hstored, hst, hpl, hothers⟩ := Save_zero_stores r entry now hs hi hu h0 hroom
  have hs' : Synced (Save r entry now).1 :=
    (Save_keeps r entry now hs hi (by unfold issuedOrZero; omega) hroom).1
  generalize (Save r entry now).1 = r' at hstored hothers hs' ⊢
  generalize (Save r entry now).2 = saved at hstored hst hpl hothers
  have hmatch : filterMatches (storageKeyFilter p req.Key req.EntityType req.EntityId) saved := by
    refine ⟨Or.inl rfl, Or.inr ?_, Or.inr ?_, Or.inr ⟨_, List.mem_singleton.2 rfl, ?_⟩⟩
    · simp [storageKeyFilter, hst.1, hep]
    · simp [storageKeyFilter, hst.2.1, hek]
    · simp only []
      rw [hst.2.2.1, hst.2.2.2, het, hei]
  have hcand : (getFilteredEntryIDs r'
      (some (storageKeyFilter p req.Key req.EntityType req.EntityId))).filterMap
        (fun entryID => r'.entries.get entryID) = [saved] := by
    apply eq_singleton_of_nodup _ _ (nodup_candidates r' hs' _)
    intro e
    rw [mem_candidates r' hs']
    constructor
    · rintro ⟨hget, hm⟩
      by_contra hne
      have hk : e.ID ≠ saved.ID := by
        intro hk
        rw [hk, hstored] at hget
        exact hne (Option.some.inj hget).symm
      obtain ⟨hold, hnt⟩ := hothers e.ID e hget hk
      have hpe : e.PluginID = p := by
        have := hm.2.1
        simpa [storageKeyFilter] using this
      have hke : e.Key = req.Key := by
        have := hm.2.2.1
        simpa [storageKeyFilter] using this
      have hkey : makeEntityKey e.EntityType e.EntityID
          = makeEntityKey (entityTypeFromProto req.EntityType)
              (uintPtrFromUint64Ptr req.EntityId) := by
        have := hm.2.2.2
        simpa [storageKeyFilter, eq_comm] using this
      obtain ⟨h1, h2⟩ := hscope e.ID e hold hpe hke hkey
      exact hnt ⟨hpe.trans hep.symm, hke.trans hek.symm, h1.trans het.symm, h2.trans hei.symm⟩
    · rintro rfl
      exact ⟨hstored, hmatch⟩
  unfold StorageGet Find
  simp only [applyPagination_first, hcand]
  have hsort : sortEntries [saved] [] = [saved] := by
    simp [sortEntries]
  rw [hsort]
  simp [hpl, hpay]

/-! ## Theorems: the upsert on a repository that holds other entries -/

/-- A `Save` of the tuple of the stored entry `e`, passed with ID 0 or with the ID and
`created_at` of `e`, stores the caller's entry under the ID and `created_at` of `e`. -/
theorem Save_storesOnly (r : PluginStorageRepository) (e entry : PluginStorageEntry)
    (now : Nat) (h : storesOnly r e) (ht : sameTuple entry e)
    (hid : entry.ID = 0 ∨ (entry.ID = e.ID ∧ entry.CreatedAt = e.CreatedAt)) :
    Save r entry now =
      (putEntry r { entry with ID := e.ID, CreatedAt := e.CreatedAt, UpdatedAt := some now },
        { entry with ID := e.ID, CreatedAt := e.CreatedAt, UpdatedAt := some now }) ∧
    storesOnly (putEntry r
        { entry with ID := e.ID, CreatedAt := e.CreatedAt, UpdatedAt := some now })
      { entry with ID := e.ID, CreatedAt := e.CreatedAt, UpdatedAt := some now } := by
  obtain ⟨hs, hi, hget, hothers⟩ := h
  have hb := hi _ e hget
  constructor
  · rcases hid with h0 | ⟨h1, h2⟩
    · rcases findExistingEntry_found r hs entry.PluginID entry.Key entry.EntityType
          entry.EntityID with hx | ⟨old, hold, hp, hk, hty, hei⟩
      · exact absurd ⟨ht.1.symm, ht.2.1.symm, ht.2.2.1.symm, ht.2.2.2.symm⟩
          (findExistingEntry_zero r hs hi _ _ _ _ hx e.ID e hget)
      · have hk' : findExistingEntry r entry.PluginID entry.Key entry.EntityType
            entry.EntityID = e.ID := by
          by_contra hne
          exact hothers _ old hold hne
            ⟨hp.trans ht.1, hk.trans ht.2.1, by rw [hty, hei, ht.2.2.1, ht.2.2.2]⟩
        have hold' : old = e := by
          rw [hk', hget] at hold
          exact (Option.some.inj hold).symm
        have hx : findExistingEntry r entry.PluginID entry.Key entry.EntityType
            entry.EntityID ≠ 0 := by
          rw [hk']
          omega
        rw [Save_existing r entry old now h0 hx hold, hk', hold']
    · have hne : entry.ID ≠ 0 := by
        rw [h1]
        omega
      rw [Save_explicit r entry now hne]
      have : ({ entry with UpdatedAt := some now } : PluginStorageEntry)
          = { entry with ID := e.ID, CreatedAt := e.CreatedAt, UpdatedAt := some now } := by
        rw [← h1, ← h2]
      rw [this]
  · refine ⟨Synced_putEntry _ _ hs, Issued_putEntry _ _ hi hb.1 hb.2, ?_, ?_⟩
    · rw [putEntry_entries]
      simp
    · intro k x hx hk
      rw [putEntry_entries] at hx
      have hk2 : ¬ (e.ID = k) := fun h => hk h.symm
      simp only [hk2, if_false] at hx
      intro hm
      exact hothers k x hx hk
        ⟨hm.1.trans ht.1, hm.2.1.trans ht.2.1, by
          have := hm.2.2
          simp only [] at this
          rw [this, ht.2.2.1, ht.2.2.2]⟩

/-- The first `Save` of a tuple, with ID 0, on a repository in which no stored entry
with the plugin ID and the key has the entity key of the tuple: the entry is stored
under the next ID of the counter, created at the time of the call. -/
theorem Save_first_storesOnly (r : PluginStorageRepository) (entry : PluginStorageEntry)
    (now : Nat) (hs : Synced r) (hi : Issued r) (hroom : r.nextID + 1 < 2 ^ 64)
    (h0 : entry.ID = 0)
    (hnew : ∀ k x, r.entries.get k = some x →
      ¬ (x.PluginID = entry.PluginID ∧ x.Key = entry.Key ∧
          makeEntityKey x.EntityType x.EntityID
            = makeEntityKey entry.EntityType entry.EntityID)) :
    Save r entry now =
      (putEntry { r with nextID := r.nextID + 1 }
          { entry with ID := r.nextID + 1, CreatedAt := some now, UpdatedAt := some now },
        { entry with ID := r.nextID + 1, CreatedAt := some now, UpdatedAt := some now }) ∧
    storesOnly (putEntry { r with nextID := r.nextID + 1 }
        { entry with ID := r.nextID + 1, CreatedAt := some now, UpdatedAt := some now })
      { entry with ID := r.nextID + 1, CreatedAt := some now, UpdatedAt := some now } := by
  have hmod : (r.nextID + 1) % 2 ^ 64 = r.nextID + 1 := Nat.mod_eq_of_lt hroom
  have hfree : r.entries.get (r.nextID + 1) = none := by
    cases hg : r.entries.get (r.nextID + 1) with
    | none => rfl
    | some e =>
      have := (hi _ e hg).2
      omega
  have hs' : Synced { r with nextID := r.nextID + 1 } := hs
  have hi' : Issued { r with nextID := r.nextID + 1 } := by
    intro k e hget
    have := hi k e hget
    exact ⟨this.1, Nat.le_succ_of_le this.2⟩
  constructor
  · rcases findExistingEntry_found r hs entry.PluginID entry.Key entry.EntityType
        entry.EntityID with hx | ⟨old, hold, hp, hk, hty, hei⟩
    · have hfree' : r.entries.get ((r.nextID + 1) % 2 ^ 64) = none := by
        rw [hmod]
        exact hfree
      rw [Save_fresh r entry now h0 hx hfree', hmod]
    · exact absurd ⟨hp, hk, by rw [hty, hei]⟩ (hnew _ old hold)
  · refine ⟨Synced_putEntry _ _ hs', Issued_putEntry _ _ hi' ?_ ?_, ?_, ?_⟩
    · show 1 ≤ r.nextID + 1
      omega
    · show r.nextID + 1 ≤ r.nextID + 1
      exact le_refl _
    · rw [putEntry_entries]
      simp
    · intro k x hx hk
      rw [putEntry_entries] at hx
      have hk2 : ¬ (r.nextID + 1 = k) := fun h => hk h.symm
      simp only [hk2, if_false] at hx
      exact hnew k x hx

/-- From a repository that stores `e` as the only entry its tuple's filter admits, a
sequence of `Save`s of that tuple, each passed with ID 0 or with what an earlier `Save`
wrote, ends in such a repository again, with the ID and `created_at` of `e`. -/
theorem saveAll_storesOnly (calls : List (PluginStorageEntry × Nat))
    (r : PluginStorageRepository) (e : PluginStorageEntry)
    (earlier : List PluginStorageEntry) (h : storesOnly r e)
    (hearlier : ∀ o ∈ earlier, o.ID = e.ID ∧ o.CreatedAt = e.CreatedAt)
    (htuple : ∀ c ∈ calls, sameTuple c.1 e)
    (hreuse : callsReuseEarlier r earlier calls) :
    ∃ e', storesOnly (saveAll r calls).1 e' ∧ e'.ID = e.ID ∧
      sameTuple e' e ∧ e'.CreatedAt = e.CreatedAt ∧
      (∀ o ∈ (saveAll r calls).2, o.ID = e.ID) ∧
      (calls = [] → e' = e) ∧
      (∀ last, calls.getLast? = some last →
        e'.Payload = last.1.Payload ∧ e'.UpdatedAt = some last.2) := by
  induction calls generalizing r e earlier with
  | nil =>
    exact ⟨e, h, rfl, ⟨rfl, rfl, rfl, rfl⟩, rfl, by simp [saveAll], fun _ => rfl,
      by simp⟩
  | cons c rest ih =>
    obtain ⟨entry, now⟩ := c
    obtain ⟨hre, hrest⟩ := hreuse
    have ht : sameTuple entry e := htuple (entry, now) (List.mem_cons_self _ _)
    have hid : entry.ID = 0 ∨ (entry.ID = e.ID ∧ entry.CreatedAt = e.CreatedAt) := by
      rcases hre with h | ⟨o, ho, h1, h2⟩
      · exact Or.inl h
      · exact Or.inr ⟨h1.trans (hearlier o ho).1, h2.trans (hearlier o ho).2⟩
    obtain ⟨hsave, hnext⟩ := Save_storesOnly r e entry now h ht hid
    rw [hsave] at hrest
    obtain ⟨e', g1, g2, g3, g4, g5, g6, g7⟩ := ih
      (putEntry r { entry with ID := e.ID, CreatedAt := e.CreatedAt, UpdatedAt := some now })
      { entry with ID := e.ID, CreatedAt := e.CreatedAt, UpdatedAt := some now }
      (earlier ++ [{ entry with ID := e.ID, CreatedAt := e.CreatedAt, UpdatedAt := some now }])
      hnext
      (by
        intro o ho
        rcases List.mem_append.1 ho with h | h
        · exact hearlier o h
        · simp only [List.mem_singleton] at h
          subst h
          exact ⟨rfl, rfl⟩)
      (by
        intro c hc
        have := htuple c (List.mem_cons_of_mem _ hc)
        exact ⟨this.1.trans ht.1.symm, this.2.1.trans ht.2.1.symm,
          this.2.2.1.trans ht.2.2.1.symm, this.2.2.2.trans ht.2.2.2.symm⟩)
      hrest
    refine ⟨e', ?_, g2, ?_, g4, ?_, ?_, ?_⟩
    · simp only [saveAll, hsave]
      exact g1
    · exact ⟨g3.1.trans ht.1, g3.2.1.trans ht.2.1, g3.2.2.1.trans ht.2.2.1,
        g3.2.2.2.trans ht.2.2.2⟩
    · intro o ho
      simp only [saveAll, hsave, List.mem_cons] at ho
      rcases ho with h | h
      · subst h; rfl
      · exact g5 o h
    · intro h; cases h
    · intro last hlast
      cases rest with
      | nil =>
        simp only [List.getLast?_singleton, Option.some.injEq] at hlast
        subst hlast
        rw [g6 rfl]
        exact ⟨rfl, rfl⟩
      | cons c' rest' =>
        rw [List.getLast?_cons_cons] at hlast
        exact g7 last hlast

/-- On a repository that stores `e` as the only entry its tuple's filter admits, `Find`
for the tuple returns `e` alone. -/
theorem Find_storesOnly (DefaultLimit : Int) (r : PluginStorageRepository)
    (e : PluginStorageEntry) (h : storesOnly r e) :
    Find DefaultLimit r (some (tupleFilter e.PluginID e.Key e.EntityType e.EntityID)) [] none
      = some [e] := by
  obtain ⟨hs, _, hget, hothers⟩ := h
  obtain ⟨l, hl, hnodup, hmem⟩ := Find_unpaginated DefaultLimit r hs
    (tupleFilter e.PluginID e.Key e.EntityType e.EntityID) []
  rw [hl]
  congr 1
  apply eq_singleton_of_nodup l e hnodup
  intro x
  rw [hmem]
  constructor
  · rintro ⟨hx, hm⟩
    by_cases hk : x.ID = e.ID
    · rw [hk, hget] at hx
      exact (Option.some.inj hx).symm
    · exfalso
      obtain ⟨_, hp, hkey, hpair⟩ := hm
      simp only [tupleFilter, List.mem_singleton, List.cons_ne_nil, false_or,
        exists_eq_left] at hp hkey hpair
      exact hothers x.ID x hx hk ⟨hp, hkey, hpair.symm⟩
  · rintro rfl
    refine ⟨hget, Or.inl rfl, Or.inr ?_, Or.inr ?_, Or.inr ?_⟩
    · simp [tupleFilter]
    · simp [tupleFilter]
    · simp [tupleFilter]

/-- Storage upsert on a repository that holds other entries.  The indices are in step,
the stored IDs issued and the counter has room; no stored entry with the plugin ID and
the key has the entity key of the tuple (so the tuple is not stored, and neither is
one that differs from it only by an absent entity field against a zero one).  Then for
every non-empty sequence of `Save` calls of the tuple, each entry passed with ID 0 or
with the ID and `created_at` an earlier `Save` of the sequence wrote into it, and the
clock readings non-decreasing: every `Save` reports the same entry ID, and `Find` for
the tuple returns exactly one entry, with that ID, whose payload is the last saved
payload, whose `created_at` is the time of the first `Save`, and whose `updated_at`
is not earlier than `created_at`. -/
theorem save_sequence_from_state (DefaultLimit : Int) (r : PluginStorageRepository)
    (hs : Synced r) (hi : Issued r) (hroom : r.nextID + 1 < 2 ^ 64)
    (pluginID : Nat) (key : String)
    (entityType : Option String) (entityID : Option Nat)
    (calls : List (PluginStorageEntry × Nat)) (first last : PluginStorageEntry × Nat)
    (hfirst : calls.head? = some first) (hlast : calls.getLast? = some last)
    (htuple : ∀ c ∈ calls, c.1.PluginID = pluginID ∧ c.1.Key = key ∧
      c.1.EntityType = entityType ∧ c.1.EntityID = entityID)
    (hnew : ∀ k x, r.entries.get k = some x →
      ¬ (x.PluginID = pluginID ∧ x.Key = key ∧
          makeEntityKey x.EntityType x.EntityID = makeEntityKey entityType entityID))
    (hreuse : callsReuseEarlier r [] calls)
    (hclock : List.Chain' (fun a b => a ≤ b) (calls.map Prod.snd)) :
    ∃ id e updatedAt,
      (∀ o ∈ (saveAll r calls).2, o.ID = id) ∧
      (saveAll r calls).2.length = calls.length ∧
      Find DefaultLimit (saveAll r calls).1
        (some (tupleFilter pluginID key entityType entityID)) [] none = some [e] ∧
      e.ID = id ∧ e.Payload = last.1.Payload ∧ e.CreatedAt = some first.2 ∧
      e.UpdatedAt = some updatedAt ∧ first.2 ≤ updatedAt := by
  cases calls with
  | nil => simp at hfirst
  | cons c rest =>
    simp only [List.head?_cons, Option.some.injEq] at hfirst
    subst hfirst
    obtain ⟨entry, now⟩ := c
    obtain ⟨hre, hrest⟩ := hreuse
    have h0 : entry.ID = 0 := by
      rcases hre with h | ⟨o, ho, _⟩
      · exact h
      · simp at ho
    have ht := htuple (entry, now) (List.mem_cons_self _ _)
    obtain ⟨hsave, hnext⟩ := Save_first_storesOnly r entry now hs hi hroom h0 (by
      intro k x hx
      rw [ht.1, ht.2.1, ht.2.2.1, ht.2.2.2]
      exact hnew k x hx)
    rw [hsave] at hrest
    obtain ⟨e', g1, g2, g3, g4, g5, g6, g7⟩ := saveAll_storesOnly rest
      (putEntry { r with nextID := r.nextID + 1 }
        { entry with ID := r.nextID + 1, CreatedAt := some now, UpdatedAt := some now })
      { entry with ID := r.nextID + 1, CreatedAt := some now, UpdatedAt := some now }
      ([] ++ [{ entry with ID := r.nextID + 1, CreatedAt := some now,
                           UpdatedAt := some now }])
      hnext
      (by
        intro o ho
        simp only [List.nil_append, List.mem_singleton] at ho
        subst ho
        exact ⟨rfl, rfl⟩)
      (by
        intro c hc
        have := htuple c (List.mem_cons_of_mem _ hc)
        exact ⟨this.1.trans ht.1.symm, this.2.1.trans ht.2.1.symm,
          this.2.2.1.trans ht.2.2.1.symm, this.2.2.2.trans ht.2.2.2.symm⟩)
      hrest
    have hstate : (saveAll r ((entry, now) :: rest)).1
        = (saveAll (putEntry { r with nextID := r.nextID + 1 }
            { entry with ID := r.nextID + 1, CreatedAt := some now,
                         UpdatedAt := some now }) rest).1 := by
      simp only [saveAll, hsave]
    have hfind : Find DefaultLimit (saveAll r ((entry, now) :: rest)).1
        (some (tupleFilter pluginID key entityType entityID)) [] none = some [e'] := by
      have := Find_storesOnly DefaultLimit _ e' g1
      rw [show e'.PluginID = pluginID from g3.1.trans ht.1,
        show e'.Key = key from g3.2.1.trans ht.2.1,
        show e'.EntityType = entityType from g3.2.2.1.trans ht.2.2.1,
        show e'.EntityID = entityID from g3.2.2.2.trans ht.2.2.2] at this
      rw [hstate]
      exact this
    have hlen : ∀ (r : PluginStorageRepository) (cs : List (PluginStorageEntry × Nat)),
        (saveAll r cs).2.length = cs.length := by
      intro r cs
      induction cs generalizing r with
      | nil => rfl
      | cons c cs ih =>
        obtain ⟨en, nw⟩ := c
        simp [saveAll, ih]
    have hpair : List.Pairwise (fun a b => a ≤ b) (List.map Prod.snd ((entry, now) :: rest)) :=
      List.chain'_iff_pairwise.1 hclock
    have hids : ∀ o ∈ (saveAll r ((entry, now) :: rest)).2, o.ID = r.nextID + 1 := by
      intro o ho
      simp only [saveAll, hsave, List.mem_cons] at ho
      rcases ho with h | h
      · subst h; rfl
      · exact g5 o h
    cases rest with
    | nil =>
      simp only [List.getLast?_singleton, Option.some.injEq] at hlast
      subst hlast
      have he' := g6 rfl
      refine ⟨r.nextID + 1, e', now, hids, hlen _ _, hfind, g2, ?_, ?_, ?_, le_refl _⟩
      · rw [he']
      · rw [he']
      · rw [he']
    | cons c' rest' =>
      rw [List.getLast?_cons_cons] at hlast
      obtain ⟨hp, hu⟩ := g7 last hlast
      have hmem : last ∈ c' :: rest' := List.mem_of_getLast?_eq_some hlast
      have hle : now ≤ last.2 := by
        simp only [List.map_cons, List.pairwise_cons] at hpair
        exact hpair.1 last.2 (by
          have := List.mem_map_of_mem Prod.snd hmem
          simpa using this)
      exact ⟨r.nextID + 1, e', last.2, hids, hlen _ _, hfind, g2, hp, g4, hu, hle⟩

/-- The upsert next to an entry of another entity: on the repository that holds an
entry of plugin 1 under `"k"` for the server 7, three saves of `(1, "k", nil, nil)`. -/
theorem save_sequence_from_state_witness :
    ∃ id e updatedAt,
      (∀ o ∈ (saveAll serverEntityRepository nilEntityUpserts).2, o.ID = id) ∧
      (saveAll serverEntityRepository nilEntityUpserts).2.length = nilEntityUpserts.length ∧
      Find 100 (saveAll serverEntityRepository nilEntityUpserts).1
        (some (tupleFilter 1 "k" none none)) [] none = some [e] ∧
      e.ID = id ∧
      e.Payload = (Prod.mk (PluginStorageEntry.mk 0 1 "k" none none [68] none none) 12).1.Payload ∧
      e.CreatedAt
        = some (Prod.mk (PluginStorageEntry.mk 0 1 "k" none none [66] none none) 11).2 ∧
      e.UpdatedAt = some updatedAt ∧
      (Prod.mk (PluginStorageEntry.mk 0 1 "k" none none [66] none none) 11).2 ≤ updatedAt :=
  save_sequence_from_state 100 serverEntityRepository
    (Save_keeps NewPluginStorageRepository ⟨0, 1, "k", some "server", some 7, [65], none, none⟩
      10 Synced_New Issued_New (Nat.le_refl 0) (by decide)).1
    (Save_keeps NewPluginStorageRepository ⟨0, 1, "k", some "server", some 7, [65], none, none⟩
      10 Synced_New Issued_New (Nat.le_refl 0) (by decide)).2.1
    (by decide) 1 "k" none none nilEntityUpserts
    (⟨0, 1, "k", none, none, [66], none, none⟩, 11)
    (⟨0, 1, "k", none, none, [68], none, none⟩, 12)
    rfl rfl (by decide)
    (by
      intro k x hx
      have hk : k = 1 ∧ x = ⟨1, 1, "k", some "server", some 7, [65], some 10, some 10⟩ := by
        have hrepo : serverEntityRepository.entries
            = [(1, ⟨1, 1, "k", some "server", some 7, [65], some 10, some 10⟩)] := by
          decide
        rw [hrepo] at hx
        simp [GoMap.get] at hx
        exact ⟨hx.1.symm, hx.2.symm⟩
      rw [hk.2]
      decide)
    ⟨Or.inl rfl,
      Or.inr ⟨_, List.mem_append_right _ (List.mem_singleton_self _), rfl, rfl⟩,
      Or.inl rfl, trivial⟩
    (by simp [nilEntityUpserts])

/-! ## Theorems: the upsert next to an entry with entity ID 0 -/

/-- C2 fails on a repository that holds an entry of the same plugin and key with
entity ID 0 and no entity type (stored by a `Save` with ID 0 at time 10).  Two `Save`
calls of the tuple `(1, "k", nil, nil)`, each with ID 0, at the times 11 and 12,
report the same ID 2, and the repository then holds the IDs 1 and 2; but `Find` for
the tuple returns two entries, the entry with entity ID 0 (ID 1) before the saved
one. -/
theorem save_sequence_find_returns_two (DefaultLimit : Int) :
    (∀ c ∈ nilEntitySaves, c.1.ID = 0 ∧ c.1.PluginID = 1 ∧ c.1.Key = "k" ∧
      c.1.EntityType = none ∧ c.1.EntityID = none) ∧
    callsReuseEarlier zeroEntityRepository [] nilEntitySaves ∧
    List.Chain' (fun a b => a ≤ b) (nilEntitySaves.map Prod.snd) ∧
    (saveAll zeroEntityRepository nilEntitySaves).2.map (fun o => o.ID) = [2, 2] ∧
    (saveAll zeroEntityRepository nilEntitySaves).1.entries.keys = [1, 2] ∧
    Find DefaultLimit (saveAll zeroEntityRepository nilEntitySaves).1
        (some (tupleFilter 1 "k" none none)) [] none
      = some [⟨1, 1, "k", none, some 0, [65], some 10, some 10⟩,
              ⟨2, 1, "k", none, none, [67], some 11, some 12⟩] := by
  have hsorted : sortEntries
      ((getFilteredEntryIDs (saveAll zeroEntityRepository nilEntitySaves).1
          (some (tupleFilter 1 "k" none none))).filterMap
        (fun entryID => (saveAll zeroEntityRepository nilEntitySaves).1.entries.get entryID)) []
      = [⟨1, 1, "k", none, some 0, [65], some 10, some 10⟩,
         ⟨2, 1, "k", none, none, [67], some 11, some 12⟩] := by
    decide
  refine ⟨by decide, ⟨Or.inl rfl, Or.inl rfl, trivial⟩, by simp [nilEntitySaves],
    by decide, by decide, ?_⟩
  simp only [Find, hsorted, applyPagination]

end Gameap
